import Mathlib

/-!
# Expense tracker (FINAL-PROJECT.cpp): shallow embedding and verified properties

Modelling conventions.

* A stored `double` (an amount, a budget) is the rational value of a finite binary64
  number. The result of a `double` computation is a `Double`: a finite value, an infinity
  or a NaN; `+` and `-` round to nearest, ties to even (`Binary64.round`). In the view
  strategies `ViewState.totalExpenses` is the exact sum of the printed amounts; the
  `double` the loop accumulates is `total64` of the printed rows (`runningTotal`).
* `std::string` is `String`; character tests (`isdigit`, `isalnum`, `tolower`) are the
  C-locale ones on ASCII.
* Console input is an explicit list: whitespace-delimited tokens for `cin >> s`, whole
  (newline-terminated) lines for `getline`. When a `cin >> s` loop needs input and the
  list is exhausted the C++ loop never leaves (the failed read leaves the rejected text in
  place), which is modelled by the result `none`. A `getline` at the end of the input
  yields the empty line.
* The system clock is a parameter `currentDate : Tm`, the broken-down local time that
  `localtime(&now)` yields; `time(nullptr)` is `mktime currentDate`. Local time is a
  uniform time line of 86400-second days (no daylight-saving shifts).
* Library functions (`stod`, `get_time`, `mktime`, `regex_match`) are modelled by small
  executable definitions that are marked as such.
-/

namespace ExpenseTracker

/-! ## Data model -/

/-- The record held by `class Expense` (`id`, `category`, `amount`, `date`). -/
structure Expense where
  id : Int
  category : String
  amount : ℚ
  date : String
  deriving DecidableEq, Repr

/-- The state held by `class User`. -/
structure User where
  username : String
  password : String
  expenses : List Expense
  budget : ℚ
  deriving DecidableEq, Repr

/-- The fields of `struct tm` that the program reads or writes. -/
structure Tm where
  tm_sec : Int
  tm_min : Int
  tm_hour : Int
  tm_mday : Int
  tm_mon : Int
  tm_year : Int
  deriving DecidableEq, Repr

/-! ## Library models -/

/-- C `isdigit` in the C locale. -/
def isdigit (c : Char) : Bool := decide ('0' ≤ c) && decide (c ≤ '9')

/-- C `isalnum` in the C locale. -/
def isalnum (c : Char) : Bool :=
  isdigit c || (decide ('a' ≤ c) && decide (c ≤ 'z')) || (decide ('A' ≤ c) && decide (c ≤ 'Z'))

/-- C `tolower` in the C locale: only `A`..`Z` are changed. -/
def tolower (c : Char) : Char :=
  if 'A' ≤ c ∧ c ≤ 'Z' then Char.ofNat (c.toNat + 32) else c

/-- Value of a run of decimal digits, most significant first. -/
def digitsValue (cs : List Char) : Nat :=
  cs.foldl (fun acc c => acc * 10 + (c.toNat - 48)) 0

/-- Digits of the text read by `std::stod`, without the `.`, and the number of digits
that follow the `.`. -/
def stodParts (s : String) : Nat × Nat :=
  let whole := s.toList.takeWhile (fun c => c != '.')
  let frac := (s.toList.dropWhile (fun c => c != '.')).drop 1
  (digitsValue (whole ++ frac), frac.length)

/-! ### binary64 -/

/-- A value of type `double`: a finite number (signed zeros are not distinguished), an
infinity, or a NaN. -/
inductive Double where
  | finite (value : ℚ)
  | posInf
  | negInf
  | nan
  deriving DecidableEq

instance (n : Nat) : OfNat Double n := ⟨Double.finite (n : ℚ)⟩

/-- Unary minus on `double`. -/
def Double.neg : Double → Double
  | .finite a => .finite (-a)
  | .posInf => .negInf
  | .negInf => .posInf
  | .nan => .nan

instance : Neg Double := ⟨Double.neg⟩

namespace Binary64

/-- Auxiliary for `log2`. -/
def log2Fuel : Nat → Nat → Nat
  | 0, _ => 0
  | fuel + 1, n => if n < 2 then 0 else log2Fuel fuel (n / 2) + 1

/-- Position of the highest set bit of `n` (0 for `n < 2`). -/
def log2 (n : Nat) : Nat := log2Fuel n n

/-- The integer `e` with `2^e ≤ n/d < 2^(e+1)`, for positive `n` and `d`. -/
def floorLog2 (n d : Nat) : Int :=
  let e0 : Int := (log2 n : Int) - (log2 d : Int)
  if (if 0 ≤ e0 then d * 2 ^ e0.toNat ≤ n else d ≤ n * 2 ^ (-e0).toNat) then e0 else e0 - 1

/-- The integer nearest to `num/den`, ties to the even one. -/
def roundHalfEven (num den : Nat) : Nat :=
  let q := num / den
  let r := num % den
  if 2 * r < den then q else if den < 2 * r then q + 1 else if q % 2 = 0 then q else q + 1

/-- Round the positive fraction `n/d` to 53 significant bits with exponent at least
-1022 (gradual underflow): the result is `m * 2^ex`, returned as `(m, ex)`. -/
def nearest (n d : Nat) : Nat × Int :=
  let e := floorLog2 n d
  let ex : Int := max e (-1022) - 52
  let m := if 0 ≤ ex then roundHalfEven n (d * 2 ^ ex.toNat)
           else roundHalfEven (n * 2 ^ (-ex).toNat) d
  (m, ex)

/-- Whether `m * 2^ex` is beyond the largest finite binary64 number. -/
def overflows (m : Nat) (ex : Int) : Bool := decide (0 ≤ ex ∧ 2 ^ 1024 ≤ m * 2 ^ ex.toNat)

/-- Whether `m * 2^ex` differs from `n/d`. -/
def inexact (n d m : Nat) (ex : Int) : Bool :=
  if 0 ≤ ex then decide (m * 2 ^ ex.toNat * d ≠ n) else decide (m * d ≠ n * 2 ^ (-ex).toNat)

/-- Whether `n/d`, rounded to 53 significant bits with unbounded exponent, is below the
smallest normal number `2^-1022`. -/
def tiny (n d : Nat) : Bool :=
  let e := floorLog2 n d
  if -1022 ≤ e then false
  else !(decide (e = -1023) && decide (roundHalfEven (n * 2 ^ (52 - e).toNat) d = 2 ^ 53))

/-- Round a rational to binary64, to nearest, ties to even; beyond the largest finite
number the result is an infinity. -/
def round (x : ℚ) : Double :=
  if x = 0 then .finite 0
  else
    let r := nearest x.num.natAbs x.den
    if overflows r.1 r.2 then (if x < 0 then .negInf else .posInf)
    else if x < 0 then .finite (-((r.1 : ℚ) * (2 : ℚ) ^ r.2))
    else .finite ((r.1 : ℚ) * (2 : ℚ) ^ r.2)

/-- The rational `x` is a finite binary64 number: rounding leaves it as it is. -/
def Exact (x : ℚ) : Prop := round x = .finite x

instance (x : ℚ) : Decidable (Exact x) := inferInstanceAs (Decidable (round x = .finite x))

/-- No addition rounds when the numbers of the list are added one by one to `start`: every
partial sum is a finite binary64 number. -/
def ExactSums (start : ℚ) : List ℚ → Prop
  | [] => True
  | a :: rest => Exact (start + a) ∧ ExactSums (start + a) rest

end Binary64

/-- `a + b` on `double`. -/
def Double.add : Double → Double → Double
  | .finite a, .finite b => Binary64.round (a + b)
  | .nan, _ => .nan
  | _, .nan => .nan
  | .posInf, .negInf => .nan
  | .negInf, .posInf => .nan
  | .posInf, _ => .posInf
  | _, .posInf => .posInf
  | .negInf, _ => .negInf
  | _, .negInf => .negInf

/-- `a - b` on `double`. -/
def Double.sub (a b : Double) : Double := Double.add a (Double.neg b)

/-- `a < b` on `double`; false when either side is a NaN. -/
def Double.lt : Double → Double → Bool
  | .finite a, .finite b => decide (a < b)
  | .nan, _ => false
  | _, .nan => false
  | .posInf, _ => false
  | _, .negInf => false
  | .negInf, _ => true
  | _, .posInf => true

/-- The significand and exponent `std::stod` returns for a text of digits with at most one
`.`, and `none` where it throws `std::out_of_range`: the decimal value is rounded to
binary64; `strtod` reports `ERANGE` when the result overflows, and when it is tiny and
inexact (underflow). -/
def stodCore (s : String) : Option (Nat × Int) :=
  let n := (stodParts s).1
  let d := 10 ^ (stodParts s).2
  if n = 0 then some (0, 0)
  else
    let r := Binary64.nearest n d
    if Binary64.overflows r.1 r.2 then none
    else if Binary64.tiny n d && Binary64.inexact n d r.1 r.2 then none
    else some r

/-- Model of `std::stod` on the strings that pass `validateIsNumeric` (digits with at most
one `.`): the binary64 value nearest to the decimal value, or the `what()` of the
`std::out_of_range` it throws. -/
def stod (s : String) : Except String ℚ :=
  match stodCore s with
  | none => .error "stod"
  | some r => .ok ((r.1 : ℚ) * (2 : ℚ) ^ r.2)

/-- Days from 1970-01-01 to the civil date `y`-`m`-`d` in the proleptic Gregorian calendar;
a day of month outside the month's range carries over linearly, as `mktime` normalises. -/
def daysFromCivil (y m d : Int) : Int :=
  let y1 := if m ≤ 2 then y - 1 else y
  let era := y1 / 400
  let yoe := y1 - era * 400
  let mp := if m > 2 then m - 3 else m + 9
  let doy := (153 * mp + 2) / 5 + d - 1
  let doe := yoe * 365 + yoe / 4 - yoe / 100 + doy
  era * 146097 + doe - 719468

/-- Model of `mktime`: seconds on the local time line. -/
def mktime (t : Tm) : Int :=
  daysFromCivil (t.tm_year + 1900) (t.tm_mon + 1) t.tm_mday * 86400
    + t.tm_hour * 3600 + t.tm_min * 60 + t.tm_sec

/-- Model of `time(nullptr)` for a clock whose local reading is `currentDate`. -/
def timeNow (currentDate : Tm) : Int := mktime currentDate

/-- Model of `ss >> get_time(&date, "%Y-%m-%d")` on a zero-initialised `tm`, followed by
`!ss.fail()`: four digits, `-`, two digits in 01..12, `-`, two digits in 01..31; text after
the day is not read. The result is `none` when the stream fails. -/
def stringToDate (dateStr : String) : Option Tm :=
  match dateStr.toList with
  | y1 :: y2 :: y3 :: y4 :: s1 :: m1 :: m2 :: s2 :: d1 :: d2 :: _ =>
    if isdigit y1 && isdigit y2 && isdigit y3 && isdigit y4 && s1 == '-'
        && isdigit m1 && isdigit m2 && s2 == '-' && isdigit d1 && isdigit d2 then
      let year : Int := digitsValue [y1, y2, y3, y4]
      let mon : Int := digitsValue [m1, m2]
      let day : Int := digitsValue [d1, d2]
      if 1 ≤ mon ∧ mon ≤ 12 ∧ 1 ≤ day ∧ day ≤ 31 then
        some { tm_sec := 0, tm_min := 0, tm_hour := 0, tm_mday := day,
               tm_mon := mon - 1, tm_year := year - 1900 }
      else none
    else none
  | _ => none

/-! ## InputValidator -/

deriving instance DecidableEq for Except

namespace InputValidator

/-- `validateNotEmpty`: the error carries the text of the exception. -/
def validateNotEmpty (input : String) : Except String Unit :=
  if input.toList.isEmpty then .error "Input cannot be empty." else .ok ()

/-- The `for` loop of `validateIsNumeric`; `false` when the loop throws. -/
def numericScan : List Char → Bool → Bool
  | [], _ => true
  | c :: cs, hasDecimal =>
    if !isdigit c then
      if c == '.' && !hasDecimal then numericScan cs true
      else false
    else numericScan cs hasDecimal

/-- `validateIsNumeric`. -/
def validateIsNumeric (input : String) : Except String Unit :=
  if !numericScan input.toList false then .error "Input must be a number."
  else if input.toList.isEmpty || input.toList.head? == some '.' then
    .error "Input must be a valid number. (no spaces and not start with a decimal.)"
  else .ok ()

/-- `validateDateFormat`: `regex_match` against `^\d\x7b4\x7d-\d\x7b2\x7d-\d\x7b2\x7d$`. -/
def validateDateFormat (date : String) : Except String Unit :=
  match date.toList with
  | [y1, y2, y3, y4, s1, m1, m2, s2, d1, d2] =>
    if isdigit y1 && isdigit y2 && isdigit y3 && isdigit y4 && s1 == '-'
        && isdigit m1 && isdigit m2 && s2 == '-' && isdigit d1 && isdigit d2 then .ok ()
    else .error "Date must be in YYYY-MM-DD format."
  | _ => .error "Date must be in YYYY-MM-DD format."

/-- `toLowerCase`. -/
def toLowerCase (str : String) : String := String.mk (str.toList.map tolower)

end InputValidator

/-! ## BudgetManager -/

namespace BudgetManager

/-- `getBudget`. -/
def getBudget (user : User) : ℚ := user.budget

/-- `updateBudget`: a negative value is refused. -/
def updateBudget (user : User) (updatedBudget : ℚ) : User :=
  if updatedBudget < 0 then user else { user with budget := updatedBudget }

/-- `getRemainingBudget`: the loop accumulates from `0` in collection order, then the
total is subtracted from the budget; every operation is a `double` operation. -/
def getRemainingBudget (user : User) : Double :=
  let totalExpenses :=
    user.expenses.foldl (fun total expense => Double.add total (.finite expense.amount)) 0
  Double.sub (.finite user.budget) totalExpenses

end BudgetManager

/-! ## View strategies

Each strategy walks the collection once, prints a row for every selected expense, adds
its amount to the caller's `totalExpenses`, and prints a message at the end when its flag
was never set. -/

/-- What a strategy loop has produced so far: the rows printed (in output order), the
running value of the `totalExpenses` reference, and the `found` flag. -/
structure ViewState where
  rows : List Expense
  totalExpenses : ℚ
  found : Bool
  deriving DecidableEq, Repr

/-- The body shared by the selecting branches: print the row, add the amount, set the
flag. -/
def ViewState.print (st : ViewState) (expense : Expense) : ViewState :=
  { rows := st.rows ++ [expense],
    totalExpenses := st.totalExpenses + expense.amount,
    found := true }

/-- The binary64 value of the `totalExpenses` reference after a strategy has printed
`rows`, starting from `start`: one `double` addition per printed row, in print order. -/
def total64 (start : Double) (rows : List Expense) : Double :=
  rows.foldl (fun total expense => Double.add total (.finite expense.amount)) start

namespace WeeklyViewStrategy

/-- Loop body of `WeeklyViewStrategy::viewExpenses`. -/
def step (now : Int) (st : ViewState) (expense : Expense) : ViewState :=
  match stringToDate expense.date with
  | some expenseDate =>
    let expenseTime := mktime expenseDate
    let secondsDiff : ℚ := ((now - expenseTime : Int) : ℚ)
    let daysDiff : ℚ := secondsDiff / (60 * 60 * 24)
    if daysDiff ≤ 7 then st.print expense else st
  | none => st

/-- The condition under which the loop body prints an expense: the date parses and
`daysDiff <= 7`. -/
def selects (now : Int) (expense : Expense) : Bool :=
  match stringToDate expense.date with
  | some expenseDate =>
    decide ((((now - mktime expenseDate : Int) : ℚ)) / (60 * 60 * 24) ≤ 7)
  | none => false

/-- `WeeklyViewStrategy::viewExpenses`. -/
def viewExpenses (user : User) (totalExpenses : ℚ) (currentDate : Tm) : ViewState :=
  let now := timeNow currentDate
  user.expenses.foldl (step now) { rows := [], totalExpenses := totalExpenses, found := false }

end WeeklyViewStrategy

namespace MonthlyViewStrategy

/-- Loop body of `MonthlyViewStrategy::viewExpenses`. -/
def step (month currentYear : Int) (st : ViewState) (expense : Expense) : ViewState :=
  match stringToDate expense.date with
  | some expenseDate =>
    let expenseYear := expenseDate.tm_year + 1900
    if expenseDate.tm_mon + 1 = month ∧ expenseYear = currentYear then st.print expense
    else st
  | none => st

/-- `MonthlyViewStrategy::viewExpenses`, from the point where `month` has been read. -/
def viewExpenses (user : User) (totalExpenses : ℚ) (month : Int) (currentDate : Tm) :
    ViewState :=
  let currentYear := currentDate.tm_year + 1900
  user.expenses.foldl (step month currentYear)
    { rows := [], totalExpenses := totalExpenses, found := false }

/-- The `totalExpenses` reference of `MonthlyViewStrategy::viewExpenses` as the `double`
it is: the loop body adds the amount of every printed expense with one `double`
addition. -/
def runningTotal (user : User) (totalExpenses : Double) (month : Int) (currentDate : Tm) :
    Double :=
  let currentYear := currentDate.tm_year + 1900
  user.expenses.foldl
    (fun total expense =>
      match stringToDate expense.date with
      | some expenseDate =>
        let expenseYear := expenseDate.tm_year + 1900
        if expenseDate.tm_mon + 1 = month ∧ expenseYear = currentYear then
          Double.add total (.finite expense.amount)
        else total
      | none => total)
    totalExpenses

end MonthlyViewStrategy

namespace YearlyViewStrategy

/-- Loop body of `YearlyViewStrategy::viewExpenses`. -/
def step (currentYear : Int) (st : ViewState) (expense : Expense) : ViewState :=
  match stringToDate expense.date with
  | some expenseDate =>
    let expenseYear := expenseDate.tm_year + 1900
    if expenseYear = currentYear then st.print expense else st
  | none => st

/-- `YearlyViewStrategy::viewExpenses`. -/
def viewExpenses (user : User) (totalExpenses : ℚ) (currentDate : Tm) : ViewState :=
  let currentYear := currentDate.tm_year + 1900
  user.expenses.foldl (step currentYear)
    { rows := [], totalExpenses := totalExpenses, found := false }

/-- The `totalExpenses` reference of `YearlyViewStrategy::viewExpenses` as the `double`
it is: the loop body adds the amount of every printed expense with one `double`
addition. -/
def runningTotal (user : User) (totalExpenses : Double) (currentDate : Tm) : Double :=
  let currentYear := currentDate.tm_year + 1900
  user.expenses.foldl
    (fun total expense =>
      match stringToDate expense.date with
      | some expenseDate =>
        let expenseYear := expenseDate.tm_year + 1900
        if expenseYear = currentYear then Double.add total (.finite expense.amount)
        else total
      | none => total)
    totalExpenses

end YearlyViewStrategy

namespace CategoryViewStrategy

/-- Loop body of `CategoryViewStrategy::viewExpenses`. -/
def step (categoryLower : String) (st : ViewState) (expense : Expense) : ViewState :=
  if InputValidator.toLowerCase expense.category = categoryLower then st.print expense
  else st

/-- `CategoryViewStrategy::viewExpenses`, from the point where `category` has been read. -/
def viewExpenses (user : User) (totalExpenses : ℚ) (category : String) : ViewState :=
  let categoryLower := InputValidator.toLowerCase category
  user.expenses.foldl (step categoryLower)
    { rows := [], totalExpenses := totalExpenses, found := false }

end CategoryViewStrategy

namespace AllViewStrategy

/-- `AllViewStrategy::viewExpenses`: every expense is printed and added; the strategy has
no `found` flag, the field keeps the value set by `print`. -/
def viewExpenses (user : User) (totalExpenses : ℚ) : ViewState :=
  user.expenses.foldl ViewState.print
    { rows := [], totalExpenses := totalExpenses, found := false }

end AllViewStrategy

/-! ## ExpenseManager

One pass of each operation is modelled, up to the point where the record is committed;
the closing "again? (Y/N)" prompt only re-enters the same function. The view shown before
the id prompt of modify and remove takes the user by `const` reference and is left out. -/

/-- Outcome of a prompt loop of `addExpense`: the accepted value (`none` when the user
typed `x` or `X`), the texts of the exceptions caught on the way, and the unread input. -/
structure Prompted (α : Type) where
  value : Option α
  errors : List String
  rest : List String

/-- Record one more caught exception in front of a loop outcome. -/
def Prompted.caught {α : Type} (msg : String) (r : Prompted α) : Prompted α :=
  { r with errors := msg :: r.errors }

/-- Outcome of a prompt loop of `modifyExpense`: the value of the `new...` variable when
the loop is left, the exceptions caught, and the unread lines. -/
structure Edited (α : Type) where
  value : α
  errors : List String
  rest : List String

/-- Record one more caught exception in front of a loop outcome. -/
def Edited.caught {α : Type} (msg : String) (r : Edited α) : Edited α :=
  { r with errors := msg :: r.errors }

/-- Outcome of one pass of an operation: the user afterwards, whether a record was
committed, the exceptions caught, and the unread input. -/
structure Session where
  user : User
  committed : Bool
  errors : List String
  rest : List String

namespace ExpenseManager

/-- Text thrown by the budget check of `addExpense` and `modifyExpense`. -/
def insufficientBudget : String := "Insufficient Budget! Cannot exceed the available budget."

/-- Text thrown when `stringToDate` fails. -/
def invalidDate : String := "Invalid date format. Please enter a valid date."

/-- Text thrown for a date later than now. -/
def futureDate : String := "Date cannot be in the future."

/-- Text thrown by the category check of `modifyExpense`. -/
def invalidCategory : String := "Category can only contain letters and numbers."

/-- The amount loop of `addExpense` (`cin >> amountInput`). -/
def addAmountLoop (user : User) : List String → Option (Prompted ℚ)
  | [] => none
  | amountInput :: rest =>
    if amountInput = "x" ∨ amountInput = "X" then
      some { value := none, errors := [], rest := rest }
    else
      match InputValidator.validateIsNumeric amountInput with
      | .error e => (addAmountLoop user rest).map (Prompted.caught e)
      | .ok _ =>
        match stod amountInput with
        | .error e => (addAmountLoop user rest).map (Prompted.caught e)
        | .ok amount =>
          if amount > BudgetManager.getBudget user then
            (addAmountLoop user rest).map (Prompted.caught insufficientBudget)
          else some { value := some amount, errors := [], rest := rest }

/-- The category loop of `addExpense` (`cin >> category`). -/
def addCategoryLoop : List String → Option (Prompted String)
  | [] => none
  | category :: rest =>
    if category = "x" ∨ category = "X" then
      some { value := none, errors := [], rest := rest }
    else
      match InputValidator.validateNotEmpty category with
      | .error e => (addCategoryLoop rest).map (Prompted.caught e)
      | .ok _ => some { value := some category, errors := [], rest := rest }

/-- The checks made on a date text by `addExpense` and `modifyExpense`: format, parse,
not later than `currentDate`. -/
def checkDate (currentDate : Tm) (date : String) : Except String Unit :=
  match InputValidator.validateDateFormat date with
  | .error e => .error e
  | .ok _ =>
    match stringToDate date with
    | none => .error invalidDate
    | some expenseDate =>
      if mktime expenseDate > mktime currentDate then .error futureDate else .ok ()

/-- The date loop of `addExpense` (`cin >> date`). -/
def addDateLoop (currentDate : Tm) : List String → Option (Prompted String)
  | [] => none
  | date :: rest =>
    if date = "x" ∨ date = "X" then
      some { value := none, errors := [], rest := rest }
    else
      match checkDate currentDate date with
      | .error e => (addDateLoop currentDate rest).map (Prompted.caught e)
      | .ok _ => some { value := some date, errors := [], rest := rest }

/-- `ExpenseManager::addExpense`, one pass: the three prompt loops, then the new record
with `id = size + 1` is appended. -/
def addExpense (user : User) (currentDate : Tm) (input : List String) : Option Session :=
  match addAmountLoop user input with
  | none => none
  | some a =>
    match a.value with
    | none => some { user := user, committed := false, errors := a.errors, rest := a.rest }
    | some amount =>
      match addCategoryLoop a.rest with
      | none => none
      | some c =>
        match c.value with
        | none =>
          some { user := user, committed := false, errors := a.errors ++ c.errors,
                 rest := c.rest }
        | some category =>
          match addDateLoop currentDate c.rest with
          | none => none
          | some d =>
            match d.value with
            | none =>
              some { user := user, committed := false,
                     errors := a.errors ++ c.errors ++ d.errors, rest := d.rest }
            | some date =>
              let id : Int := (user.expenses.length : Int) + 1
              let newExpense : Expense :=
                { id := id, category := category, amount := amount, date := date }
              some { user := { user with expenses := user.expenses ++ [newExpense] },
                     committed := true,
                     errors := a.errors ++ c.errors ++ d.errors, rest := d.rest }

/-- The locating loop of `modifyExpense` and `removeExpense`: position of the first
expense whose id is `id`. -/
def locate (id : Int) : List Expense → Option Nat
  | [] => none
  | exp :: expenses => if exp.id = id then some 0 else (locate id expenses).map (· + 1)

/-- The `try` block of the amount loop of `modifyExpense`: the value of `newAmount`
afterwards and the text of the exception caught, if any. `newAmount` is assigned as soon
as `stod` has returned, before the budget check. -/
def tryAmount (user : User) (amountInput : String) (newAmount : ℚ) : ℚ × Option String :=
  match InputValidator.validateIsNumeric amountInput with
  | .error e => (newAmount, some e)
  | .ok _ =>
    match stod amountInput with
    | .error e => (newAmount, some e)
    | .ok a =>
      if Double.lt (BudgetManager.getRemainingBudget user) (.finite a) then
        (a, some insufficientBudget)
      else (a, none)

/-- The `while (true)` amount loop of `modifyExpense`, entered with a non-empty
`amountInput`; `newAmount` is the current value of that variable. After an exception the
next line is read, and a blank line (or the end of the input) leaves the loop. -/
def modifyAmountLoop (user : User) (amountInput : String) (newAmount : ℚ) :
    List String → Option (Edited ℚ)
  | [] =>
    match tryAmount user amountInput newAmount with
    | (a, none) => some { value := a, errors := [], rest := [] }
    | (a, some e) => some { value := a, errors := [e], rest := [] }
  | next :: rest =>
    match tryAmount user amountInput newAmount with
    | (a, none) => some { value := a, errors := [], rest := next :: rest }
    | (a, some e) =>
      if next.toList.isEmpty then some { value := a, errors := [e], rest := rest }
      else (modifyAmountLoop user next a rest).map (Edited.caught e)

/-- The checks of the category loop of `modifyExpense`. -/
def checkCategory (categoryInput : String) : Except String Unit :=
  match InputValidator.validateNotEmpty categoryInput with
  | .error e => .error e
  | .ok _ =>
    if categoryInput.toList.all (fun c => isalnum c || c == ' ') then .ok ()
    else .error invalidCategory

/-- The `while (true)` category loop of `modifyExpense`. -/
def modifyCategoryLoop (categoryInput : String) (newCategory : String) :
    List String → Option (Edited String)
  | [] =>
    match checkCategory categoryInput with
    | .error e => some { value := newCategory, errors := [e], rest := [] }
    | .ok _ => some { value := categoryInput, errors := [], rest := [] }
  | next :: rest =>
    match checkCategory categoryInput with
    | .error e =>
      if next.toList.isEmpty then some { value := newCategory, errors := [e], rest := rest }
      else (modifyCategoryLoop next newCategory rest).map (Edited.caught e)
    | .ok _ => some { value := categoryInput, errors := [], rest := next :: rest }

/-- The `while (true)` date loop of `modifyExpense`. -/
def modifyDateLoop (currentDate : Tm) (dateInput : String) (newDate : String) :
    List String → Option (Edited String)
  | [] =>
    match checkDate currentDate dateInput with
    | .error e => some { value := newDate, errors := [e], rest := [] }
    | .ok _ => some { value := dateInput, errors := [], rest := [] }
  | next :: rest =>
    match checkDate currentDate dateInput with
    | .error e =>
      if next.toList.isEmpty then some { value := newDate, errors := [e], rest := rest }
      else (modifyDateLoop currentDate next newDate rest).map (Edited.caught e)
    | .ok _ => some { value := dateInput, errors := [], rest := next :: rest }

/-- One `getline`: the next line, or the (empty) initial text at end of input. -/
def getline : List String → String × List String
  | [] => ("", [])
  | line :: rest => (line, rest)

/-- The amount part of `modifyExpense`: first `getline`, then the loop unless the line is
blank. -/
def modifyAmount (user : User) (oldAmount : ℚ) (lines : List String) : Option (Edited ℚ) :=
  let (amountInput, rest) := getline lines
  if amountInput.toList.isEmpty then some { value := oldAmount, errors := [], rest := rest }
  else modifyAmountLoop user amountInput oldAmount rest

/-- The category part of `modifyExpense`. -/
def modifyCategory (oldCategory : String) (lines : List String) : Option (Edited String) :=
  let (categoryInput, rest) := getline lines
  if categoryInput.toList.isEmpty then
    some { value := oldCategory, errors := [], rest := rest }
  else modifyCategoryLoop categoryInput oldCategory rest

/-- The date part of `modifyExpense`. -/
def modifyDate (currentDate : Tm) (oldDate : String) (lines : List String) :
    Option (Edited String) :=
  let (dateInput, rest) := getline lines
  if dateInput.toList.isEmpty then some { value := oldDate, errors := [], rest := rest }
  else modifyDateLoop currentDate dateInput oldDate rest

/-- `ExpenseManager::modifyExpense`, one pass from the id prompt on: `id` is the number
read by `cin >> id`, `lines` are the lines read by `getline`. -/
def modifyExpense (user : User) (currentDate : Tm) (id : Int) (lines : List String) :
    Option Session :=
  let unchanged : Session := { user := user, committed := false, errors := [], rest := lines }
  if user.expenses.isEmpty then some unchanged
  else if id = 0 then some unchanged
  else
    match locate id user.expenses with
    | none => some unchanged
    | some pos =>
      match user.expenses.get? pos with
      | none => some unchanged
      | some expense =>
        match modifyAmount user expense.amount lines with
        | none => none
        | some a =>
          match modifyCategory expense.category a.rest with
          | none => none
          | some c =>
            match modifyDate currentDate expense.date c.rest with
            | none => none
            | some d =>
              let updated : Expense :=
                { expense with amount := a.value, category := c.value, date := d.value }
              some { user := { user with expenses := user.expenses.set pos updated },
                     committed := true,
                     errors := a.errors ++ c.errors ++ d.errors, rest := d.rest }

/-- `ExpenseManager::removeExpense`, one pass from the id prompt on: `expenseIdToDelete`
and `deleteChoice` are the values read by `cin >>`. -/
def removeExpense (user : User) (expenseIdToDelete : Int) (deleteChoice : Char) : User :=
  if user.expenses.isEmpty then user
  else if expenseIdToDelete = 0 then user
  else
    match locate expenseIdToDelete user.expenses with
    | none => user
    | some it =>
      if tolower deleteChoice = 'y' then { user with expenses := user.expenses.eraseIdx it }
      else user

/-- One operation of the main menu on the expense collection, with the input it reads. -/
inductive Operation where
  | add (currentDate : Tm) (input : List String)
  | modify (currentDate : Tm) (id : Int) (lines : List String)
  | remove (expenseIdToDelete : Int) (deleteChoice : Char)

/-- Run one operation; `none` when a prompt loop never ends on the given input. -/
def Operation.run (user : User) : Operation → Option User
  | .add currentDate input => (addExpense user currentDate input).map Session.user
  | .modify currentDate id lines => (modifyExpense user currentDate id lines).map Session.user
  | .remove expenseIdToDelete deleteChoice => some (removeExpense user expenseIdToDelete deleteChoice)

/-- Run a sequence of operations from left to right. -/
def runOperations (user : User) : List Operation → Option User
  | [] => some user
  | op :: ops =>
    match op.run user with
    | none => none
    | some next => runOperations next ops

end ExpenseManager

/-! ## InputValidator: username check and the username set -/

namespace InputValidator

/-- Text thrown by the last check of `validateUsername`. -/
def containsSpaces : String := "Username cannot contain spaces."

/-- `validateUsername`: empty, leading or trailing space, a character that is not
alphanumeric, a space anywhere; the error carries the text of the exception. -/
def validateUsername (username : String) : Except String Unit :=
  if username.toList.isEmpty then .error "Username cannot be empty."
  else if username.toList.head? == some ' ' || username.toList.getLast? == some ' ' then
    .error "Username cannot have leading or trailing spaces."
  else if username.toList.any (fun c => !isalnum c) then
    .error "Username can only contain letters and numbers."
  else if username.toList.contains ' ' then .error containsSpaces
  else .ok ()

/-- Text thrown by `addUsername` for a name that is already in the set. -/
def duplicateUsername : String :=
  "Username already exists. Please choose a different username."

end InputValidator

/-- The state of an `InputValidator` object: its member `std::set<std::string> usernames`. -/
structure InputValidator where
  usernames : Finset String
  deriving DecidableEq

namespace InputValidator

/-- `isUsernameTaken`: `usernames.find(username) != usernames.end()`. -/
def isUsernameTaken (self : InputValidator) (username : String) : Bool :=
  decide (username ∈ self.usernames)

/-- `addUsername`: the outcome (the exception text on a throw) and the object afterwards. -/
def addUsername (self : InputValidator) (username : String) :
    Except String Unit × InputValidator :=
  if self.isUsernameTaken username then (.error duplicateUsername, self)
  else (.ok (), { usernames := insert username self.usernames })

end InputValidator

/-! ## AccountManager -/

/-- `User::verifyPassword`. -/
def User.verifyPassword (user : User) (inputPassword : String) : Bool :=
  user.password == inputPassword

namespace AccountManager

/-- The loop of `registerUser`: `true` when it returns early on an equal username. -/
def usernameExists (username : String) : List User → Bool
  | [] => false
  | user :: users => if user.username = username then true else usernameExists username users

/-- `AccountManager::registerUser` on the vector `users`: the returned flag and the vector
afterwards. -/
def registerUser (users : List User) (username password : String) (budget : ℚ) :
    Bool × List User :=
  if usernameExists username users then (false, users)
  else (true, users ++ [{ username := username, password := password, expenses := [],
                          budget := budget }])

/-- `AccountManager::login`: the user the returned pointer refers to, `none` for
`nullptr`. The vector is only read. -/
def login (username password : String) : List User → Option User
  | [] => none
  | user :: users =>
    if user.username = username then
      if user.verifyPassword password then some user else none
    else login username password users

/-- The registry after a sequence of `registerUser` calls, each given as
(username, password, budget). -/
def registerAll (users : List User) : List (String × String × ℚ) → List User
  | [] => users
  | call :: calls => registerAll (registerUser users call.1 call.2.1 call.2.2).2 calls

end AccountManager

/-! ## StartScreen: registration and login

`handleRegistration` is modelled up to its call of `registerUser`, `handleLogin` up to its
call of `login`; the main-menu session that follows a success is outside both. The lines
read by `getline` and the token read by `cin >> choice` come from one input list. -/

namespace InputValidator

/-- `validateNoSpaces`. -/
def validateNoSpaces (input : String) : Except String Unit :=
  if input.toList.contains ' ' then .error "Input cannot contain spaces." else .ok ()

/-- `validatePassword`. -/
def validatePassword (password : String) : Except String Unit :=
  if password.toList.isEmpty then .error "Password cannot be empty."
  else if password.toList.contains ' ' then .error "Password cannot contain spaces."
  else .ok ()

end InputValidator

namespace StartScreen

/-- Text thrown by the registry scan in the username loop of `handleRegistration`. -/
def usernameRegistered : String := "Username already exists. Please try again."

/-- Text thrown by the budget loop of `handleRegistration`. -/
def budgetNotPositive : String := "Budget must be a positive number."

/-- The `try` block of the username loop: `addUsername` first, then `validateNotEmpty`,
`validateUsername` and the scan of the registry. The outcome and the validator object
afterwards. -/
def checkUsername (users : List User) (inputValidator : InputValidator)
    (username : String) : Except String Unit × InputValidator :=
  match inputValidator.addUsername username with
  | (.error e, v) => (.error e, v)
  | (.ok _, v) =>
    match InputValidator.validateNotEmpty username with
    | .error e => (.error e, v)
    | .ok _ =>
      match InputValidator.validateUsername username with
      | .error e => (.error e, v)
      | .ok _ =>
        if AccountManager.usernameExists username users then (.error usernameRegistered, v)
        else (.ok (), v)

/-- The username loop of `handleRegistration`: the loop outcome and the validator object
when the loop is left. -/
def usernameLoop (users : List User) :
    InputValidator → List String → Option (Prompted String × InputValidator)
  | _, [] => none
  | inputValidator, username :: rest =>
    if username = "x" then some ({ value := none, errors := [], rest := rest }, inputValidator)
    else
      match checkUsername users inputValidator username with
      | (.error e, v) => (usernameLoop users v rest).map (fun r => (r.1.caught e, r.2))
      | (.ok _, v) => some ({ value := some username, errors := [], rest := rest }, v)

/-- The `try` block of the password loop. -/
def checkPassword (password : String) : Except String Unit :=
  match InputValidator.validateNotEmpty password with
  | .error e => .error e
  | .ok _ => InputValidator.validatePassword password

/-- The password loop of `handleRegistration`. -/
def passwordLoop : List String → Option (Prompted String)
  | [] => none
  | password :: rest =>
    if password = "x" then some { value := none, errors := [], rest := rest }
    else
      match checkPassword password with
      | .error e => (passwordLoop rest).map (Prompted.caught e)
      | .ok _ => some { value := some password, errors := [], rest := rest }

/-- The `try` block of the budget loop: the budget on success. -/
def checkBudget (budgetInput : String) : Except String ℚ :=
  match InputValidator.validateNoSpaces budgetInput with
  | .error e => .error e
  | .ok _ =>
    match InputValidator.validateIsNumeric budgetInput with
    | .error e => .error e
    | .ok _ =>
      match stod budgetInput with
      | .error e => .error e
      | .ok budget => if budget ≤ 0 then .error budgetNotPositive else .ok budget

/-- The budget loop of `handleRegistration`. -/
def budgetLoop : List String → Option (Prompted ℚ)
  | [] => none
  | budgetInput :: rest =>
    if budgetInput = "x" then some { value := none, errors := [], rest := rest }
    else
      match checkBudget budgetInput with
      | .error e => (budgetLoop rest).map (Prompted.caught e)
      | .ok budget => some { value := some budget, errors := [], rest := rest }

/-- One `cin >> s` into a fresh string: the next token, or the empty string when the
read fails at end of input. -/
def readToken : List String → String × List String
  | [] => ("", [])
  | token :: rest => (token, rest)

/-- How `handleRegistration` ends. -/
inductive RegistrationEnd where
  | cancelled
  | registered
  | registrationFailed
  | notConfirmed
  deriving DecidableEq, Repr

/-- Outcome of `handleRegistration`: the registry afterwards, how the function ended, the
exceptions caught, and the unread input. -/
structure Registration where
  users : List User
  ending : RegistrationEnd
  errors : List String
  rest : List String

/-- `StartScreen::handleRegistration` on the registry `users`. -/
def handleRegistration (users : List User) (input : List String) : Option Registration :=
  match usernameLoop users { usernames := ∅ } input with
  | none => none
  | some (u, _) =>
    match u.value with
    | none => some { users := users, ending := .cancelled, errors := u.errors, rest := u.rest }
    | some username =>
      match passwordLoop u.rest with
      | none => none
      | some p =>
        match p.value with
        | none =>
          some { users := users, ending := .cancelled, errors := u.errors ++ p.errors,
                 rest := p.rest }
        | some password =>
          match budgetLoop p.rest with
          | none => none
          | some b =>
            match b.value with
            | none =>
              some { users := users, ending := .cancelled,
                     errors := u.errors ++ p.errors ++ b.errors, rest := b.rest }
            | some budget =>
              let (choice, rest) := readToken b.rest
              if choice = "Y" ∨ choice = "y" then
                let r := AccountManager.registerUser users username password budget
                some { users := r.2,
                       ending := if r.1 then .registered else .registrationFailed,
                       errors := u.errors ++ p.errors ++ b.errors, rest := rest }
              else
                some { users := users, ending := .notConfirmed,
                       errors := u.errors ++ p.errors ++ b.errors, rest := rest }

/-- Outcome of `handleLogin`: whether it was cancelled, the user `login` returned, and the
unread input. The registry is only read. -/
structure LoginAttempt where
  cancelled : Bool
  user : Option User
  rest : List String

/-- `StartScreen::handleLogin` on the registry `users`. -/
def handleLogin (users : List User) (input : List String) : LoginAttempt :=
  let (username, rest) := readToken input
  if username = "x" then { cancelled := true, user := none, rest := rest }
  else
    let (password, rest) := readToken rest
    if password = "x" then { cancelled := true, user := none, rest := rest }
    else { cancelled := false, user := AccountManager.login username password users,
           rest := rest }

end StartScreen

/-! ## Selection predicates, in the words of the specification -/

namespace Spec

/-- Monthly filter of the specification: the expense's date parses, its calendar month is
the requested month and its calendar year is the current year. -/
def monthlySelected (month currentYear : Int) (expense : Expense) : Bool :=
  match stringToDate expense.date with
  | some d => decide (d.tm_mon + 1 = month) && decide (d.tm_year + 1900 = currentYear)
  | none => false

/-- Yearly filter of the specification: the expense's date parses and its calendar year
is the current year. -/
def yearlySelected (currentYear : Int) (expense : Expense) : Bool :=
  match stringToDate expense.date with
  | some d => decide (d.tm_year + 1900 = currentYear)
  | none => false

end Spec

/-! ## Sample data used by the concrete checks -/

namespace Sample

/-- Local time 2024-03-15 12:00:00. -/
def noon : Tm :=
  { tm_sec := 0, tm_min := 0, tm_hour := 12, tm_mday := 15, tm_mon := 2, tm_year := 124 }

/-- Local time 2024-03-15 00:00:00. -/
def midnight : Tm :=
  { tm_sec := 0, tm_min := 0, tm_hour := 0, tm_mday := 15, tm_mon := 2, tm_year := 124 }

/-- A new account with budget 100 and no expenses. -/
def fresh : User := { username := "ann", password := "pw", expenses := [], budget := 100 }

/-- Budget 100 with one stored expense of 50. -/
def half : User :=
  { username := "ann", password := "pw", budget := 100,
    expenses := [{ id := 1, category := "Food", amount := 50, date := "2024-03-15" }] }

/-- Budget 100 with one stored expense of 60. -/
def sixty : User :=
  { username := "ann", password := "pw", budget := 100,
    expenses := [{ id := 1, category := "Food", amount := 60, date := "2024-03-15" }] }

/-- Expenses in March of two different years, one in April, and one unparsable date. -/
def dated : User :=
  { username := "ann", password := "pw", budget := 100,
    expenses := [{ id := 1, category := "Food", amount := 10, date := "2023-03-20" },
                 { id := 2, category := "food", amount := 20, date := "2024-03-08" },
                 { id := 3, category := "Rent", amount := 30, date := "2024-04-01" },
                 { id := 4, category := "FOOD", amount := 5, date := "2024-13-01" },
                 { id := 5, category := "Bus", amount := 7, date := "2024-03-07" }] }

/-- The collection after two adds on `fresh`. -/
def two : User :=
  { username := "ann", password := "pw", budget := 100,
    expenses := [{ id := 1, category := "Food", amount := 10, date := "2024-03-01" },
                 { id := 2, category := "Bus", amount := 20, date := "2024-03-02" }] }

/-- The collection after two adds, the removal of id 1, and a third add: two records
carry the id 2. -/
def dup : User :=
  { username := "ann", password := "pw", budget := 100,
    expenses := [{ id := 2, category := "Bus", amount := 20, date := "2024-03-02" },
                 { id := 2, category := "Tea", amount := 5, date := "2024-03-03" }] }

/-- Add, add, remove id 1 (confirmed), add. -/
def reuseOps : List ExpenseManager.Operation :=
  [.add noon ["10", "Food", "2024-03-01"],
   .add noon ["20", "Bus", "2024-03-02"],
   .remove 1 'y',
   .add noon ["5", "Tea", "2024-03-03"]]

/-- Budget 0.3 with the stored amounts 0.1 and 0.2, each the binary64 number `stod`
returns for that text. -/
def tenths : User :=
  { username := "ann", password := "pw",
    budget := 5404319552844595 / 18014398509481984,
    expenses := [{ id := 1, category := "Food",
                   amount := 3602879701896397 / 36028797018963968, date := "2024-03-01" },
                 { id := 2, category := "Bus",
                   amount := 3602879701896397 / 18014398509481984, date := "2024-03-02" }] }

/-- Budget 10^16 with the stored amounts 10^16 and 1. -/
def absorbed : User :=
  { username := "ann", password := "pw", budget := 10000000000000000,
    expenses := [{ id := 1, category := "Rent", amount := 10000000000000000,
                   date := "2024-03-01" },
                 { id := 2, category := "Bus", amount := 1, date := "2024-03-02" }] }

/-- Amounts 0.1 (January), 0.1 (February) and 0.4 (January) of 2024, as binary64
numbers. -/
def threeMonths : User :=
  { username := "ann", password := "pw", budget := 100,
    expenses := [{ id := 1, category := "Food",
                   amount := 3602879701896397 / 36028797018963968, date := "2024-01-05" },
                 { id := 2, category := "Bus",
                   amount := 3602879701896397 / 36028797018963968, date := "2024-02-05" },
                 { id := 3, category := "Rent",
                   amount := 3602879701896397 / 9007199254740992, date := "2024-01-20" }] }

/-- The collection after one add on `fresh`. -/
def one : User :=
  { username := "ann", password := "pw", budget := 100,
    expenses := [{ id := 1, category := "Food", amount := 10, date := "2024-03-01" }] }

/-- The collection after add, removal of id 1, add: the new record carries the id of the
deleted one. -/
def again : User :=
  { username := "ann", password := "pw", budget := 100,
    expenses := [{ id := 1, category := "Tea", amount := 5, date := "2024-03-03" }] }

/-- Add, remove id 1 (confirmed), add. -/
def deleteThenAddOps : List ExpenseManager.Operation :=
  [.add noon ["10", "Food", "2024-03-01"],
   .remove 1 'y',
   .add noon ["5", "Tea", "2024-03-03"]]

/-- Three registration calls, the third repeating the first username. -/
def calls : List (String × String × ℚ) :=
  [("ann", "pw", 100), ("bob", "secret", 50), ("ann", "other", 7)]

/-- The text `0.` followed by 400 zeros and `1`: its value is below the smallest binary64
number, `stod` throws. -/
def tinyText : String :=
  "0.00000000000000000000000000000000000000000000000000000000000000000000000000000000000000000000000000000000000000000000000000000000000000000000000000000000000000000000000000000000000000000000000000000000000000000000000000000000000000000000000000000000000000000000000000000000000000000000000000000000000000000000000000000000000000000000000000000000000000000000000000000000000000000000000000000000000000001"

/-- The text of 400 nines: its value is above the largest binary64 number, `stod`
throws. -/
def hugeText : String :=
  "9999999999999999999999999999999999999999999999999999999999999999999999999999999999999999999999999999999999999999999999999999999999999999999999999999999999999999999999999999999999999999999999999999999999999999999999999999999999999999999999999999999999999999999999999999999999999999999999999999999999999999999999999999999999999999999999999999999999999999999999999999999999999999999999999999999999999999"

end Sample

/-! ## Lemmas on binary64 arithmetic -/

namespace Binary64

theorem round_zero : round 0 = .finite 0 := by
  simp [round]

theorem round_frac (x : ℚ) (n d m : Nat) (ex : Int) (q : ℚ) (hd : 0 < d)
    (hc : Nat.Coprime n d) (hn : 0 < n) (hx : x = (n : ℚ) / (d : ℚ))
    (hnear : nearest n d = (m, ex)) (hov : overflows m ex = false)
    (hq : (m : ℚ) * (2 : ℚ) ^ ex = q) : round x = .finite q := by
  have hnum : x.num = n := by
    rw [hx]
    have := Rat.num_div_eq_of_coprime (a := (n : ℤ)) (b := (d : ℤ)) (by exact_mod_cast hd)
      (by simpa using hc)
    simpa using this
  have hden : x.den = d := by
    rw [hx]
    have := Rat.den_div_eq_of_coprime (a := (n : ℤ)) (b := (d : ℤ)) (by exact_mod_cast hd)
      (by simpa using hc)
    have h2 : (((n : ℤ) : ℚ) / ((d : ℤ) : ℚ)).den = d := by exact_mod_cast this
    simpa using h2
  have hpos : 0 < x := by
    rw [hx]
    positivity
  unfold round
  rw [if_neg (ne_of_gt hpos), hnum, hden]
  simp only [Int.natAbs_ofNat, hnear, hov, Bool.false_eq_true, if_false]
  rw [if_neg (not_lt.mpr (le_of_lt hpos)), hq]

theorem round_neg (x : ℚ) : round (-x) = (round x).neg := by
  by_cases h0 : x = 0
  · subst h0
    simp [round, Double.neg]
  · have hn0 : -x ≠ 0 := neg_ne_zero.mpr h0
    unfold round
    rw [if_neg h0, if_neg hn0]
    simp only [Rat.num_neg_eq_neg_num, Int.natAbs_neg, Rat.den_neg_eq_den]
    rcases lt_or_gt_of_ne h0 with h | h
    · have h1 : ¬ (-x < 0) := by simp [le_of_lt h]
      simp only [h, h1, if_true, if_false]
      split <;> simp [Double.neg]
    · have h1 : (-x < 0) := by simpa using h
      have h2 : ¬ x < 0 := not_lt.mpr (le_of_lt h)
      simp only [h1, h2, if_true, if_false]
      split <;> simp [Double.neg]

theorem log2Fuel_spec (fuel n : Nat) (hf : n ≤ fuel) (hn : 1 ≤ n) :
    2 ^ log2Fuel fuel n ≤ n ∧ n < 2 ^ (log2Fuel fuel n + 1) := by
  induction fuel generalizing n with
  | zero => omega
  | succ f ih =>
    unfold log2Fuel
    by_cases h2 : n < 2
    · rw [if_pos h2]
      simp
      omega
    · rw [if_neg h2]
      have hdiv : n / 2 ≤ f := by omega
      have hone : 1 ≤ n / 2 := by omega
      obtain ⟨hlo, hhi⟩ := ih (n / 2) hdiv hone
      generalize log2Fuel f (n / 2) = k at hlo hhi
      rw [pow_succ] at hhi
      constructor
      · rw [pow_succ]
        omega
      · rw [pow_succ, pow_succ]
        omega

theorem log2_spec (n : Nat) (hn : 1 ≤ n) : 2 ^ log2 n ≤ n ∧ n < 2 ^ (log2 n + 1) :=
  log2Fuel_spec n n (le_refl n) hn

theorem roundHalfEven_one (n : Nat) : roundHalfEven n 1 = n := by
  simp [roundHalfEven, Nat.mod_one]

theorem nearest_small (n : Nat) (hn : 1 ≤ n) (hlt : n < 2 ^ 53) :
    nearest n 1 = (n * 2 ^ (52 - log2 n), (log2 n : Int) - 52) ∧ log2 n ≤ 52 := by
  obtain ⟨hlo, _⟩ := log2_spec n hn
  have ha : log2 n ≤ 52 := by
    by_contra hgt
    have h53 : 53 ≤ log2 n := by omega
    have : 2 ^ 53 ≤ 2 ^ log2 n := Nat.pow_le_pow_right (by norm_num) h53
    omega
  have hl1 : log2 1 = 0 := by decide
  have hfl : floorLog2 n 1 = (log2 n : Int) := by
    unfold floorLog2
    simp only [hl1, Nat.cast_zero, sub_zero, Int.natCast_nonneg, if_true, Int.toNat_ofNat,
      one_mul]
    rw [if_pos hlo]
  refine ⟨?_, ha⟩
  unfold nearest
  simp only [hfl]
  have hmax : max (log2 n : Int) (-1022) = (log2 n : Int) := by
    apply max_eq_left
    omega
  rw [hmax]
  by_cases h52 : log2 n = 52
  · have hex : ((log2 n : Int) - 52) = 0 := by omega
    simp [hex, h52, roundHalfEven_one]
  · have hneg : ¬ (0 : Int) ≤ (log2 n : Int) - 52 := by omega
    rw [if_neg hneg, roundHalfEven_one]
    have htn : (-((log2 n : Int) - 52)).toNat = 52 - log2 n := by omega
    rw [htn]

theorem round_natCast (n : Nat) (hlt : n < 2 ^ 53) : round (n : ℚ) = .finite (n : ℚ) := by
  by_cases h0 : n = 0
  · subst h0
    simpa using round_zero
  · have hn : 1 ≤ n := Nat.one_le_iff_ne_zero.mpr h0
    obtain ⟨hnear, ha⟩ := nearest_small n hn hlt
    have hq0 : (n : ℚ) ≠ 0 := by exact_mod_cast h0
    have hpos : ¬ ((n : ℚ) < 0) := by
      have : (0 : ℚ) ≤ n := by positivity
      exact not_lt.mpr this
    have hov : overflows (n * 2 ^ (52 - log2 n)) ((log2 n : Int) - 52) = false := by
      unfold overflows
      rw [decide_eq_false_iff_not]
      rintro ⟨hex0, hbig⟩
      have htn : ((log2 n : Int) - 52).toNat = 0 := by omega
      have hsub : 52 - log2 n = 0 := by omega
      rw [htn, hsub, pow_zero, mul_one, mul_one] at hbig
      have hpow : (2 : Nat) ^ 53 < 2 ^ 1024 := Nat.pow_lt_pow_right (by norm_num) (by norm_num)
      exact absurd (lt_of_lt_of_le (lt_trans hlt hpow) hbig) (lt_irrefl _)
    unfold round
    rw [if_neg hq0]
    simp only [Rat.num_natCast, Int.natAbs_ofNat, Rat.den_natCast, hnear, hov,
      Bool.false_eq_true, if_false, hpos]
    congr 1
    have hz : ((log2 n : Int) - 52) = -((52 - log2 n : Nat) : Int) := by omega
    rw [hz, zpow_neg, zpow_natCast]
    push_cast
    field_simp

theorem exact_natCast (n : Nat) (hlt : n < 2 ^ 53) : Exact (n : ℚ) := round_natCast n hlt

theorem exact_neg (x : ℚ) (h : Exact x) : Exact (-x) := by
  unfold Exact at *
  rw [round_neg, h]
  rfl

end Binary64

theorem Double.add_finite (a b : ℚ) :
    Double.add (.finite a) (.finite b) = Binary64.round (a + b) := rfl

theorem Double.sub_finite (a b : ℚ) :
    Double.sub (.finite a) (.finite b) = Binary64.round (a - b) := by
  simp [Double.sub, Double.neg, Double.add, sub_eq_add_neg]

theorem Double.ofNat_eq (n : Nat) : (OfNat.ofNat n : Double) = .finite (n : ℚ) := rfl

theorem Double.neg_finite (a : ℚ) : -(Double.finite a) = .finite (-a) := rfl

theorem stod_of_core (s : String) (m : Nat) (ex : Int) (q : ℚ)
    (h : stodCore s = some (m, ex)) (hq : (m : ℚ) * (2 : ℚ) ^ ex = q) : stod s = .ok q := by
  unfold stod
  rw [h]
  simp only []
  rw [hq]

theorem stod_of_core_none (s : String) (h : stodCore s = none) : stod s = .error "stod" := by
  unfold stod
  rw [h]

namespace Binary64

theorem zpow_le_div_nonneg (n d : Nat) (hd : 0 < d) (e : Int) (he : 0 ≤ e) :
    (2 : ℚ) ^ e ≤ (n : ℚ) / (d : ℚ) ↔ d * 2 ^ e.toNat ≤ n := by
  have hdq : (0 : ℚ) < (d : ℚ) := by exact_mod_cast hd
  obtain ⟨k, rfl⟩ := Int.eq_ofNat_of_zero_le he
  rw [zpow_natCast, Int.toNat_ofNat, le_div_iff₀ hdq]
  constructor
  · intro h
    have h2 : ((d * 2 ^ k : Nat) : ℚ) ≤ (n : ℚ) := by
      push_cast
      linarith
    exact_mod_cast h2
  · intro h
    have h2 : ((d * 2 ^ k : Nat) : ℚ) ≤ (n : ℚ) := by exact_mod_cast h
    push_cast at h2
    linarith

theorem zpow_le_div_neg (n d : Nat) (hd : 0 < d) (e : Int) (he : e < 0) :
    (2 : ℚ) ^ e ≤ (n : ℚ) / (d : ℚ) ↔ d ≤ n * 2 ^ (-e).toNat := by
  have hdq : (0 : ℚ) < (d : ℚ) := by exact_mod_cast hd
  obtain ⟨k, hk⟩ := Int.eq_ofNat_of_zero_le (show 0 ≤ -e by omega)
  have he2 : e = -(k : Int) := by omega
  rw [hk, Int.toNat_ofNat, he2, zpow_neg, zpow_natCast, le_div_iff₀ hdq]
  have hp : (0 : ℚ) < (2 : ℚ) ^ k := by positivity
  constructor
  · intro h
    have h2 : ((d : Nat) : ℚ) ≤ ((n * 2 ^ k : Nat) : ℚ) := by
      push_cast
      have := mul_le_mul_of_nonneg_right h (le_of_lt hp)
      rw [mul_comm ((2 : ℚ) ^ k)⁻¹, mul_assoc, inv_mul_cancel₀ (ne_of_gt hp), mul_one] at this
      exact this
    exact_mod_cast h2
  · intro h
    have h2 : ((d : Nat) : ℚ) ≤ ((n * 2 ^ k : Nat) : ℚ) := by exact_mod_cast h
    push_cast at h2
    rw [inv_mul_le_iff₀ hp]
    linarith

theorem floorLog2_lower (n d : Nat) (hn : 1 ≤ n) (hd : 1 ≤ d) :
    (2 : ℚ) ^ floorLog2 n d ≤ (n : ℚ) / (d : ℚ) := by
  have hdq : (0 : ℚ) < (d : ℚ) := by exact_mod_cast hd
  obtain ⟨hn1, _⟩ := log2_spec n hn
  obtain ⟨_, hd2⟩ := log2_spec d hd
  have hgen : (2 : ℚ) ^ ((log2 n : Int) - (log2 d : Int) - 1) ≤ (n : ℚ) / (d : ℚ) := by
    have hrw : ((log2 n : Int) - (log2 d : Int) - 1) = (log2 n : Int) - ((log2 d + 1 : Nat) : Int) := by
      push_cast
      ring
    rw [hrw, zpow_sub₀ (by norm_num), zpow_natCast, zpow_natCast]
    have h1 : ((2 : ℚ) ^ log2 n) ≤ (n : ℚ) := by exact_mod_cast hn1
    have h2 : (d : ℚ) ≤ (2 : ℚ) ^ (log2 d + 1) := by exact_mod_cast (le_of_lt hd2)
    exact div_le_div₀ (by positivity) h1 hdq h2
  unfold floorLog2
  simp only []
  split_ifs with h0 hc hc
  · exact (zpow_le_div_nonneg n d hd _ h0).mpr hc
  · exact hgen
  · exact (zpow_le_div_neg n d hd _ (by omega)).mpr hc
  · exact hgen

theorem roundHalfEven_pos (num den : Nat) (hden : 0 < den) (h : den ≤ num) :
    1 ≤ roundHalfEven num den := by
  have hq : 1 ≤ num / den := Nat.div_pos h hden
  unfold roundHalfEven
  simp only []
  split_ifs <;> omega

theorem nearest_snd (n d : Nat) : (nearest n d).2 = max (floorLog2 n d) (-1022) - 52 := rfl

theorem nearest_snd_ge (n d : Nat) : -1074 ≤ (nearest n d).2 := by
  rw [nearest_snd]
  have := le_max_right (floorLog2 n d) (-1022)
  omega

theorem nearest_pos (n d : Nat) (hn : 1 ≤ n) (hd : 1 ≤ d)
    (hgrid : (2 : ℚ) ^ (-1074 : Int) ≤ (n : ℚ) / (d : ℚ)) : 1 ≤ (nearest n d).1 := by
  have hlow := floorLog2_lower n d hn hd
  have hex : (2 : ℚ) ^ (max (floorLog2 n d) (-1022) - 52) ≤ (n : ℚ) / (d : ℚ) := by
    rcases le_total (floorLog2 n d) (-1022) with h | h
    · rw [max_eq_right h]
      exact hgrid
    · rw [max_eq_left h]
      refine le_trans ?_ hlow
      exact zpow_le_zpow_right₀ (by norm_num) (by omega)
  unfold nearest
  simp only []
  split
  · rename_i h0
    refine roundHalfEven_pos _ _ (by positivity) ?_
    exact (zpow_le_div_nonneg n d hd _ h0).mp hex
  · rename_i h0
    refine roundHalfEven_pos _ _ hd ?_
    exact (zpow_le_div_neg n d hd _ (by omega)).mp hex

theorem abs_eq_natAbs_div (x : ℚ) : |x| = (x.num.natAbs : ℚ) / (x.den : ℚ) := by
  have hden : (0 : ℚ) < (x.den : ℚ) := by exact_mod_cast x.den_pos
  have hx : x = (x.num : ℚ) / (x.den : ℚ) := (Rat.num_div_den x).symm
  have habs : ((x.num.natAbs : Int) : ℚ) = |(x.num : ℚ)| := by
    rw [Int.natCast_natAbs]
    push_cast
    rfl
  have : ((x.num.natAbs : Nat) : ℚ) = |(x.num : ℚ)| := by
    rw [← habs, Int.cast_natCast]
  rw [this]
  conv_lhs => rw [hx]
  rw [abs_div, abs_of_pos hden]

theorem round_lt_zero (x : ℚ) (hx : x < 0) (hgrid : (2 : ℚ) ^ (-1074 : Int) ≤ -x) :
    Double.lt (round x) 0 = true := by
  have hn : 1 ≤ x.num.natAbs := by
    have : x.num ≠ 0 := by
      intro h
      rw [Rat.num_eq_zero] at h
      rw [h] at hx
      exact lt_irrefl _ hx
    exact Int.natAbs_pos.mpr this
  have hq : (2 : ℚ) ^ (-1074 : Int) ≤ (x.num.natAbs : ℚ) / (x.den : ℚ) := by
    rw [← abs_eq_natAbs_div, abs_of_neg hx]
    exact hgrid
  have hm := nearest_pos x.num.natAbs x.den hn x.den_pos hq
  unfold round
  rw [if_neg (ne_of_lt hx)]
  simp only [hx, if_true]
  split
  · rfl
  · rw [Double.ofNat_eq, Nat.cast_zero]
    simp only [Double.lt, decide_eq_true_eq]
    have hmq : (0 : ℚ) < ((nearest x.num.natAbs x.den).1 : ℚ) := by exact_mod_cast hm
    have hp : (0 : ℚ) < (2 : ℚ) ^ (nearest x.num.natAbs x.den).2 := by positivity
    have := mul_pos hmq hp
    linarith

theorem round_not_lt_zero (x : ℚ) (hx : 0 ≤ x) : Double.lt (round x) 0 = false := by
  rw [Double.ofNat_eq, Nat.cast_zero]
  unfold round
  split
  · simp [Double.lt]
  · simp only [not_lt.mpr hx, if_false]
    split
    · rfl
    · simp only [Double.lt, decide_eq_false_iff_not, not_lt]
      positivity

theorem round_on_grid (x q : ℚ) (h : round x = .finite q) :
    ∃ k : Int, q = (k : ℚ) * (2 : ℚ) ^ (-1074 : Int) := by
  have hval : ∀ (m : Nat) (ex : Int), -1074 ≤ ex →
      (m : ℚ) * (2 : ℚ) ^ ex
        = (((m * 2 ^ (ex + 1074).toNat : Nat) : Int) : ℚ) * (2 : ℚ) ^ (-1074 : Int) := by
    intro m ex hex
    obtain ⟨k, hk⟩ := Int.eq_ofNat_of_zero_le (show 0 ≤ ex + 1074 by omega)
    have hex2 : ex = (k : Int) + (-1074) := by omega
    rw [hk, Int.toNat_ofNat]
    push_cast
    rw [hex2, zpow_add₀ (by norm_num), zpow_natCast]
    ring
  unfold round at h
  split at h
  · injection h with h
    exact ⟨0, by rw [← h]; simp⟩
  · simp only [] at h
    split at h
    · split at h <;> cases h
    · split at h
      · injection h with h
        refine ⟨-((((nearest x.num.natAbs x.den).1
          * 2 ^ ((nearest x.num.natAbs x.den).2 + 1074).toNat : Nat) : Int)), ?_⟩
        rw [← h, hval _ _ (nearest_snd_ge _ _)]
        push_cast
        ring
      · injection h with h
        refine ⟨(((nearest x.num.natAbs x.den).1
          * 2 ^ ((nearest x.num.natAbs x.den).2 + 1074).toNat : Nat) : Int), ?_⟩
        rw [← h, hval _ _ (nearest_snd_ge _ _)]

theorem grid_gap (v t : ℚ) (kv kt : Int) (hv : v = (kv : ℚ) * (2 : ℚ) ^ (-1074 : Int))
    (ht : t = (kt : ℚ) * (2 : ℚ) ^ (-1074 : Int)) (hlt : v < t) :
    (2 : ℚ) ^ (-1074 : Int) ≤ t - v := by
  have hg : (0 : ℚ) < (2 : ℚ) ^ (-1074 : Int) := by positivity
  have hk : kv < kt := by
    rw [hv, ht] at hlt
    have := lt_of_mul_lt_mul_right hlt (le_of_lt hg)
    exact_mod_cast this
  have hk1 : (1 : ℚ) ≤ (kt : ℚ) - (kv : ℚ) := by
    have : kv + 1 ≤ kt := hk
    have h2 : ((kv + 1 : Int) : ℚ) ≤ (kt : ℚ) := by exact_mod_cast this
    push_cast at h2
    linarith
  rw [hv, ht, ← sub_mul]
  calc (2 : ℚ) ^ (-1074 : Int) = 1 * (2 : ℚ) ^ (-1074 : Int) := by ring
    _ ≤ ((kt : ℚ) - (kv : ℚ)) * (2 : ℚ) ^ (-1074 : Int) :=
      mul_le_mul_of_nonneg_right hk1 (le_of_lt hg)

theorem sub_lt_zero_iff (v t : ℚ) (hv : Exact v) (x q : ℚ) (ht : round x = .finite t)
    (hq : q = v - t) : Double.lt (round q) 0 = true ↔ v < t := by
  subst hq
  constructor
  · intro h
    by_contra hle
    rw [round_not_lt_zero (v - t) (by linarith [not_lt.mp hle])] at h
    cases h
  · intro hlt
    obtain ⟨kv, hkv⟩ := round_on_grid v v hv
    obtain ⟨kt, hkt⟩ := round_on_grid x t ht
    have hgap := grid_gap v t kv kt hkv hkt hlt
    exact round_lt_zero (v - t) (by linarith) (by linarith)

end Binary64

/-! ## Lemmas on the strategy loops -/

theorem foldl_amount_eq (l : List Expense) (start : ℚ) :
    l.foldl (fun total expense => total + expense.amount) start
      = start + (l.map Expense.amount).sum := by
  induction l generalizing start with
  | nil => simp
  | cons e es ih => simp [ih, add_assoc]

theorem foldl_select (p : Expense → Bool) (l : List Expense) (st : ViewState) :
    l.foldl (fun st e => if p e then st.print e else st) st
      = { rows := st.rows ++ l.filter p,
          totalExpenses := st.totalExpenses + ((l.filter p).map Expense.amount).sum,
          found := st.found || l.any p } := by
  induction l generalizing st with
  | nil => simp
  | cons e es ih =>
    simp only [List.foldl_cons]
    cases hp : p e
    · rw [if_neg (by simp), ih]; simp [hp]
    · rw [if_pos rfl, ih]; simp [hp, ViewState.print, add_assoc]

theorem any_eq_false_iff_filter_nil (p : Expense → Bool) (l : List Expense) :
    l.any p = false ↔ l.filter p = [] := by
  induction l with
  | nil => simp
  | cons e es ih => cases hp : p e <;> simp [hp, ih]

theorem monthly_step_eq (month currentYear : Int) :
    MonthlyViewStrategy.step month currentYear
      = fun st e => if Spec.monthlySelected month currentYear e then st.print e else st := by
  funext st e
  unfold MonthlyViewStrategy.step Spec.monthlySelected
  cases stringToDate e.date with
  | none => simp
  | some d => by_cases h1 : d.tm_mon + 1 = month <;> by_cases h2 : d.tm_year + 1900 = currentYear <;> simp [h1, h2]

theorem total64_exact (l : List Expense) (start : ℚ)
    (h : Binary64.ExactSums start (l.map Expense.amount)) :
    total64 (.finite start) l = .finite (start + (l.map Expense.amount).sum) := by
  induction l generalizing start with
  | nil => simp [total64]
  | cons e es ih =>
    obtain ⟨h1, h2⟩ := h
    have hstep : total64 (.finite start) (e :: es) = total64 (.finite (start + e.amount)) es := by
      unfold total64
      rw [List.foldl_cons, Double.add_finite]
      rw [show Binary64.round (start + e.amount) = .finite (start + e.amount) from h1]
    rw [hstep, ih (start + e.amount) h2]
    simp [add_assoc]

theorem total64_congr (l1 l2 : List Expense) (start : Double)
    (h : l1.map Expense.amount = l2.map Expense.amount) : total64 start l1 = total64 start l2 := by
  induction l1 generalizing l2 start with
  | nil =>
    cases l2 with
    | nil => rfl
    | cons e es => simp at h
  | cons e es ih =>
    cases l2 with
    | nil => simp at h
    | cons e2 es2 =>
      simp only [List.map_cons, List.cons.injEq] at h
      unfold total64 at *
      simp only [List.foldl_cons]
      rw [h.1]
      exact ih es2 _ h.2

theorem getRemainingBudget_eq (user : User) :
    BudgetManager.getRemainingBudget user
      = Double.sub (.finite user.budget) (total64 0 user.expenses) := rfl

theorem getRemainingBudget_of_exact (user : User)
    (hsum : Binary64.ExactSums 0 (user.expenses.map Expense.amount))
    (hdiff : Binary64.Exact (user.budget - (user.expenses.map Expense.amount).sum)) :
    BudgetManager.getRemainingBudget user
      = .finite (user.budget - (user.expenses.map Expense.amount).sum) := by
  rw [getRemainingBudget_eq, Double.ofNat_eq, Nat.cast_zero, total64_exact _ _ hsum, zero_add,
    Double.sub_finite]
  exact hdiff

theorem Binary64.exact_of_eq_natCast (q : ℚ) (n : Nat) (h : q = (n : ℚ)) (hlt : n < 2 ^ 53) :
    Binary64.Exact q := by
  rw [h]
  exact Binary64.exact_natCast n hlt

theorem Binary64.exact_of_eq_neg_natCast (q : ℚ) (n : Nat) (h : q = -(n : ℚ))
    (hlt : n < 2 ^ 53) : Binary64.Exact q := by
  rw [h]
  exact Binary64.exact_neg _ (Binary64.exact_natCast n hlt)

theorem total64_tenths :
    total64 0 Sample.tenths.expenses = .finite (1351079888211149 / 4503599627370496) := by
  have h1 : Binary64.round (0 + 3602879701896397 / 36028797018963968)
      = .finite (3602879701896397 / 36028797018963968) :=
    Binary64.round_frac _ 3602879701896397 36028797018963968 7205759403792794 (-56) _
      (by norm_num) (by norm_num) (by norm_num) (by norm_num) (by decide) (by decide)
      (by norm_num)
  have h2 : Binary64.round (3602879701896397 / 36028797018963968
        + 3602879701896397 / 18014398509481984)
      = .finite (1351079888211149 / 4503599627370496) :=
    Binary64.round_frac _ 10808639105689191 36028797018963968 5404319552844596 (-54) _
      (by norm_num) (by norm_num) (by norm_num) (by norm_num) (by decide) (by decide)
      (by norm_num)
  simp only [total64, Sample.tenths, List.foldl_cons, List.foldl_nil, Double.ofNat_eq,
    Nat.cast_zero, Double.add_finite, h1, h2]

theorem getRemainingBudget_tenths :
    BudgetManager.getRemainingBudget Sample.tenths = .finite (-1 / 18014398509481984) := by
  rw [getRemainingBudget_eq, total64_tenths, Double.sub_finite]
  have h : Binary64.round (1 / 18014398509481984) = .finite (1 / 18014398509481984) :=
    Binary64.round_frac _ 1 18014398509481984 4503599627370496 (-106) _
      (by norm_num) (by norm_num) (by norm_num) (by norm_num) (by decide) (by decide)
      (by norm_num)
  have hx : Sample.tenths.budget - 1351079888211149 / 4503599627370496
      = -(1 / 18014398509481984) := by
    norm_num [Sample.tenths]
  rw [hx, Binary64.round_neg, h]
  simp only [Double.neg, Double.finite.injEq]
  norm_num

set_option maxRecDepth 100000 in
theorem total64_absorbed :
    total64 0 Sample.absorbed.expenses = .finite 10000000000000000 := by
  have h1 : Binary64.round (0 + 10000000000000000) = .finite 10000000000000000 :=
    Binary64.round_frac _ 10000000000000000 1 5000000000000000 1 _
      (by norm_num) (by norm_num) (by norm_num) (by norm_num) (by decide) (by decide)
      (by norm_num)
  have h2 : Binary64.round (10000000000000000 + 1) = .finite 10000000000000000 :=
    Binary64.round_frac _ 10000000000000001 1 5000000000000000 1 _
      (by norm_num) (by norm_num) (by norm_num) (by norm_num) (by decide) (by decide)
      (by norm_num)
  simp only [total64, Sample.absorbed, List.foldl_cons, List.foldl_nil, Double.ofNat_eq,
    Nat.cast_zero, Double.add_finite, h1, h2]

theorem getRemainingBudget_absorbed :
    BudgetManager.getRemainingBudget Sample.absorbed = .finite 0 := by
  rw [getRemainingBudget_eq, total64_absorbed, Double.sub_finite]
  have hx : Sample.absorbed.budget - 10000000000000000 = 0 := by
    norm_num [Sample.absorbed]
  rw [hx, Binary64.round_zero]

theorem getRemainingBudget_sixty :
    BudgetManager.getRemainingBudget Sample.sixty = .finite 40 := by
  rw [getRemainingBudget_of_exact]
  · norm_num [Sample.sixty]
  · exact ⟨Binary64.exact_of_eq_natCast _ 60 (by norm_num [Sample.sixty]) (by norm_num),
      trivial⟩
  · exact Binary64.exact_of_eq_natCast _ 40 (by norm_num [Sample.sixty]) (by norm_num)

/-- C2 (counterexample): budget 0.3 with the stored amounts 0.1 and 0.2 (the binary64
numbers `stod` returns for these texts). The budget minus the sum of the amounts is
`-2^-55`, but `getRemainingBudget` returns `-2^-54`: the addition `0.1 + 0.2` rounds. -/
theorem getRemainingBudget_rounds_on_tenths :
    stod "0.3" = .ok Sample.tenths.budget
      ∧ Sample.tenths.expenses.map (fun e => Except.ok (ε := String) e.amount)
          = [stod "0.1", stod "0.2"]
      ∧ Sample.tenths.budget - (Sample.tenths.expenses.map Expense.amount).sum
          = -1 / 36028797018963968
      ∧ BudgetManager.getRemainingBudget Sample.tenths = .finite (-1 / 18014398509481984)
      ∧ BudgetManager.getRemainingBudget Sample.tenths
          ≠ .finite (Sample.tenths.budget - (Sample.tenths.expenses.map Expense.amount).sum) := by
  have h3 : stod "0.3" = .ok (5404319552844595 / 18014398509481984) :=
    stod_of_core "0.3" 5404319552844595 (-54) _ (by decide) (by norm_num)
  have h1 : stod "0.1" = .ok (3602879701896397 / 36028797018963968) :=
    stod_of_core "0.1" 7205759403792794 (-56) _ (by decide) (by norm_num)
  have h2 : stod "0.2" = .ok (3602879701896397 / 18014398509481984) :=
    stod_of_core "0.2" 7205759403792794 (-55) _ (by decide) (by norm_num)
  have hsum : Sample.tenths.budget - (Sample.tenths.expenses.map Expense.amount).sum
      = -1 / 36028797018963968 := by
    norm_num [Sample.tenths]
  refine ⟨by rw [h3]; rfl, by rw [h1, h2]; rfl, hsum, getRemainingBudget_tenths, ?_⟩
  rw [getRemainingBudget_tenths, hsum]
  intro h
  injection h with h
  norm_num at h

/-- C2 (amended): `getRemainingBudget` returns the binary64 difference of the budget and
the total accumulated from 0 in collection order by binary64 additions. It depends on the
budget and the stored amounts only, it is the budget for an empty collection, and it is
exactly the budget minus the sum of the amounts whenever no addition and not the
subtraction rounds. -/
theorem getRemainingBudget_is_rounded_difference (user : User) :
    BudgetManager.getRemainingBudget user
        = Double.sub (.finite user.budget) (total64 0 user.expenses)
      ∧ (∀ other : User, other.budget = user.budget →
          other.expenses.map Expense.amount = user.expenses.map Expense.amount →
          BudgetManager.getRemainingBudget other = BudgetManager.getRemainingBudget user)
      ∧ (Binary64.Exact user.budget →
          BudgetManager.getRemainingBudget { user with expenses := [] } = .finite user.budget)
      ∧ (Binary64.ExactSums 0 (user.expenses.map Expense.amount) →
          Binary64.Exact (user.budget - (user.expenses.map Expense.amount).sum) →
          BudgetManager.getRemainingBudget user
            = .finite (user.budget - (user.expenses.map Expense.amount).sum)) := by
  refine ⟨rfl, ?_, ?_, getRemainingBudget_of_exact user⟩
  · intro other hb he
    rw [getRemainingBudget_eq, getRemainingBudget_eq, hb, total64_congr _ _ _ he]
  · intro hb
    rw [getRemainingBudget_eq]
    simp only [total64, List.foldl_nil, Double.ofNat_eq, Nat.cast_zero, Double.sub_finite,
      sub_zero]
    exact hb

theorem exactSums_half : Binary64.ExactSums 0 (Sample.half.expenses.map Expense.amount) := by
  refine ⟨?_, trivial⟩
  have := Binary64.exact_natCast 50 (by norm_num)
  simpa [Sample.half] using this

theorem exact_half_difference :
    Binary64.Exact (Sample.half.budget - (Sample.half.expenses.map Expense.amount).sum) := by
  have := Binary64.exact_natCast 50 (by norm_num)
  have h : Sample.half.budget - (Sample.half.expenses.map Expense.amount).sum = ((50 : Nat) : ℚ) := by
    norm_num [Sample.half]
  rw [h]
  exact this

theorem getRemainingBudget_half : BudgetManager.getRemainingBudget Sample.half = 50 := by
  rw [getRemainingBudget_of_exact _ exactSums_half exact_half_difference, Double.ofNat_eq]
  norm_num [Sample.half]

/-- Witness for C2 (amended): budget 100 with one expense of 50 gives 50; nothing rounds. -/
theorem getRemainingBudget_is_rounded_difference_witness :
    Binary64.ExactSums 0 (Sample.half.expenses.map Expense.amount)
      ∧ Binary64.Exact (Sample.half.budget - (Sample.half.expenses.map Expense.amount).sum)
      ∧ BudgetManager.getRemainingBudget Sample.half
          = .finite (Sample.half.budget - (Sample.half.expenses.map Expense.amount).sum) :=
  ⟨exactSums_half, exact_half_difference,
    (getRemainingBudget_is_rounded_difference Sample.half).2.2.2 exactSums_half
      exact_half_difference⟩

/-! ## Monthly and category views -/

theorem weekly_step_eq (now : Int) :
    WeeklyViewStrategy.step now
      = fun st e => if WeeklyViewStrategy.selects now e then st.print e else st := by
  funext st e
  unfold WeeklyViewStrategy.step WeeklyViewStrategy.selects
  cases stringToDate e.date with
  | none => simp
  | some d =>
    by_cases h : (((now - mktime d : Int) : ℚ)) / (60 * 60 * 24) ≤ 7 <;> simp [h]

theorem daysDiff_le_seven_iff (x : Int) : ((x : ℚ) / (60 * 60 * 24) ≤ 7) ↔ x ≤ 604800 := by
  rw [div_le_iff₀ (by norm_num)]
  have h : (7 : ℚ) * (60 * 60 * 24) = ((604800 : Int) : ℚ) := by norm_num
  rw [h, Int.cast_le]

theorem weekly_mem_rows (user : User) (totalExpenses : ℚ) (currentDate : Tm) (e : Expense) :
    e ∈ (WeeklyViewStrategy.viewExpenses user totalExpenses currentDate).rows
      ↔ e ∈ user.expenses
        ∧ ∃ d, stringToDate e.date = some d ∧ mktime currentDate - mktime d ≤ 604800 := by
  unfold WeeklyViewStrategy.viewExpenses
  simp only [weekly_step_eq, foldl_select, List.nil_append, List.mem_filter, timeNow]
  unfold WeeklyViewStrategy.selects
  cases stringToDate e.date with
  | none => simp
  | some d =>
    have hiff := daysDiff_le_seven_iff (mktime currentDate - mktime d)
    simp only [decide_eq_true_eq, hiff]
    constructor
    · rintro ⟨h1, h2⟩
      exact ⟨h1, d, rfl, h2⟩
    · rintro ⟨h1, d1, hd1, h2⟩
      cases hd1
      exact ⟨h1, h2⟩

theorem stringToDate_midnight (s : String) (d : Tm) (h : stringToDate s = some d) :
    d.tm_hour = 0 ∧ d.tm_min = 0 ∧ d.tm_sec = 0 := by
  unfold stringToDate at h
  split at h
  · split at h
    · dsimp only at h
      split at h
      · cases h
        simp
      · cases h
    · cases h
  · cases h

/-- C8, as stated, fails: at 12:00:00 on 2024-03-15 the expense dated 2024-03-08, exactly
seven calendar days before today, is not printed by `WeeklyViewStrategy`. -/
theorem weekly_view_drops_seventh_day_at_noon :
    daysFromCivil 2024 3 8 + 7 = daysFromCivil 2024 3 15
      ∧ ({ id := 2, category := "food", amount := 20, date := "2024-03-08" } : Expense)
          ∈ Sample.dated.expenses
      ∧ ({ id := 2, category := "food", amount := 20, date := "2024-03-08" } : Expense)
          ∉ (WeeklyViewStrategy.viewExpenses Sample.dated 0 Sample.noon).rows := by
  refine ⟨by decide, by simp [Sample.dated], ?_⟩
  rw [weekly_mem_rows]
  rintro ⟨_, d, hd, h⟩
  have hparse : stringToDate "2024-03-08" = some ⟨0, 0, 0, 8, 2, 124⟩ := by decide
  rw [show ({ id := 2, category := "food", amount := 20, date := "2024-03-08" } : Expense).date
      = "2024-03-08" from rfl, hparse] at hd
  cases hd
  revert h
  decide

/-- C8, amended: for every local time of day, an expense of the collection whose date
parses is printed by `WeeklyViewStrategy` iff the time elapsed from local midnight of its
date to now is at most `7 * 86400` seconds. Hence: dated exactly 7 calendar days before
today, it is printed iff the current local time is exactly 00:00:00; dated 8 calendar days
before today, it is never printed; dated at most 6 calendar days before today, it is always
printed. -/
theorem weekly_view_boundary (user : User) (totalExpenses : ℚ) (currentDate : Tm)
    (e : Expense) (d : Tm) (hmem : e ∈ user.expenses) (hd : stringToDate e.date = some d)
    (hhour : 0 ≤ currentDate.tm_hour ∧ currentDate.tm_hour < 24)
    (hmin : 0 ≤ currentDate.tm_min ∧ currentDate.tm_min < 60)
    (hsec : 0 ≤ currentDate.tm_sec ∧ currentDate.tm_sec < 60) :
    (e ∈ (WeeklyViewStrategy.viewExpenses user totalExpenses currentDate).rows
        ↔ timeNow currentDate - mktime d ≤ 7 * 86400)
      ∧ mktime d = daysFromCivil (d.tm_year + 1900) (d.tm_mon + 1) d.tm_mday * 86400
      ∧ (daysFromCivil (d.tm_year + 1900) (d.tm_mon + 1) d.tm_mday + 7
          = daysFromCivil (currentDate.tm_year + 1900) (currentDate.tm_mon + 1)
              currentDate.tm_mday
        → (e ∈ (WeeklyViewStrategy.viewExpenses user totalExpenses currentDate).rows
            ↔ currentDate.tm_hour = 0 ∧ currentDate.tm_min = 0 ∧ currentDate.tm_sec = 0))
      ∧ (daysFromCivil (d.tm_year + 1900) (d.tm_mon + 1) d.tm_mday + 8
          = daysFromCivil (currentDate.tm_year + 1900) (currentDate.tm_mon + 1)
              currentDate.tm_mday
        → e ∉ (WeeklyViewStrategy.viewExpenses user totalExpenses currentDate).rows)
      ∧ (daysFromCivil (currentDate.tm_year + 1900) (currentDate.tm_mon + 1)
            currentDate.tm_mday
          ≤ daysFromCivil (d.tm_year + 1900) (d.tm_mon + 1) d.tm_mday + 6
        → e ∈ (WeeklyViewStrategy.viewExpenses user totalExpenses currentDate).rows) := by
  obtain ⟨h0, m0, s0⟩ := stringToDate_midnight _ _ hd
  have key : e ∈ (WeeklyViewStrategy.viewExpenses user totalExpenses currentDate).rows
      ↔ mktime currentDate - mktime d ≤ 604800 := by
    rw [weekly_mem_rows]
    constructor
    · rintro ⟨_, d1, hd1, h⟩
      rw [hd] at hd1
      cases hd1
      exact h
    · intro h
      exact ⟨hmem, d, hd, h⟩
  rw [key]
  unfold timeNow mktime
  rw [h0, m0, s0]
  generalize daysFromCivil (d.tm_year + 1900) (d.tm_mon + 1) d.tm_mday = day
  generalize daysFromCivil (currentDate.tm_year + 1900) (currentDate.tm_mon + 1)
    currentDate.tm_mday = today
  refine ⟨by norm_num, by omega, fun h => ?_, fun h => ?_, fun h => ?_⟩
  · constructor
    · intro hle
      omega
    · rintro ⟨a, b, c⟩
      omega
  · omega
  · omega

/-- C8 amended, concrete check on the sample collection: at 12:00:00 on 2024-03-15 the
expense dated 2024-03-08 is not printed, at 00:00:00 it is. -/
theorem weekly_view_boundary_witness :
    ({ id := 2, category := "food", amount := 20, date := "2024-03-08" } : Expense)
        ∉ (WeeklyViewStrategy.viewExpenses Sample.dated 0 Sample.noon).rows
      ∧ ({ id := 2, category := "food", amount := 20, date := "2024-03-08" } : Expense)
        ∈ (WeeklyViewStrategy.viewExpenses Sample.dated 0 Sample.midnight).rows
      ∧ ({ id := 5, category := "Bus", amount := 7, date := "2024-03-07" } : Expense)
        ∉ (WeeklyViewStrategy.viewExpenses Sample.dated 0 Sample.midnight).rows := by
  refine ⟨?_, ?_, ?_⟩
  · intro hin
    have h := (weekly_view_boundary Sample.dated 0 Sample.noon
      { id := 2, category := "food", amount := 20, date := "2024-03-08" }
      ⟨0, 0, 0, 8, 2, 124⟩ (by simp [Sample.dated]) (by decide) (by decide) (by decide)
      (by decide)).2.2.1 (by decide)
    exact absurd (h.mp hin).1 (by decide)
  · exact ((weekly_view_boundary Sample.dated 0 Sample.midnight
      { id := 2, category := "food", amount := 20, date := "2024-03-08" }
      ⟨0, 0, 0, 8, 2, 124⟩ (by simp [Sample.dated]) (by decide) (by decide) (by decide)
      (by decide)).2.2.1 (by decide)).mpr (by decide)
  · exact (weekly_view_boundary Sample.dated 0 Sample.midnight
      { id := 5, category := "Bus", amount := 7, date := "2024-03-07" }
      ⟨0, 0, 0, 7, 2, 124⟩ (by simp [Sample.dated]) (by decide) (by decide) (by decide)
      (by decide)).2.2.2.1 (by decide)

/-! ## Lemmas on the prompt loops of addExpense -/

namespace ExpenseManager

theorem addAmountLoop_accept (user : User) (amountInput : String) (rest : List String)
    (a : ℚ) (hx : amountInput ≠ "x" ∧ amountInput ≠ "X")
    (hnum : InputValidator.validateIsNumeric amountInput = .ok ())
    (hstod : stod amountInput = .ok a) (hbudget : a ≤ user.budget) :
    addAmountLoop user (amountInput :: rest)
      = some { value := some a, errors := [], rest := rest } := by
  unfold addAmountLoop
  rw [if_neg (by simp [hx.1, hx.2]), hnum, hstod]
  simp only [BudgetManager.getBudget]
  rw [if_neg (not_lt.mpr hbudget)]

theorem addAmountLoop_reject (user : User) (amountInput : String) (rest : List String)
    (a : ℚ) (hx : amountInput ≠ "x" ∧ amountInput ≠ "X")
    (hnum : InputValidator.validateIsNumeric amountInput = .ok ())
    (hstod : stod amountInput = .ok a) (hbudget : a > user.budget) :
    addAmountLoop user (amountInput :: rest)
      = (addAmountLoop user rest).map (Prompted.caught insufficientBudget) := by
  rw [addAmountLoop]
  rw [if_neg (by simp [hx.1, hx.2]), hnum, hstod]
  simp only [BudgetManager.getBudget]
  rw [if_pos hbudget]

theorem addAmountLoop_throw (user : User) (amountInput : String) (rest : List String)
    (e : String) (hx : amountInput ≠ "x" ∧ amountInput ≠ "X")
    (hnum : InputValidator.validateIsNumeric amountInput = .ok ())
    (hstod : stod amountInput = .error e) :
    addAmountLoop user (amountInput :: rest)
      = (addAmountLoop user rest).map (Prompted.caught e) := by
  rw [addAmountLoop]
  rw [if_neg (by simp [hx.1, hx.2]), hnum, hstod]

theorem addCategoryLoop_accept (category : String) (rest : List String)
    (hx : category ≠ "x" ∧ category ≠ "X")
    (hne : InputValidator.validateNotEmpty category = .ok ()) :
    addCategoryLoop (category :: rest)
      = some { value := some category, errors := [], rest := rest } := by
  unfold addCategoryLoop
  rw [if_neg (by simp [hx.1, hx.2]), hne]

theorem addDateLoop_accept (currentDate : Tm) (date : String) (rest : List String)
    (hx : date ≠ "x" ∧ date ≠ "X") (hdate : checkDate currentDate date = .ok ()) :
    addDateLoop currentDate (date :: rest)
      = some { value := some date, errors := [], rest := rest } := by
  unfold addDateLoop
  rw [if_neg (by simp [hx.1, hx.2]), hdate]

theorem addExpense_accept (user : User) (currentDate : Tm)
    (amountInput category date : String) (rest : List String) (a : ℚ)
    (hxa : amountInput ≠ "x" ∧ amountInput ≠ "X")
    (hnum : InputValidator.validateIsNumeric amountInput = .ok ())
    (hstod : stod amountInput = .ok a) (hbudget : a ≤ user.budget)
    (hxc : category ≠ "x" ∧ category ≠ "X")
    (hne : InputValidator.validateNotEmpty category = .ok ())
    (hxd : date ≠ "x" ∧ date ≠ "X") (hdate : checkDate currentDate date = .ok ()) :
    addExpense user currentDate (amountInput :: category :: date :: rest)
      = some { user := { user with expenses := user.expenses ++
                  [{ id := (user.expenses.length : Int) + 1, category := category,
                     amount := a, date := date }] },
               committed := true, errors := [], rest := rest } := by
  unfold addExpense
  rw [addAmountLoop_accept user amountInput _ a hxa hnum hstod hbudget]
  simp only []
  rw [addCategoryLoop_accept category _ hxc hne]
  simp only []
  rw [addDateLoop_accept currentDate date _ hxd hdate]
  simp

theorem addExpense_throw_then_cancel (user : User) (currentDate : Tm) (amountInput : String)
    (rest : List String) (e : String) (hx : amountInput ≠ "x" ∧ amountInput ≠ "X")
    (hnum : InputValidator.validateIsNumeric amountInput = .ok ())
    (hstod : stod amountInput = .error e) :
    addExpense user currentDate (amountInput :: "x" :: rest)
      = some { user := user, committed := false, errors := [e], rest := rest } := by
  have hcancel : addAmountLoop user ("x" :: rest)
      = some { value := none, errors := [], rest := rest } := by
    unfold addAmountLoop
    rw [if_pos (Or.inl rfl)]
  unfold addExpense
  rw [addAmountLoop_throw user amountInput _ e hx hnum hstod, hcancel]
  rfl

set_option maxRecDepth 100000 in
theorem stod_tinyText : stod Sample.tinyText = .error "stod" :=
  stod_of_core_none _ (by decide)

set_option maxRecDepth 100000 in
theorem stod_hugeText : stod Sample.hugeText = .error "stod" :=
  stod_of_core_none _ (by decide)

set_option maxRecDepth 100000 in
theorem validateIsNumeric_tinyText : InputValidator.validateIsNumeric Sample.tinyText = .ok () := by
  decide

set_option maxRecDepth 100000 in
theorem validateIsNumeric_hugeText : InputValidator.validateIsNumeric Sample.hugeText = .ok () := by
  decide

set_option maxRecDepth 100000 in
theorem tinyText_ne_x : Sample.tinyText ≠ "x" ∧ Sample.tinyText ≠ "X" := by
  decide

theorem map_caught_eq_some {α : Type} (o : Option (Prompted α)) (msg : String)
    (r : Prompted α) (h : o.map (Prompted.caught msg) = some r) :
    ∃ r0, o = some r0 ∧ r.value = r0.value ∧ r.rest = r0.rest
      ∧ r.errors = msg :: r0.errors := by
  cases o with
  | none => cases h
  | some r0 =>
    simp only [Option.map_some', Option.some.injEq] at h
    subst h
    exact ⟨r0, rfl, rfl, rfl, rfl⟩

theorem addAmountLoop_value (user : User) (input : List String) (r : Prompted ℚ) (a : ℚ)
    (h : addAmountLoop user input = some r) (hv : r.value = some a) :
    (∃ tok ∈ input, InputValidator.validateIsNumeric tok = .ok () ∧ stod tok = .ok a
        ∧ a ≤ user.budget)
      ∧ ∀ t ∈ r.rest, t ∈ input := by
  induction input generalizing r with
  | nil => simp [addAmountLoop] at h
  | cons tok rest ih =>
    have step : ∀ msg, (addAmountLoop user rest).map (Prompted.caught msg) = some r →
        (∃ tok1 ∈ tok :: rest, InputValidator.validateIsNumeric tok1 = .ok ()
          ∧ stod tok1 = .ok a ∧ a ≤ user.budget) ∧ ∀ t ∈ r.rest, t ∈ tok :: rest := by
      intro msg hm
      obtain ⟨r0, h0, hv0, hr0, _⟩ := map_caught_eq_some _ _ _ hm
      obtain ⟨⟨t1, ht1, hrest⟩, hsub⟩ := ih r0 h0 (hv0 ▸ hv)
      refine ⟨⟨t1, List.mem_cons_of_mem _ ht1, hrest⟩, fun t ht => ?_⟩
      rw [hr0] at ht
      exact List.mem_cons_of_mem _ (hsub t ht)
    rw [addAmountLoop] at h
    split at h
    · simp only [Option.some.injEq] at h
      subst h
      cases hv
    · split at h
      · exact step _ h
      · rename_i hnum
        split at h
        · exact step _ h
        · rename_i amount hstod
          simp only [BudgetManager.getBudget] at h
          split at h
          · exact step _ h
          · rename_i hle
            simp only [Option.some.injEq] at h
            subst h
            simp only [Option.some.injEq] at hv
            subst hv
            refine ⟨⟨tok, List.mem_cons_self _ _, ?_, hstod, not_lt.mp hle⟩, fun t ht =>
              List.mem_cons_of_mem _ ht⟩
            cases hu : InputValidator.validateIsNumeric tok with
            | error e => rw [hu] at hnum; cases hnum
            | ok u => rfl

theorem addCategoryLoop_value (input : List String) (r : Prompted String) (c : String)
    (h : addCategoryLoop input = some r) (hv : r.value = some c) :
    c ∈ input ∧ ∀ t ∈ r.rest, t ∈ input := by
  induction input generalizing r with
  | nil => simp [addCategoryLoop] at h
  | cons tok rest ih =>
    rw [addCategoryLoop] at h
    split at h
    · simp only [Option.some.injEq] at h
      subst h
      cases hv
    · split at h
      · obtain ⟨r0, h0, hv0, hr0, _⟩ := map_caught_eq_some _ _ _ h
        obtain ⟨hc, hsub⟩ := ih r0 h0 (hv0 ▸ hv)
        refine ⟨List.mem_cons_of_mem _ hc, fun t ht => ?_⟩
        rw [hr0] at ht
        exact List.mem_cons_of_mem _ (hsub t ht)
      · simp only [Option.some.injEq] at h
        subst h
        simp only [Option.some.injEq] at hv
        subst hv
        exact ⟨List.mem_cons_self _ _, fun t ht => List.mem_cons_of_mem _ ht⟩

theorem addDateLoop_value (currentDate : Tm) (input : List String) (r : Prompted String)
    (d : String) (h : addDateLoop currentDate input = some r) (hv : r.value = some d) :
    (d ∈ input ∧ checkDate currentDate d = .ok ()) ∧ ∀ t ∈ r.rest, t ∈ input := by
  induction input generalizing r with
  | nil => simp [addDateLoop] at h
  | cons tok rest ih =>
    rw [addDateLoop] at h
    split at h
    · simp only [Option.some.injEq] at h
      subst h
      cases hv
    · split at h
      · obtain ⟨r0, h0, hv0, hr0, _⟩ := map_caught_eq_some _ _ _ h
        obtain ⟨⟨hc, hok⟩, hsub⟩ := ih r0 h0 (hv0 ▸ hv)
        refine ⟨⟨List.mem_cons_of_mem _ hc, hok⟩, fun t ht => ?_⟩
        rw [hr0] at ht
        exact List.mem_cons_of_mem _ (hsub t ht)
      · rename_i hok
        simp only [Option.some.injEq] at h
        subst h
        simp only [Option.some.injEq] at hv
        subst hv
        refine ⟨⟨List.mem_cons_self _ _, ?_⟩, fun t ht => List.mem_cons_of_mem _ ht⟩
        cases hu : checkDate currentDate tok with
        | error e => rw [hu] at hok; cases hok
        | ok u => rfl

theorem allView_rows (user : User) (totalExpenses : ℚ) :
    (AllViewStrategy.viewExpenses user totalExpenses).rows = user.expenses
      ∧ (AllViewStrategy.viewExpenses user totalExpenses).totalExpenses
        = totalExpenses + (user.expenses.map Expense.amount).sum := by
  have h := foldl_select (fun _ => true) user.expenses
    { rows := [], totalExpenses := totalExpenses, found := false }
  simp only [if_true] at h
  unfold AllViewStrategy.viewExpenses
  have hfun : (fun (st : ViewState) (e : Expense) => st.print e) = ViewState.print := rfl
  rw [hfun] at h
  rw [h]
  simp

theorem addExpense_committed (user : User) (currentDate : Tm) (input : List String)
    (s : Session) (h : addExpense user currentDate input = some s)
    (hc : s.committed = true) :
    ∃ amountInput category date a,
      amountInput ∈ input ∧ category ∈ input ∧ date ∈ input
        ∧ InputValidator.validateIsNumeric amountInput = .ok ()
        ∧ stod amountInput = .ok a ∧ a ≤ user.budget
        ∧ checkDate currentDate date = .ok ()
        ∧ s.user.expenses = user.expenses ++
            [{ id := (user.expenses.length : Int) + 1, category := category,
               amount := a, date := date }] := by
  unfold addExpense at h
  split at h
  · cases h
  · rename_i a ha
    split at h
    · simp only [Option.some.injEq] at h
      subst h
      cases hc
    · rename_i amount hav
      obtain ⟨⟨ta, hta, hnum, hamt, hle⟩, hsubA⟩ := addAmountLoop_value user input a amount ha hav
      split at h
      · cases h
      · rename_i c hcl
        split at h
        · simp only [Option.some.injEq] at h
          subst h
          cases hc
        · rename_i category hcv
          obtain ⟨hcm, hsubC⟩ := addCategoryLoop_value a.rest c category hcl hcv
          split at h
          · cases h
          · rename_i d hdl
            split at h
            · simp only [Option.some.injEq] at h
              subst h
              cases hc
            · rename_i date hdv
              obtain ⟨⟨hdm, hok⟩, _⟩ := addDateLoop_value currentDate c.rest d date hdl hdv
              simp only [Option.some.injEq] at h
              subst h
              exact ⟨ta, category, date, amount, hta, hsubA _ hcm, hsubA _ (hsubC _ hdm),
                hnum, hamt, hle, hok, rfl⟩

theorem stod_five : stod "5" = .ok 5 :=
  stod_of_core "5" 5629499534213120 (-50) 5 (by decide) (by norm_num)

theorem stod_ten : stod "10" = .ok 10 :=
  stod_of_core "10" 5629499534213120 (-49) 10 (by decide) (by norm_num)

theorem stod_twenty : stod "20" = .ok 20 :=
  stod_of_core "20" 5629499534213120 (-48) 20 (by decide) (by norm_num)

theorem run_reuseOps : runOperations Sample.fresh Sample.reuseOps = some Sample.dup := by
  have h1 : addExpense Sample.fresh Sample.noon ["10", "Food", "2024-03-01"]
      = some { user := { Sample.fresh with expenses :=
                  [{ id := 1, category := "Food", amount := 10, date := "2024-03-01" }] },
               committed := true, errors := [], rest := [] } := by
    rw [addExpense_accept _ _ _ _ _ _ 10 (by decide) (by decide) stod_ten
      (by norm_num [Sample.fresh]) (by decide) (by decide) (by decide) (by decide)]
    simp [Sample.fresh]
  have h2 : addExpense { Sample.fresh with expenses :=
        [{ id := 1, category := "Food", amount := 10, date := "2024-03-01" }] }
        Sample.noon ["20", "Bus", "2024-03-02"]
      = some { user := Sample.two, committed := true, errors := [], rest := [] } := by
    rw [addExpense_accept _ _ _ _ _ _ 20 (by decide) (by decide) stod_twenty
      (by norm_num [Sample.fresh]) (by decide) (by decide) (by decide) (by decide)]
    simp [Sample.fresh, Sample.two]
  have h3 : removeExpense Sample.two 1 'y'
      = { Sample.two with expenses :=
            [{ id := 2, category := "Bus", amount := 20, date := "2024-03-02" }] } := by
    have hl : locate 1 Sample.two.expenses = some 0 := by decide
    have hy : tolower 'y' = 'y' := by decide
    unfold removeExpense
    rw [hl]
    simp [Sample.two, hy]
  have h4 : addExpense { Sample.two with expenses :=
        [{ id := 2, category := "Bus", amount := 20, date := "2024-03-02" }] }
        Sample.noon ["5", "Tea", "2024-03-03"]
      = some { user := Sample.dup, committed := true, errors := [], rest := [] } := by
    rw [addExpense_accept _ _ _ _ _ _ 5 (by decide) (by decide) stod_five
      (by norm_num [Sample.two]) (by decide) (by decide) (by decide) (by decide)]
    simp [Sample.two, Sample.dup]
  simp only [Sample.reuseOps, runOperations, Operation.run, h1, h2, h3, h4, Option.map_some']

/-! ## Lemmas on locate, remove and the modify loops -/

theorem locate_none_of_count_zero (k : Int) (l : List Expense)
    (h : (l.map Expense.id).count k = 0) : locate k l = none := by
  induction l with
  | nil => rfl
  | cons x xs ih =>
    by_cases hx : x.id = k
    · simp [hx] at h
    · have hc : (xs.map Expense.id).count k = 0 := by
        simpa [List.count_cons, hx] using h
      simp [locate, hx, ih hc]

theorem remove_core (k : Int) (l : List Expense) (h : (l.map Expense.id).count k = 1) :
    ∃ pre e post i, l = pre ++ e :: post ∧ e.id = k ∧ locate k l = some i
      ∧ l.eraseIdx i = pre ++ post ∧ locate k (pre ++ post) = none := by
  induction l with
  | nil => simp at h
  | cons x xs ih =>
    by_cases hx : x.id = k
    · have hc : (xs.map Expense.id).count k = 0 := by
        simpa [List.count_cons, hx] using h
      exact ⟨[], x, xs, 0, rfl, hx, by simp [locate, hx], rfl,
        by simpa using locate_none_of_count_zero k xs hc⟩
    · have hc : (xs.map Expense.id).count k = 1 := by
        simpa [List.count_cons, hx] using h
      obtain ⟨pre, e, post, i, hl, he, hloc, her, hnone⟩ := ih hc
      refine ⟨x :: pre, e, post, i + 1, by simp [hl], he, by simp [locate, hx, hloc], ?_, ?_⟩
      · simp [her]
      · simp [locate, hx, hnone]

theorem validateIsNumeric_ok_nonempty (input : String)
    (h : InputValidator.validateIsNumeric input = .ok ()) : input.toList.isEmpty = false := by
  unfold InputValidator.validateIsNumeric at h
  split at h
  · cases h
  · split at h
    · cases h
    · rename_i hne
      cases hl : input.toList.isEmpty with
      | false => rfl
      | true =>
        rw [hl] at hne
        simp at hne

theorem tryAmount_ok (user : User) (amountInput : String) (newAmount a : ℚ)
    (hnum : InputValidator.validateIsNumeric amountInput = .ok ())
    (hstod : stod amountInput = .ok a) :
    tryAmount user amountInput newAmount
      = if Double.lt (BudgetManager.getRemainingBudget user) (.finite a) then
          (a, some insufficientBudget)
        else (a, none) := by
  unfold tryAmount
  rw [hnum, hstod]

theorem tryAmount_throw (user : User) (amountInput : String) (newAmount : ℚ) (e : String)
    (hnum : InputValidator.validateIsNumeric amountInput = .ok ())
    (hstod : stod amountInput = .error e) :
    tryAmount user amountInput newAmount = (newAmount, some e) := by
  unfold tryAmount
  rw [hnum, hstod]

theorem modifyAmountLoop_of_none (user : User) (amountInput : String) (newAmount a : ℚ)
    (rest : List String) (h : tryAmount user amountInput newAmount = (a, none)) :
    modifyAmountLoop user amountInput newAmount rest
      = some { value := a, errors := [], rest := rest } := by
  cases rest with
  | nil =>
    unfold modifyAmountLoop
    rw [h]
  | cons next rest =>
    unfold modifyAmountLoop
    rw [h]

theorem modifyAmountLoop_total (user : User) (rest : List String) :
    ∀ (amountInput : String) (newAmount : ℚ),
      ∃ r, modifyAmountLoop user amountInput newAmount rest = some r := by
  induction rest with
  | nil =>
    intro amountInput newAmount
    unfold modifyAmountLoop
    split <;> exact ⟨_, rfl⟩
  | cons next rest ih =>
    intro amountInput newAmount
    unfold modifyAmountLoop
    split
    · exact ⟨_, rfl⟩
    · rename_i a e _
      split
      · exact ⟨_, rfl⟩
      · obtain ⟨r0, hr0⟩ := ih next a
        rw [hr0]
        exact ⟨_, rfl⟩

theorem modifyAmountLoop_of_some (user : User) (amountInput : String) (newAmount a : ℚ)
    (e : String) (rest : List String) (r : Edited ℚ)
    (h : tryAmount user amountInput newAmount = (a, some e))
    (hr : modifyAmountLoop user amountInput newAmount rest = some r) :
    r.errors.head? = some e := by
  cases rest with
  | nil =>
    unfold modifyAmountLoop at hr
    rw [h] at hr
    simp only [Option.some.injEq] at hr
    subst hr
    rfl
  | cons next rest =>
    unfold modifyAmountLoop at hr
    rw [h] at hr
    simp only [] at hr
    split at hr
    · simp only [Option.some.injEq] at hr
      subst hr
      rfl
    · obtain ⟨r0, hr0⟩ := modifyAmountLoop_total user rest next a
      rw [hr0] at hr
      simp only [Option.map_some', Option.some.injEq] at hr
      subst hr
      rfl

theorem modifyAmount_cons (user : User) (oldAmount : ℚ) (amountInput : String)
    (rest : List String) (hnum : InputValidator.validateIsNumeric amountInput = .ok ()) :
    modifyAmount user oldAmount (amountInput :: rest)
      = modifyAmountLoop user amountInput oldAmount rest := by
  have hne := validateIsNumeric_ok_nonempty amountInput hnum
  simp only [modifyAmount, getline, hne, Bool.false_eq_true, if_false]

theorem modifyCategoryLoop_total (rest : List String) :
    ∀ (categoryInput newCategory : String),
      ∃ r, modifyCategoryLoop categoryInput newCategory rest = some r := by
  induction rest with
  | nil =>
    intro categoryInput newCategory
    unfold modifyCategoryLoop
    split <;> exact ⟨_, rfl⟩
  | cons next rest ih =>
    intro categoryInput newCategory
    unfold modifyCategoryLoop
    split
    · split
      · exact ⟨_, rfl⟩
      · obtain ⟨r0, hr0⟩ := ih next newCategory
        rw [hr0]
        exact ⟨_, rfl⟩
    · exact ⟨_, rfl⟩

theorem modifyDateLoop_total (currentDate : Tm) (rest : List String) :
    ∀ (dateInput newDate : String),
      ∃ r, modifyDateLoop currentDate dateInput newDate rest = some r := by
  induction rest with
  | nil =>
    intro dateInput newDate
    unfold modifyDateLoop
    split <;> exact ⟨_, rfl⟩
  | cons next rest ih =>
    intro dateInput newDate
    unfold modifyDateLoop
    split
    · split
      · exact ⟨_, rfl⟩
      · obtain ⟨r0, hr0⟩ := ih next newDate
        rw [hr0]
        exact ⟨_, rfl⟩
    · exact ⟨_, rfl⟩

theorem modifyCategory_total (oldCategory : String) (lines : List String) :
    ∃ r, modifyCategory oldCategory lines = some r := by
  unfold modifyCategory
  simp only []
  split
  · exact ⟨_, rfl⟩
  · exact modifyCategoryLoop_total _ _ _

theorem modifyDate_total (currentDate : Tm) (oldDate : String) (lines : List String) :
    ∃ r, modifyDate currentDate oldDate lines = some r := by
  unfold modifyDate
  simp only []
  split
  · exact ⟨_, rfl⟩
  · exact modifyDateLoop_total _ _ _ _

theorem locate_nonempty (id : Int) (l : List Expense) (pos : Nat)
    (h : locate id l = some pos) : l.isEmpty = false := by
  cases l with
  | nil => cases h
  | cons x xs => rfl

theorem modifyExpense_of_amount (user : User) (currentDate : Tm) (id : Int) (pos : Nat)
    (expense : Expense) (lines : List String) (a : Edited ℚ) (hid : id ≠ 0)
    (hloc : locate id user.expenses = some pos) (hget : user.expenses.get? pos = some expense)
    (ha : modifyAmount user expense.amount lines = some a) :
    ∃ s category date, modifyExpense user currentDate id lines = some s ∧ s.committed = true
      ∧ (∃ more, s.errors = a.errors ++ more)
      ∧ s.user.expenses = user.expenses.set pos
          { id := expense.id, category := category, amount := a.value, date := date } := by
  obtain ⟨c, hc⟩ := modifyCategory_total expense.category a.rest
  obtain ⟨d, hd⟩ := modifyDate_total currentDate expense.date c.rest
  have hrun : modifyExpense user currentDate id lines
      = some { user := { user with expenses :=
                  user.expenses.set pos { id := expense.id, category := c.value,
                                          amount := a.value, date := d.value } },
               committed := true, errors := a.errors ++ c.errors ++ d.errors,
               rest := d.rest } := by
    unfold modifyExpense
    simp only []
    rw [locate_nonempty id _ pos hloc, if_neg (by simp), if_neg hid, hloc]
    simp only []
    rw [hget]
    simp only []
    rw [ha]
    simp only []
    rw [hc]
    simp only []
    rw [hd]
  exact ⟨_, c.value, d.value, hrun, rfl, ⟨c.errors ++ d.errors, by simp⟩, rfl⟩

theorem modifyExpense_blank_rest (user : User) (currentDate : Tm) (id : Int) (pos : Nat)
    (expense : Expense) (lines rest : List String) (a : Edited ℚ) (hid : id ≠ 0)
    (hloc : locate id user.expenses = some pos) (hget : user.expenses.get? pos = some expense)
    (ha : modifyAmount user expense.amount lines = some a)
    (hrest : a.rest = "" :: "" :: rest) :
    modifyExpense user currentDate id lines
      = some { user := { user with expenses :=
                  user.expenses.set pos { expense with amount := a.value } },
               committed := true, errors := a.errors, rest := rest } := by
  have hb : ("".toList.isEmpty) = true := by decide
  unfold modifyExpense
  simp only []
  rw [locate_nonempty id _ pos hloc, if_neg (by simp), if_neg hid, hloc]
  simp only []
  rw [hget]
  simp only []
  rw [ha]
  simp only [hrest, modifyCategory, modifyDate, getline, hb, if_true, List.append_nil]
/-! ## Add expense -/

/-- C1, the code at the failing input: with budget 100 and one stored expense of 50 the
remaining budget is 50, yet `addExpense` accepts the amount 60 without any error, appends
the record, and the remaining budget becomes -10. The amount is compared with
`getBudget`, not with `getRemainingBudget`. -/
theorem addExpense_accepts_amount_over_remaining :
    BudgetManager.getRemainingBudget Sample.half = 50
      ∧ stod "60" = .ok 60
      ∧ addExpense Sample.half Sample.noon ["60", "Transport", "2024-03-15"]
        = some { user := { Sample.half with expenses := Sample.half.expenses ++
                    [{ id := 2, category := "Transport", amount := 60,
                       date := "2024-03-15" }] },
                 committed := true, errors := [], rest := [] }
      ∧ BudgetManager.getRemainingBudget { Sample.half with expenses :=
            Sample.half.expenses ++
              [{ id := 2, category := "Transport", amount := 60, date := "2024-03-15" }] }
          = -10 := by
  have h60 : stod "60" = .ok 60 :=
    stod_of_core "60" 8444249301319680 (-47) 60 (by decide) (by norm_num)
  refine ⟨getRemainingBudget_half, h60, ?_, ?_⟩
  · rw [addExpense_accept _ _ _ _ _ _ 60 (by decide) (by decide) h60
      (by norm_num [Sample.half]) (by decide) (by decide) (by decide) (by decide)]
    simp [Sample.half]
  · rw [getRemainingBudget_of_exact]
    · rw [show (-10 : Double) = .finite (-10) from rfl]
      norm_num [Sample.half]
    · refine ⟨Binary64.exact_of_eq_natCast _ 50 (by norm_num [Sample.half]) (by norm_num),
        Binary64.exact_of_eq_natCast _ 110 (by norm_num [Sample.half]) (by norm_num), trivial⟩
    · exact Binary64.exact_of_eq_neg_natCast _ 10 (by norm_num [Sample.half]) (by norm_num)

/-- C3: on a collection of n expenses, entered tokens that pass the checks of the three
prompts (the amount text is numeric, `stod` returns a value for it, and that value is not
above the budget) make `addExpense` commit, and whenever `addExpense` commits (after any
number of rejected attempts) the committed amount is what `stod` returned for an entered
token that passed the checks, the category and the date are entered tokens, and the All
view of the new collection lists the n prior records unchanged and in order, followed by
one record with exactly that category, amount and date and with id n + 1. A numeric token
on which `stod` throws is answered with the text of the exception and commits nothing. -/
theorem addExpense_round_trip (user : User) (currentDate : Tm) :
    (∀ (amountInput category date : String) (rest : List String) (amount : ℚ),
        amountInput ≠ "x" ∧ amountInput ≠ "X"
        → InputValidator.validateIsNumeric amountInput = .ok ()
        → stod amountInput = .ok amount
        → amount ≤ user.budget
        → category ≠ "x" ∧ category ≠ "X"
        → InputValidator.validateNotEmpty category = .ok ()
        → date ≠ "x" ∧ date ≠ "X"
        → checkDate currentDate date = .ok ()
        → ∃ s, addExpense user currentDate (amountInput :: category :: date :: rest) = some s
            ∧ s.committed = true ∧ s.rest = rest
            ∧ (AllViewStrategy.viewExpenses s.user 0).rows
              = (AllViewStrategy.viewExpenses user 0).rows ++
                  [{ id := (user.expenses.length : Int) + 1, category := category,
                     amount := amount, date := date }])
      ∧ (∀ (input : List String) (s : Session),
          addExpense user currentDate input = some s → s.committed = true
          → ∃ amountInput category date amount,
              amountInput ∈ input ∧ category ∈ input ∧ date ∈ input
                ∧ InputValidator.validateIsNumeric amountInput = .ok ()
                ∧ stod amountInput = .ok amount
                ∧ checkDate currentDate date = .ok ()
                ∧ (AllViewStrategy.viewExpenses user 0).rows = user.expenses
                ∧ (AllViewStrategy.viewExpenses s.user 0).rows
                  = (AllViewStrategy.viewExpenses user 0).rows ++
                      [{ id := (user.expenses.length : Int) + 1, category := category,
                         amount := amount, date := date }])
      ∧ (∀ (amountInput : String) (rest : List String) (e : String),
          amountInput ≠ "x" ∧ amountInput ≠ "X"
          → InputValidator.validateIsNumeric amountInput = .ok ()
          → stod amountInput = .error e
          → addExpense user currentDate (amountInput :: "x" :: rest)
              = some { user := user, committed := false, errors := [e], rest := rest }) := by
  refine ⟨?_, ?_, ?_⟩
  · intro amountInput category date rest amount hxa hnum hstod hle hxc hne hxd hok
    refine ⟨_, addExpense_accept user currentDate amountInput category date rest amount hxa
      hnum hstod hle hxc hne hxd hok, rfl, rfl, ?_⟩
    rw [(allView_rows _ 0).1, (allView_rows user 0).1]
  · intro input s h hc
    obtain ⟨a, c, d, amount, ha, hcm, hd, hnum, hstod, _, hok, hexp⟩ :=
      addExpense_committed user currentDate input s h hc
    refine ⟨a, c, d, amount, ha, hcm, hd, hnum, hstod, hok, (allView_rows user 0).1, ?_⟩
    rw [(allView_rows s.user 0).1, (allView_rows user 0).1, hexp]
  · intro amountInput rest e hx hnum hstod
    exact addExpense_throw_then_cancel user currentDate amountInput rest e hx hnum hstod

/-- C3, concrete check: on the collection holding one expense, entering 30, Transport and
today commits, and the All view then lists the old record followed by the new one with
id 2; the text `0.` followed by 400 zeros and `1` is answered with `stod`, and cancelling
then leaves the collection as it was. -/
theorem addExpense_round_trip_witness :
    (∃ s, addExpense Sample.half Sample.noon ["30", "Transport", "2024-03-15"] = some s
      ∧ s.committed = true ∧ s.rest = []
      ∧ (AllViewStrategy.viewExpenses s.user 0).rows
        = [{ id := 1, category := "Food", amount := 50, date := "2024-03-15" },
           { id := 2, category := "Transport", amount := 30, date := "2024-03-15" }])
      ∧ addExpense Sample.half Sample.noon [Sample.tinyText, "x"]
          = some { user := Sample.half, committed := false, errors := ["stod"], rest := [] } := by
  refine ⟨?_, (addExpense_round_trip Sample.half Sample.noon).2.2 Sample.tinyText [] "stod"
    tinyText_ne_x validateIsNumeric_tinyText stod_tinyText⟩
  have h30 : stod "30" = .ok 30 :=
    stod_of_core "30" 8444249301319680 (-48) 30 (by decide) (by norm_num)
  obtain ⟨s, hs, hc, hr, hrows⟩ :=
    (addExpense_round_trip Sample.half Sample.noon).1 "30" "Transport" "2024-03-15" [] 30
      (by decide) (by decide) h30 (by norm_num [Sample.half]) (by decide) (by decide)
      (by decide) (by decide)
  refine ⟨s, hs, hc, hr, ?_⟩
  rw [hrows, (allView_rows Sample.half 0).1]
  simp [Sample.half]

/-- C4, the code at the failing input: from the empty collection, add, add, confirmed
removal of id 1 and one more add lead to a collection whose two records both carry the
id 2, so the ids are not pairwise distinct. -/
theorem addExpense_repeats_id_after_remove :
    runOperations Sample.fresh Sample.reuseOps = some Sample.dup
      ∧ Sample.dup.expenses.map Expense.id = [2, 2]
      ∧ ¬ (Sample.dup.expenses.map Expense.id).Nodup := by
  refine ⟨run_reuseOps, by decide, by decide⟩

/-! ## Remove expense -/

theorem removeExpense_of_unique_id (user : User) (k : Int) (deleteChoice : Char)
    (hk : k ≠ 0) (hyes : tolower deleteChoice = 'y')
    (hone : (user.expenses.map Expense.id).count k = 1) :
    ∃ pre e post,
      user.expenses = pre ++ e :: post ∧ e.id = k
        ∧ (removeExpense user k deleteChoice).expenses = pre ++ post
        ∧ locate k (removeExpense user k deleteChoice).expenses = none
        ∧ (removeExpense user k deleteChoice).budget = user.budget
        ∧ (removeExpense user k deleteChoice).username = user.username
        ∧ (removeExpense user k deleteChoice).password = user.password := by
  obtain ⟨pre, e, post, i, hl, he, hloc, her, hnone⟩ := remove_core k user.expenses hone
  have hne : user.expenses.isEmpty = false := by rw [hl]; cases pre <;> rfl
  have hrun : removeExpense user k deleteChoice
      = { user with expenses := user.expenses.eraseIdx i } := by
    unfold removeExpense
    rw [hne, if_neg (by simp), if_neg hk, hloc]
    simp only []
    rw [if_pos hyes]
  refine ⟨pre, e, post, hl, he, ?_, ?_, ?_, ?_, ?_⟩
  · rw [hrun, ← her]
  · rw [hrun]
    simp only []
    rw [her, hnone]
  · rw [hrun]
  · rw [hrun]
  · rw [hrun]

/-- C5, the code at the failing input: in the collection reached from the empty one by
add, add, confirmed removal of id 1, add, two records carry the id 2. The confirmed
removal of id 2 erases the first of them only, and a lookup of id 2 afterwards still finds
a record. -/
theorem removeExpense_leaves_same_id_record :
    runOperations Sample.fresh Sample.reuseOps = some Sample.dup
      ∧ (2 : Int) ∈ Sample.dup.expenses.map Expense.id
      ∧ (removeExpense Sample.dup 2 'y').expenses
          = [{ id := 2, category := "Tea", amount := 5, date := "2024-03-03" }]
      ∧ locate 2 (removeExpense Sample.dup 2 'y').expenses = some 0 := by
  have hrun : (removeExpense Sample.dup 2 'y').expenses
      = [{ id := 2, category := "Tea", amount := 5, date := "2024-03-03" }] := by
    have hl : locate 2 Sample.dup.expenses = some 0 := by decide
    have hy : tolower 'y' = 'y' := by decide
    unfold removeExpense
    rw [hl]
    simp [Sample.dup, hy]
  refine ⟨run_reuseOps, by decide, hrun, ?_⟩
  rw [hrun]
  simp [locate]

/-! ## Modify expense -/

theorem stod_zero : stod "0" = .ok 0 :=
  stod_of_core "0" 0 0 0 (by decide) (by norm_num)

theorem lt_finite_eq_false_iff (d : Double) (rem a : ℚ) (h : d = .finite rem) :
    Double.lt d (.finite a) = false ↔ a ≤ rem := by
  rw [h]
  simp [Double.lt]

/-- C6, the code at the failing input: budget 100, one stored expense of 50 (remaining
50). In the modify session for id 1 the amount 80 is rejected as over budget, then a
blank line is entered, and category and date are left blank. The record is committed with
amount 80: `newAmount` was assigned before the budget check threw. -/
theorem modifyExpense_commits_rejected_amount :
    BudgetManager.getRemainingBudget Sample.half = 50
      ∧ (modifyExpense Sample.half Sample.noon 1 ["80", "", "", ""]).map
          (fun s => (s.committed, s.errors, s.user.expenses))
        = some (true, [insufficientBudget],
            [{ id := 1, category := "Food", amount := 80, date := "2024-03-15" }]) := by
  have h80 : stod "80" = .ok 80 :=
    stod_of_core "80" 5629499534213120 (-46) 80 (by decide) (by norm_num)
  have hnum : InputValidator.validateIsNumeric "80" = .ok () := by decide
  have hrem : BudgetManager.getRemainingBudget Sample.half = .finite 50 :=
    getRemainingBudget_half
  have hloc : locate 1 Sample.half.expenses = some 0 := by decide
  have htry : tryAmount Sample.half "80" 50 = (80, some insufficientBudget) := by
    rw [tryAmount_ok _ _ _ 80 hnum h80, hrem]
    norm_num [Double.lt]
  have ha : modifyAmount Sample.half 50 ["80", "", "", ""]
      = some { value := 80, errors := [insufficientBudget], rest := ["", ""] } := by
    have hb : ("".toList.isEmpty) = true := by decide
    rw [modifyAmount_cons _ _ _ _ hnum]
    unfold modifyAmountLoop
    rw [htry]
    simp only [hb, if_true]
  refine ⟨getRemainingBudget_half, ?_⟩
  rw [modifyExpense_blank_rest Sample.half Sample.noon 1 0
    { id := 1, category := "Food", amount := 50, date := "2024-03-15" } _ [] _ (by decide)
    hloc rfl ha rfl]
  simp [Sample.half]

theorem head?_append_of_head? (l more : List String) (x : String)
    (h : l.head? = some x) : (l ++ more).head? = some x := by
  cases l with
  | nil => cases h
  | cons y ys => simpa using h

theorem modifyExpense_first_error (user : User) (currentDate : Tm) (id : Int) (pos : Nat)
    (expense : Expense) (amountInput : String) (rest : List String) (a : ℚ) (e : String)
    (hid : id ≠ 0) (hloc : locate id user.expenses = some pos)
    (hget : user.expenses.get? pos = some expense)
    (hnum : InputValidator.validateIsNumeric amountInput = .ok ())
    (htry : tryAmount user amountInput expense.amount = (a, some e)) :
    ∃ s, modifyExpense user currentDate id (amountInput :: rest) = some s
      ∧ s.errors.head? = some e := by
  obtain ⟨r, hr⟩ := modifyAmountLoop_total user rest amountInput expense.amount
  have hhead := modifyAmountLoop_of_some user amountInput expense.amount a e rest r htry hr
  rw [← modifyAmount_cons user expense.amount amountInput rest hnum] at hr
  obtain ⟨s, _, _, hs, _, ⟨more, hmore⟩, _⟩ :=
    modifyExpense_of_amount user currentDate id pos expense _ r hid hloc hget hr
  refine ⟨s, hs, ?_⟩
  rw [hmore]
  exact head?_append_of_head? _ _ _ hhead

/-- C7, as stated, fails: budget 10^16 with the stored amounts 10^16 and 1. The budget
minus the sum of the stored amounts is -1, but `getRemainingBudget` returns 0 (the
addition `10^16 + 1` rounds to `10^16`), and `modifyExpense` accepts and stores the new
amount 0, which is above -1. -/
theorem modifyExpense_accepts_amount_over_exact_difference :
    Sample.absorbed.budget - (Sample.absorbed.expenses.map Expense.amount).sum = -1
      ∧ BudgetManager.getRemainingBudget Sample.absorbed = .finite 0
      ∧ InputValidator.validateIsNumeric "0" = .ok ()
      ∧ stod "0" = .ok 0
      ∧ modifyExpense Sample.absorbed Sample.noon 2 ["0", "", ""]
        = some { user := { Sample.absorbed with expenses :=
                    [{ id := 1, category := "Rent", amount := 10000000000000000,
                       date := "2024-03-01" },
                     { id := 2, category := "Bus", amount := 0, date := "2024-03-02" }] },
                 committed := true, errors := [], rest := [] } := by
  have hnum : InputValidator.validateIsNumeric "0" = .ok () := by decide
  have hloc : locate 2 Sample.absorbed.expenses = some 1 := by decide
  have htry : tryAmount Sample.absorbed "0" 1 = (0, none) := by
    rw [tryAmount_ok _ _ _ 0 hnum stod_zero, getRemainingBudget_absorbed]
    norm_num [Double.lt]
  have ha : modifyAmount Sample.absorbed 1 ["0", "", ""]
      = some { value := 0, errors := [], rest := ["", ""] } := by
    rw [modifyAmount_cons _ _ _ _ hnum]
    exact modifyAmountLoop_of_none _ _ _ _ _ htry
  refine ⟨by norm_num [Sample.absorbed], getRemainingBudget_absorbed, hnum, stod_zero, ?_⟩
  rw [modifyExpense_blank_rest Sample.absorbed Sample.noon 2 1
    { id := 2, category := "Bus", amount := 1, date := "2024-03-02" } _ [] _ (by decide)
    hloc rfl ha rfl]
  simp [Sample.absorbed]

/-- C7, amended: in `modifyExpense`, for the record found under the entered id, a numeric
new amount text for which `stod` returns `a` is accepted (the amount loop is left at once,
without an error, with `newAmount = a`) if and only if `a` is not greater than the value
of `getRemainingBudget()`; that value is the binary64 difference of the budget and the
total accumulated over all stored amounts, the old amount of the edited record included.
An accepted amount is stored in the record when the record is committed; an amount above
the ceiling is answered with the insufficient-budget error; a text on which `stod` throws
is answered with the text of that exception. When `getRemainingBudget()` is the finite
number `rem` the test is `a ≤ rem`, and when no addition and not the subtraction rounds it
is `a ≤ budget - sum of all stored amounts`. -/
theorem modifyExpense_amount_accepted_iff (user : User) (currentDate : Tm) (id : Int)
    (pos : Nat) (expense : Expense) (amountInput : String) (rest : List String)
    (hid : id ≠ 0) (hloc : locate id user.expenses = some pos)
    (hget : user.expenses.get? pos = some expense)
    (hnum : InputValidator.validateIsNumeric amountInput = .ok ()) :
    (∀ a, stod amountInput = .ok a →
        ((∃ r, modifyAmount user expense.amount (amountInput :: rest) = some r
              ∧ r.errors = [] ∧ r.value = a ∧ r.rest = rest)
            ↔ Double.lt (BudgetManager.getRemainingBudget user) (.finite a) = false)
          ∧ (Double.lt (BudgetManager.getRemainingBudget user) (.finite a) = false →
              (∃ s category date,
                  modifyExpense user currentDate id (amountInput :: rest) = some s
                    ∧ s.committed = true
                    ∧ s.user.expenses = user.expenses.set pos
                        { id := expense.id, category := category, amount := a, date := date })
                ∧ modifyExpense user currentDate id (amountInput :: "" :: "" :: rest)
                  = some { user := { user with expenses :=
                              user.expenses.set pos { expense with amount := a } },
                           committed := true, errors := [], rest := rest })
          ∧ (Double.lt (BudgetManager.getRemainingBudget user) (.finite a) = true →
              ∃ s, modifyExpense user currentDate id (amountInput :: rest) = some s
                ∧ s.errors.head? = some insufficientBudget))
      ∧ (∀ e, stod amountInput = .error e →
          ∃ s, modifyExpense user currentDate id (amountInput :: rest) = some s
            ∧ s.errors.head? = some e)
      ∧ BudgetManager.getRemainingBudget user
          = Double.sub (.finite user.budget) (total64 0 user.expenses)
      ∧ (∀ rem a, BudgetManager.getRemainingBudget user = .finite rem →
          (Double.lt (BudgetManager.getRemainingBudget user) (.finite a) = false ↔ a ≤ rem))
      ∧ (Binary64.ExactSums 0 (user.expenses.map Expense.amount) →
          Binary64.Exact (user.budget - (user.expenses.map Expense.amount).sum) →
          ∀ a, (Double.lt (BudgetManager.getRemainingBudget user) (.finite a) = false
            ↔ a ≤ user.budget - (user.expenses.map Expense.amount).sum)) := by
  refine ⟨?_, ?_, rfl, ?_, ?_⟩
  · intro a hstod
    have htry := tryAmount_ok user amountInput expense.amount a hnum hstod
    refine ⟨⟨?_, ?_⟩, ?_, ?_⟩
    · rintro ⟨r, hr, herr, _, _⟩
      cases hlt : Double.lt (BudgetManager.getRemainingBudget user) (.finite a) with
      | false => rfl
      | true =>
        rw [hlt, if_pos rfl] at htry
        rw [modifyAmount_cons user expense.amount amountInput rest hnum] at hr
        have := modifyAmountLoop_of_some user amountInput expense.amount a _ rest r htry hr
        rw [herr] at this
        cases this
    · intro hlt
      rw [hlt, if_neg (by simp)] at htry
      refine ⟨{ value := a, errors := [], rest := rest }, ?_, rfl, rfl, rfl⟩
      rw [modifyAmount_cons user expense.amount amountInput rest hnum]
      exact modifyAmountLoop_of_none _ _ _ _ _ htry
    · intro hlt
      rw [hlt, if_neg (by simp)] at htry
      have ha : ∀ lines, modifyAmount user expense.amount (amountInput :: lines)
          = some { value := a, errors := [], rest := lines } := by
        intro lines
        rw [modifyAmount_cons user expense.amount amountInput lines hnum]
        exact modifyAmountLoop_of_none _ _ _ _ _ htry
      constructor
      · obtain ⟨s, category, date, hs, hc, _, hexp⟩ :=
          modifyExpense_of_amount user currentDate id pos expense _ _ hid hloc hget (ha rest)
        exact ⟨s, category, date, hs, hc, hexp⟩
      · exact modifyExpense_blank_rest user currentDate id pos expense _ rest _ hid hloc hget
          (ha _) rfl
    · intro hlt
      rw [hlt, if_pos rfl] at htry
      exact modifyExpense_first_error user currentDate id pos expense amountInput rest a _
        hid hloc hget hnum htry
  · intro e hstod
    exact modifyExpense_first_error user currentDate id pos expense amountInput rest _ e
      hid hloc hget hnum (tryAmount_throw user amountInput expense.amount e hnum hstod)
  · intro rem a hrem
    exact lt_finite_eq_false_iff _ rem a hrem
  · intro hsum hdiff a
    exact lt_finite_eq_false_iff _ _ a (getRemainingBudget_of_exact user hsum hdiff)

/-- C7 amended, concrete check: with budget 100 and a single expense of 60 the remaining
budget is 40; changing the amount to 50 is answered with the insufficient-budget error,
changing it to 40 is accepted and stored, and the text of 400 nines is answered with
`stod`. -/
theorem modifyExpense_amount_accepted_iff_witness :
    BudgetManager.getRemainingBudget Sample.sixty = .finite 40
      ∧ (∃ s, modifyExpense Sample.sixty Sample.noon 1 ["50", ""] = some s
            ∧ s.errors.head? = some insufficientBudget)
      ∧ modifyExpense Sample.sixty Sample.noon 1 ["40", "", ""]
          = some { user := { Sample.sixty with expenses :=
                      [{ id := 1, category := "Food", amount := 40, date := "2024-03-15" }] },
                   committed := true, errors := [], rest := [] }
      ∧ (∃ s, modifyExpense Sample.sixty Sample.noon 1 [Sample.hugeText, ""] = some s
            ∧ s.errors.head? = some "stod") := by
  have h50 : stod "50" = .ok 50 :=
    stod_of_core "50" 7036874417766400 (-47) 50 (by decide) (by norm_num)
  have h40 : stod "40" = .ok 40 :=
    stod_of_core "40" 5629499534213120 (-47) 40 (by decide) (by norm_num)
  have hloc : locate 1 Sample.sixty.expenses = some 0 := by decide
  have t50 := modifyExpense_amount_accepted_iff Sample.sixty Sample.noon 1 0
    { id := 1, category := "Food", amount := 60, date := "2024-03-15" } "50" [""]
    (by decide) hloc rfl (by decide)
  have t40 := modifyExpense_amount_accepted_iff Sample.sixty Sample.noon 1 0
    { id := 1, category := "Food", amount := 60, date := "2024-03-15" } "40" []
    (by decide) hloc rfl (by decide)
  have thuge := modifyExpense_amount_accepted_iff Sample.sixty Sample.noon 1 0
    { id := 1, category := "Food", amount := 60, date := "2024-03-15" } Sample.hugeText [""]
    (by decide) hloc rfl validateIsNumeric_hugeText
  refine ⟨getRemainingBudget_sixty, ?_, ?_, thuge.2.1 "stod" stod_hugeText⟩
  · refine (t50.1 50 h50).2.2 ?_
    rw [getRemainingBudget_sixty]
    norm_num [Double.lt]
  · have h := ((t40.1 40 h40).2.1 (by
      rw [getRemainingBudget_sixty]
      norm_num [Double.lt])).2
    rw [h]
    simp [Sample.sixty]
end ExpenseManager

/-! ## Account registry -/

namespace AccountManager

theorem usernameExists_iff (username : String) (users : List User) :
    usernameExists username users = true ↔ username ∈ users.map User.username := by
  induction users with
  | nil => simp [usernameExists]
  | cons u us ih =>
    by_cases h : u.username = username
    · simp [usernameExists, h]
    · have h1 : ¬ username = u.username := fun e => h e.symm
      simp [usernameExists, h, h1, ih]

theorem registerUser_nodup (users : List User) (username password : String) (budget : ℚ)
    (h : (users.map User.username).Nodup) :
    ((registerUser users username password budget).2.map User.username).Nodup := by
  unfold registerUser
  cases hex : usernameExists username users with
  | true => simpa using h
  | false =>
    have hnot : username ∉ users.map User.username := by
      intro hm
      rw [(usernameExists_iff username users).mpr hm] at hex
      cases hex
    simp only [Bool.false_eq_true, if_false, List.map_append, List.map_cons, List.map_nil]
    exact List.Nodup.append h (List.nodup_singleton _) (by simpa using hnot)

theorem registerAll_nodup (calls : List (String × String × ℚ)) (users : List User)
    (h : (users.map User.username).Nodup) :
    ((registerAll users calls).map User.username).Nodup := by
  induction calls generalizing users with
  | nil => exact h
  | cons c cs ih => exact ih _ (registerUser_nodup users c.1 c.2.1 c.2.2 h)

theorem login_eq_some_iff (username password : String) (users : List User)
    (h : (users.map User.username).Nodup) (u : User) :
    login username password users = some u
      ↔ u ∈ users ∧ u.username = username ∧ u.password = password := by
  induction users with
  | nil => simp [login]
  | cons x xs ih =>
    have hx : x.username ∉ xs.map User.username := (List.nodup_cons.mp h).1
    have hxs := (List.nodup_cons.mp h).2
    by_cases hn : x.username = username
    · have hnot : ∀ v ∈ xs, v.username ≠ username := by
        intro v hv hvn
        exact hx (hn ▸ hvn ▸ List.mem_map_of_mem _ hv)
      by_cases hp : x.password = password
      · simp only [login, hn, if_true, User.verifyPassword, hp, beq_self_eq_true,
          Option.some.injEq, List.mem_cons]
        constructor
        · intro e
          subst e
          exact ⟨Or.inl rfl, hn, hp⟩
        · rintro ⟨hm | hm, hun, _⟩
          · exact hm.symm
          · exact absurd hun (hnot u hm)
      · have hb : (x.password == password) = false := by simpa using hp
        simp only [login, hn, if_true, User.verifyPassword, hb, Bool.false_eq_true, if_false,
          List.mem_cons]
        constructor
        · intro e
          cases e
        · rintro ⟨hm | hm, hun, hup⟩
          · subst hm
            exact absurd hup hp
          · exact absurd hun (hnot u hm)
    · simp only [login, hn, if_false, List.mem_cons]
      rw [ih hxs]
      constructor
      · rintro ⟨hm, hun, hup⟩
        exact ⟨Or.inr hm, hun, hup⟩
      · rintro ⟨hm | hm, hun, hup⟩
        · subst hm
          exact absurd hun hn
        · exact ⟨hm, hun, hup⟩

/-- C11: `registerUser` returns false iff a user with exactly that username is already
registered, and then the registry is unchanged; otherwise it returns true and the registry
is the old one followed by one new user with the given username, password and budget and
no expenses. -/
theorem registerUser_result (users : List User) (username password : String) (budget : ℚ) :
    ((registerUser users username password budget).1 = false
        ↔ ∃ u ∈ users, u.username = username)
      ∧ ((registerUser users username password budget).1 = false
        → (registerUser users username password budget).2 = users)
      ∧ ((registerUser users username password budget).1 = true
        → (registerUser users username password budget).2
            = users ++ [{ username := username, password := password, expenses := [],
                          budget := budget }]) := by
  unfold registerUser
  cases hex : usernameExists username users with
  | true =>
    have hm := (usernameExists_iff username users).mp hex
    simp only [if_true, true_and, forall_true_left]
    refine ⟨?_, fun h => by cases h⟩
    simpa using hm
  | false =>
    have hnot : username ∉ users.map User.username := by
      intro hm
      rw [(usernameExists_iff username users).mpr hm] at hex
      cases hex
    simp only [Bool.false_eq_true, if_false, forall_true_left, and_true]
    refine ⟨?_, fun h => by cases h⟩
    constructor
    · intro h
      cases h
    · rintro ⟨u, hu, hn⟩
      exact absurd (hn ▸ List.mem_map_of_mem _ hu) hnot

/-- C11, concrete check: registering `ann` again fails and leaves the account of `ann`
(password, budget, expenses) as it was; registering `bob` succeeds and appends the new
user. -/
theorem registerUser_result_witness :
    registerUser [Sample.half] "ann" "other" 7 = (false, [Sample.half])
      ∧ registerUser [Sample.half] "bob" "secret" 50
        = (true, [Sample.half,
            { username := "bob", password := "secret", expenses := [], budget := 50 }]) := by
  have ha := registerUser_result [Sample.half] "ann" "other" 7
  have hb := registerUser_result [Sample.half] "bob" "secret" 50
  have ha1 : (registerUser [Sample.half] "ann" "other" 7).1 = false :=
    ha.1.mpr ⟨Sample.half, by simp, rfl⟩
  have hb1 : (registerUser [Sample.half] "bob" "secret" 50).1 = true := by
    cases h : (registerUser [Sample.half] "bob" "secret" 50).1 with
    | true => rfl
    | false =>
      obtain ⟨u, hu, hn⟩ := hb.1.mp h
      simp only [List.mem_singleton] at hu
      subst hu
      exact absurd hn (by decide)
  exact ⟨Prod.ext ha1 (ha.2.1 ha1), Prod.ext hb1 (hb.2.2 hb1)⟩

/-- C12: in every registry reached from the empty registry by a sequence of
`registerUser` calls, the usernames are pairwise distinct. -/
theorem registerAll_usernames_distinct (calls : List (String × String × ℚ)) :
    ((registerAll [] calls).map User.username).Nodup :=
  registerAll_nodup calls [] (by simp)

/-- C13: on every registry reached by `registerUser` calls, `login` returns a user iff a
registered user has exactly that username and exactly that password, and the user
returned is that one; a known username with a different password and an unknown username
both yield no user. `login` only reads the registry. -/
theorem login_result (calls : List (String × String × ℚ)) (username password : String) :
    (∀ u, login username password (registerAll [] calls) = some u
        ↔ u ∈ registerAll [] calls ∧ u.username = username ∧ u.password = password)
      ∧ ((∃ u ∈ registerAll [] calls, u.username = username ∧ u.password ≠ password)
        → login username password (registerAll [] calls) = none)
      ∧ ((∀ u ∈ registerAll [] calls, u.username ≠ username)
        → login username password (registerAll [] calls) = none) := by
  have hnd := registerAll_nodup calls [] (by simp)
  have hiff := login_eq_some_iff username password (registerAll [] calls) hnd
  refine ⟨hiff, ?_, ?_⟩
  · rintro ⟨u, hu, hn, hp⟩
    cases hl : login username password (registerAll [] calls) with
    | none => rfl
    | some v =>
      obtain ⟨hv, hvn, hvp⟩ := (hiff v).mp hl
      have huv : u = v := List.inj_on_of_nodup_map hnd hu hv (hn.trans hvn.symm)
      subst huv
      exact absurd hvp hp
  · intro hall
    cases hl : login username password (registerAll [] calls) with
    | none => rfl
    | some v =>
      obtain ⟨hv, hvn, _⟩ := (hiff v).mp hl
      exact absurd hvn (hall v hv)

/-- C13, concrete check: after registering `ann`, `bob` and `ann` again, the registry
holds `ann` and `bob`; `ann` logs in with her password, not with another one, and an
unknown name yields no user. -/
theorem login_result_witness :
    registerAll [] Sample.calls
        = [{ username := "ann", password := "pw", expenses := [], budget := 100 },
           { username := "bob", password := "secret", expenses := [], budget := 50 }]
      ∧ login "ann" "pw" (registerAll [] Sample.calls)
        = some { username := "ann", password := "pw", expenses := [], budget := 100 }
      ∧ login "ann" "other" (registerAll [] Sample.calls) = none
      ∧ login "zed" "pw" (registerAll [] Sample.calls) = none := by
  have hreg : registerAll [] Sample.calls
      = [{ username := "ann", password := "pw", expenses := [], budget := 100 },
         { username := "bob", password := "secret", expenses := [], budget := 50 }] := by
    decide
  refine ⟨hreg, ?_, ?_, ?_⟩
  · exact ((login_result Sample.calls "ann" "pw").1 _).mpr
      ⟨by rw [hreg]; simp, rfl, rfl⟩
  · exact (login_result Sample.calls "ann" "other").2.1
      ⟨{ username := "ann", password := "pw", expenses := [], budget := 100 },
        by rw [hreg]; simp, rfl, by decide⟩
  · refine (login_result Sample.calls "zed" "pw").2.2 ?_
    rw [hreg]
    intro u hu
    simp only [List.mem_cons, List.mem_singleton, List.not_mem_nil, or_false] at hu
    rcases hu with hu | hu <;> subst hu <;> decide

end AccountManager

/-! ## Budget update -/


theorem Double.add_finite_shape (a : Double) (b : ℚ) :
    ∃ x, Double.add a (.finite b) = Binary64.round x ∨ Double.add a (.finite b) = .posInf
      ∨ Double.add a (.finite b) = .negInf ∨ Double.add a (.finite b) = .nan := by
  cases a with
  | finite a => exact ⟨a + b, Or.inl rfl⟩
  | posInf => exact ⟨0, Or.inr (Or.inl rfl)⟩
  | negInf => exact ⟨0, Or.inr (Or.inr (Or.inl rfl))⟩
  | nan => exact ⟨0, Or.inr (Or.inr (Or.inr rfl))⟩

theorem total64_cons_shape (start : Double) (e : Expense) (es : List Expense) :
    ∃ x, total64 start (e :: es) = Binary64.round x ∨ total64 start (e :: es) = .posInf
      ∨ total64 start (e :: es) = .negInf ∨ total64 start (e :: es) = .nan := by
  induction es generalizing start e with
  | nil =>
    simp only [total64, List.foldl_cons, List.foldl_nil]
    exact Double.add_finite_shape start e.amount
  | cons e2 es ih =>
    have h := ih (Double.add start (.finite e.amount)) e2
    simpa only [total64, List.foldl_cons] using h

theorem updateBudget_nonneg (user : User) (v : ℚ) (h : 0 ≤ v) :
    BudgetManager.updateBudget user v = { user with budget := v } := by
  unfold BudgetManager.updateBudget
  rw [if_neg (not_lt.mpr h)]

/-- C14, as stated, fails: budget 10^16 with the stored amounts 10^16 and 1, whose sum is
`10^16 + 1`. The value `10^16` is not negative and smaller than that sum, the update is
accepted, and `getRemainingBudget` afterwards is 0, not negative: the addition
`10^16 + 1` rounds to `10^16`. -/
theorem updateBudget_below_sum_leaves_zero :
    (0 : ℚ) ≤ 10000000000000000
      ∧ (10000000000000000 : ℚ) < (Sample.absorbed.expenses.map Expense.amount).sum
      ∧ (BudgetManager.updateBudget Sample.absorbed 10000000000000000).budget
          = 10000000000000000
      ∧ BudgetManager.getRemainingBudget
            (BudgetManager.updateBudget Sample.absorbed 10000000000000000) = .finite 0
      ∧ Double.lt (BudgetManager.getRemainingBudget
            (BudgetManager.updateBudget Sample.absorbed 10000000000000000)) 0 = false := by
  have hupd : BudgetManager.updateBudget Sample.absorbed 10000000000000000 = Sample.absorbed := by
    rw [updateBudget_nonneg _ _ (by norm_num)]
    rfl
  refine ⟨by norm_num, by norm_num [Sample.absorbed], ?_, ?_, ?_⟩
  · rw [hupd]
    rfl
  · rw [hupd]
    exact getRemainingBudget_absorbed
  · rw [hupd, getRemainingBudget_absorbed]
    simp [Double.lt, Double.ofNat_eq]

/-- C14, amended: `updateBudget` leaves the user unchanged for a negative value and
otherwise sets the budget to exactly that value; it never touches the expense collection
and does not look at the stored amounts. After an accepted update `getRemainingBudget` is
the binary64 difference of the new budget and the total accumulated over the stored
amounts; for a new budget that is a binary64 number it is negative exactly when the new
budget is smaller than that accumulated total (an infinite total included), which is the
sum of the stored amounts whenever no addition rounds. -/
theorem updateBudget_result (user : User) (v : ℚ) :
    (v < 0 → BudgetManager.updateBudget user v = user)
      ∧ (0 ≤ v → BudgetManager.updateBudget user v = { user with budget := v })
      ∧ (BudgetManager.updateBudget user v).expenses = user.expenses
      ∧ (0 ≤ v →
          BudgetManager.getRemainingBudget (BudgetManager.updateBudget user v)
            = Double.sub (.finite v) (total64 0 user.expenses))
      ∧ (0 ≤ v → Binary64.Exact v → ∀ t, total64 0 user.expenses = .finite t →
          (Double.lt (BudgetManager.getRemainingBudget (BudgetManager.updateBudget user v)) 0
              = true ↔ v < t))
      ∧ (0 ≤ v → total64 0 user.expenses = .posInf →
          BudgetManager.getRemainingBudget (BudgetManager.updateBudget user v) = .negInf)
      ∧ (0 ≤ v → Binary64.Exact v →
          Binary64.ExactSums 0 (user.expenses.map Expense.amount) →
          v < (user.expenses.map Expense.amount).sum →
          Double.lt (BudgetManager.getRemainingBudget (BudgetManager.updateBudget user v)) 0
            = true) := by
  have hrem : 0 ≤ v →
      BudgetManager.getRemainingBudget (BudgetManager.updateBudget user v)
        = Double.sub (.finite v) (total64 0 user.expenses) := by
    intro h
    rw [updateBudget_nonneg user v h]
    rfl
  have hiff : 0 ≤ v → Binary64.Exact v → ∀ t, total64 0 user.expenses = .finite t →
      (Double.lt (BudgetManager.getRemainingBudget (BudgetManager.updateBudget user v)) 0
          = true ↔ v < t) := by
    intro h hv t ht
    rw [hrem h, ht, Double.sub_finite]
    cases hl : user.expenses with
    | nil =>
      rw [hl] at ht
      have h0 : Binary64.round 0 = .finite t := by
        rw [Binary64.round_zero]
        simpa [total64, Double.ofNat_eq] using ht
      exact Binary64.sub_lt_zero_iff v t hv 0 _ h0 rfl
    | cons e es =>
      rw [hl] at ht
      have hlast : ∃ x, total64 0 (e :: es) = Binary64.round x ∨ total64 0 (e :: es) = .posInf
          ∨ total64 0 (e :: es) = .negInf ∨ total64 0 (e :: es) = .nan := by
        exact total64_cons_shape 0 e es
      obtain ⟨x, hx | hx | hx | hx⟩ := hlast
      · rw [hx] at ht
        exact Binary64.sub_lt_zero_iff v t hv x _ ht rfl
      · rw [hx] at ht
        cases ht
      · rw [hx] at ht
        cases ht
      · rw [hx] at ht
        cases ht
  refine ⟨?_, updateBudget_nonneg user v, ?_, hrem, hiff, ?_, ?_⟩
  · intro h
    unfold BudgetManager.updateBudget
    rw [if_pos h]
  · unfold BudgetManager.updateBudget
    split <;> rfl
  · intro h hinf
    rw [hrem h, hinf]
    rfl
  · intro h hv hsum hlt
    have ht := total64_exact user.expenses 0 hsum
    rw [zero_add] at ht
    have ht2 : total64 0 user.expenses = .finite (user.expenses.map Expense.amount).sum := by
      rw [Double.ofNat_eq, Nat.cast_zero]
      exact ht
    exact (hiff h hv _ ht2).mpr hlt

/-- C14 amended, concrete check: on the account with budget 100 and one expense of 50, the
value -1 changes nothing, and the value 20 is stored and leaves a negative remaining
budget. -/
theorem updateBudget_result_witness :
    BudgetManager.updateBudget Sample.half (-1) = Sample.half
      ∧ BudgetManager.updateBudget Sample.half 20 = { Sample.half with budget := 20 }
      ∧ Double.lt (BudgetManager.getRemainingBudget
          (BudgetManager.updateBudget Sample.half 20)) 0 = true := by
  have h := updateBudget_result Sample.half 20
  exact ⟨(updateBudget_result Sample.half (-1)).1 (by norm_num), h.2.1 (by norm_num),
    h.2.2.2.2.2.2 (by norm_num) (Binary64.exact_of_eq_natCast _ 20 (by norm_num) (by norm_num))
      exactSums_half (by norm_num [Sample.half])⟩
/-! ## Input validation -/

namespace InputValidator

theorem isdigit_dot : isdigit '.' = false := by decide

theorem numericScan_iff (cs : List Char) (hasDecimal : Bool) :
    numericScan cs hasDecimal = true
      ↔ (∀ c ∈ cs, isdigit c = true ∨ c = '.')
        ∧ cs.count '.' ≤ (if hasDecimal then 0 else 1) := by
  induction cs generalizing hasDecimal with
  | nil => simp [numericScan]
  | cons c cs ih =>
    unfold numericScan
    by_cases hd : isdigit c = true
    · have hne : c ≠ '.' := by
        intro e
        rw [e, isdigit_dot] at hd
        cases hd
      simp only [hd, Bool.not_true, Bool.false_eq_true, if_false, ih, List.mem_cons,
        forall_eq_or_imp, true_or, true_and]
      rw [List.count_cons_of_ne (Ne.symm hne)]
    · have hdf : isdigit c = false := by simpa using hd
      by_cases hdot : c = '.'
      · subst hdot
        cases hasDecimal with
        | true =>
          simp [isdigit_dot]
        | false =>
          simp [isdigit_dot, ih]
      · simp [hdf, hdot]

theorem letter_not_numeric (c : Char)
    (h : ('a' ≤ c ∧ c ≤ 'z') ∨ ('A' ≤ c ∧ c ≤ 'Z')) : ¬ (isdigit c = true ∨ c = '.') := by
  have h65 : (65 : Nat) ≤ c.toNat := by
    rcases h with h | h
    · have h1 : (97 : Nat) ≤ c.toNat := h.1
      omega
    · exact h.1
  rintro (hd | hdot)
  · simp only [isdigit, Bool.and_eq_true, decide_eq_true_eq] at hd
    have h2 : c.toNat ≤ 57 := hd.2
    omega
  · subst hdot
    exact absurd h65 (by decide)

/-- C15: `validateIsNumeric` accepts a string iff it is non-empty, its first character is
not `.`, every character is a digit or `.`, and `.` occurs at most once; so a string that
contains a letter, a second `.` or a leading `.` is rejected. -/
theorem validateIsNumeric_accepts_iff (s : String) :
    (validateIsNumeric s = .ok ()
        ↔ s.toList ≠ [] ∧ s.toList.head? ≠ some '.'
          ∧ (∀ c ∈ s.toList, isdigit c = true ∨ c = '.') ∧ s.toList.count '.' ≤ 1)
      ∧ ((∃ c ∈ s.toList, ('a' ≤ c ∧ c ≤ 'z') ∨ ('A' ≤ c ∧ c ≤ 'Z'))
        → validateIsNumeric s ≠ .ok ())
      ∧ (2 ≤ s.toList.count '.' → validateIsNumeric s ≠ .ok ())
      ∧ (s.toList.head? = some '.' → validateIsNumeric s ≠ .ok ()) := by
  have hiff : validateIsNumeric s = .ok ()
      ↔ s.toList ≠ [] ∧ s.toList.head? ≠ some '.'
        ∧ (∀ c ∈ s.toList, isdigit c = true ∨ c = '.') ∧ s.toList.count '.' ≤ 1 := by
    have hscan := numericScan_iff s.toList false
    simp only [Bool.false_eq_true, if_false] at hscan
    unfold validateIsNumeric
    cases hs : numericScan s.toList false with
    | false =>
      simp only [Bool.not_false, if_true]
      constructor
      · intro h
        cases h
      · rintro ⟨_, _, hall, hcount⟩
        rw [hscan.mpr ⟨hall, hcount⟩] at hs
        cases hs
    | true =>
      obtain ⟨hall, hcount⟩ := hscan.mp hs
      simp only [Bool.not_true, Bool.false_eq_true, if_false]
      cases hl : s.toList with
      | nil => simp
      | cons a as =>
        rw [hl] at hall hcount
        by_cases ha : a = '.'
        · simp [ha]
        · simp only [List.isEmpty_cons, List.head?_cons, Bool.false_or, beq_iff_eq,
            Option.some.injEq, ha, if_false, ne_eq, not_false_eq_true, true_and,
            reduceCtorEq]
          exact ⟨fun _ => ⟨hall, hcount⟩, fun _ => trivial⟩
  refine ⟨hiff, ?_, ?_, ?_⟩
  · rintro ⟨c, hc, hletter⟩ hok
    exact letter_not_numeric c hletter ((hiff.mp hok).2.2.1 c hc)
  · intro h2 hok
    have := (hiff.mp hok).2.2.2
    omega
  · intro hh hok
    exact (hiff.mp hok).2.1 hh

/-- C15, concrete check: `12.5` is accepted; `1a` (a letter), `1.2.3` (a second `.`) and
`.5` (a leading `.`) are rejected. -/
theorem validateIsNumeric_accepts_iff_witness :
    validateIsNumeric "12.5" = .ok ()
      ∧ validateIsNumeric "1a" ≠ .ok ()
      ∧ validateIsNumeric "1.2.3" ≠ .ok ()
      ∧ validateIsNumeric ".5" ≠ .ok () :=
  ⟨(validateIsNumeric_accepts_iff "12.5").1.mpr (by decide),
   (validateIsNumeric_accepts_iff "1a").2.1 ⟨'a', by decide, Or.inl (by decide)⟩,
   (validateIsNumeric_accepts_iff "1.2.3").2.2.1 (by decide),
   (validateIsNumeric_accepts_iff ".5").2.2.2 (by decide)⟩

theorem isalnum_space : isalnum ' ' = false := by decide

/-- C16: `validateUsername` accepts a string iff it is non-empty and every character is an
ASCII letter or digit. A non-empty string of such characters has no leading, trailing or
inner space, so the space checks never reject what the alphanumeric check accepts, and the
last throw (contains spaces) is never reached. -/
theorem validateUsername_accepts_iff (s : String) :
    (validateUsername s = .ok () ↔ s.toList ≠ [] ∧ ∀ c ∈ s.toList, isalnum c = true)
      ∧ (∀ c, isalnum c = true
          ↔ ('0' ≤ c ∧ c ≤ '9') ∨ ('a' ≤ c ∧ c ≤ 'z') ∨ ('A' ≤ c ∧ c ≤ 'Z'))
      ∧ ((∀ c ∈ s.toList, isalnum c = true)
        → s.toList.head? ≠ some ' ' ∧ s.toList.getLast? ≠ some ' ' ∧ ' ' ∉ s.toList)
      ∧ validateUsername s ≠ .error containsSpaces := by
  have hspace : (∀ c ∈ s.toList, isalnum c = true)
      → s.toList.head? ≠ some ' ' ∧ s.toList.getLast? ≠ some ' ' ∧ ' ' ∉ s.toList := by
    intro hall
    have hnot : ' ' ∉ s.toList := by
      intro hm
      have := hall ' ' hm
      rw [isalnum_space] at this
      cases this
    exact ⟨fun h => hnot (List.mem_of_mem_head? h),
      fun h => hnot (List.mem_of_getLast?_eq_some h), hnot⟩
  have hany : s.toList.any (fun c => !isalnum c) = false
      ↔ ∀ c ∈ s.toList, isalnum c = true := by
    simp
  refine ⟨?_, ?_, hspace, ?_⟩
  · unfold validateUsername
    revert hspace hany
    generalize s.toList = l
    intro hspace hany
    cases l with
    | nil => simp
    | cons a as =>
      simp only [List.isEmpty_cons, Bool.false_eq_true, if_false]
      by_cases hall : ∀ c ∈ a :: as, isalnum c = true
      · obtain ⟨h1, h2, h3⟩ := hspace hall
        have hb1 : ((a :: as).head? == some ' ' || (a :: as).getLast? == some ' ') = false := by
          rw [Bool.or_eq_false_iff]
          exact ⟨beq_eq_false_iff_ne.mpr h1, beq_eq_false_iff_ne.mpr h2⟩
        have hb2 : (a :: as).any (fun c => !isalnum c) = false := hany.mpr hall
        have hb3 : (a :: as).contains ' ' = false := by
          cases hc : (a :: as).contains ' ' with
          | false => rfl
          | true => exact absurd (by simpa using hc) h3
        rw [hb1, hb2, hb3]
        simp only [Bool.false_eq_true, if_false, true_iff]
        exact ⟨List.cons_ne_nil _ _, hall⟩
      · have hb2 : (a :: as).any (fun c => !isalnum c) = true := by
          cases h : (a :: as).any (fun c => !isalnum c) with
          | true => rfl
          | false => exact absurd (hany.mp h) hall
        rw [hb2]
        split
        · exact ⟨fun h => (by cases h), fun h => absurd h.2 hall⟩
        · simp only [if_true]
          exact ⟨fun h => (by cases h), fun h => absurd h.2 hall⟩
  · intro c
    simp only [isalnum, isdigit, Bool.or_eq_true, Bool.and_eq_true, decide_eq_true_eq]
    tauto
  · unfold validateUsername
    split
    · decide
    · split
      · decide
      · split
        · decide
        · rename_i hany1
          split
          · rename_i hc
            exfalso
            have hall : ∀ c ∈ s.toList, isalnum c = true := by
              apply hany.mp
              simpa using hany1
            exact (hspace hall).2.2 (by simpa using hc)
          · intro h
            cases h

/-- C16, concrete check: `ann42` is accepted; `a b` is rejected, and not by the last
(contains spaces) throw; the empty string is rejected. -/
theorem validateUsername_accepts_iff_witness :
    validateUsername "ann42" = .ok ()
      ∧ validateUsername "a b" ≠ .ok ()
      ∧ validateUsername "a b" ≠ .error containsSpaces
      ∧ validateUsername "" ≠ .ok ()
      ∧ ("ann42".toList.head? ≠ some ' ' ∧ "ann42".toList.getLast? ≠ some ' '
          ∧ ' ' ∉ "ann42".toList) :=
  ⟨(validateUsername_accepts_iff "ann42").1.mpr (by decide),
   fun h => absurd ((validateUsername_accepts_iff "a b").1.mp h).2 (by decide),
   (validateUsername_accepts_iff "a b").2.2.2,
   fun h => absurd ((validateUsername_accepts_iff "").1.mp h).1 (by decide),
   (validateUsername_accepts_iff "ann42").2.2.1 (by decide)⟩

/-- C17: `validateDateFormat` accepts a string iff it has exactly 10 characters, four
digits, `-`, two digits, `-`, two digits. No calendar check is made: `2024-13-45` is
accepted, `2024-1-05` is rejected. -/
theorem validateDateFormat_accepts_iff (s : String) :
    (validateDateFormat s = .ok ()
        ↔ s.toList.length = 10
          ∧ ∃ y1 y2 y3 y4 m1 m2 d1 d2,
              s.toList = [y1, y2, y3, y4, '-', m1, m2, '-', d1, d2]
                ∧ isdigit y1 = true ∧ isdigit y2 = true ∧ isdigit y3 = true
                ∧ isdigit y4 = true ∧ isdigit m1 = true ∧ isdigit m2 = true
                ∧ isdigit d1 = true ∧ isdigit d2 = true)
      ∧ validateDateFormat "2024-13-45" = .ok ()
      ∧ validateDateFormat "2024-1-05" ≠ .ok () := by
  refine ⟨?_, by decide, by decide⟩
  unfold validateDateFormat
  generalize s.toList = l
  constructor
  · intro h
    split at h
    · rename_i y1 y2 y3 y4 s1 m1 m2 s2 d1 d2
      split at h
      · rename_i hc
        simp only [Bool.and_eq_true, beq_iff_eq] at hc
        obtain ⟨⟨⟨⟨⟨⟨⟨⟨⟨h1, h2⟩, h3⟩, h4⟩, h5⟩, h6⟩, h7⟩, h8⟩, h9⟩, h10⟩ := hc
        subst h5
        subst h8
        exact ⟨rfl, y1, y2, y3, y4, m1, m2, d1, d2, rfl, h1, h2, h3, h4, h6, h7, h9, h10⟩
      · cases h
    · cases h
  · rintro ⟨_, y1, y2, y3, y4, m1, m2, d1, d2, hl, h1, h2, h3, h4, h6, h7, h9, h10⟩
    subst hl
    simp [h1, h2, h3, h4, h6, h7, h9, h10]

end InputValidator

/-! ## Username set -/

/-- C19: `isUsernameTaken` is membership in the set; `addUsername` of a member fails with
the duplicate-username error and leaves the set unchanged; `addUsername` of a new name
succeeds and the set becomes the old set plus that name, after which the name is taken
and adding it again fails. -/
theorem username_set_result (v : InputValidator) (n : String) :
    (v.isUsernameTaken n = true ↔ n ∈ v.usernames)
      ∧ (n ∈ v.usernames → v.addUsername n = (.error InputValidator.duplicateUsername, v))
      ∧ (n ∉ v.usernames
        → v.addUsername n = (.ok (), { usernames := insert n v.usernames })
          ∧ (v.addUsername n).2.isUsernameTaken n = true
          ∧ (v.addUsername n).2.addUsername n
            = (.error InputValidator.duplicateUsername, (v.addUsername n).2)) := by
  have htaken : ∀ (w : InputValidator) (m : String),
      w.isUsernameTaken m = true ↔ m ∈ w.usernames := by
    intro w m
    simp [InputValidator.isUsernameTaken]
  have hdup : ∀ (w : InputValidator) (m : String), m ∈ w.usernames
      → w.addUsername m = (.error InputValidator.duplicateUsername, w) := by
    intro w m hm
    unfold InputValidator.addUsername
    rw [if_pos ((htaken w m).mpr hm)]
  refine ⟨htaken v n, hdup v n, ?_⟩
  intro hn
  have hadd : v.addUsername n = (.ok (), { usernames := insert n v.usernames }) := by
    unfold InputValidator.addUsername
    rw [if_neg (fun h => hn ((htaken v n).mp h))]
  have hmem : n ∈ (v.addUsername n).2.usernames := by
    rw [hadd]
    exact Finset.mem_insert_self n v.usernames
  exact ⟨hadd, (htaken _ n).mpr hmem, hdup _ n hmem⟩

/-- C19, concrete check on the set holding `ann`: `ann` is taken and cannot be added;
`bob` is not taken, can be added once, and is taken afterwards. -/
theorem username_set_result_witness :
    ({ usernames := {"ann"} } : InputValidator).addUsername "ann"
        = (.error InputValidator.duplicateUsername, { usernames := {"ann"} })
      ∧ ({ usernames := {"ann"} } : InputValidator).isUsernameTaken "bob" = false
      ∧ ({ usernames := {"ann"} } : InputValidator).addUsername "bob"
        = (.ok (), { usernames := insert "bob" {"ann"} })
      ∧ (({ usernames := {"ann"} } : InputValidator).addUsername "bob").2.isUsernameTaken
          "bob" = true := by
  have ha := username_set_result { usernames := {"ann"} } "ann"
  have hb := username_set_result { usernames := {"ann"} } "bob"
  have hnot : "bob" ∉ ({ usernames := {"ann"} } : InputValidator).usernames := by decide
  refine ⟨ha.2.1 (by decide), ?_, (hb.2.2 hnot).1, (hb.2.2 hnot).2.1⟩
  cases h : ({ usernames := {"ann"} } : InputValidator).isUsernameTaken "bob" with
  | false => rfl
  | true => exact absurd (hb.1.mp h) hnot

/-! ## Date check of addExpense and id reuse -/

namespace ExpenseManager

theorem run_deleteThenAddOps :
    runOperations Sample.fresh Sample.deleteThenAddOps = some Sample.again := by
  have h1 : addExpense Sample.fresh Sample.noon ["10", "Food", "2024-03-01"]
      = some { user := Sample.one, committed := true, errors := [], rest := [] } := by
    rw [addExpense_accept _ _ _ _ _ _ 10 (by decide) (by decide) stod_ten
      (by norm_num [Sample.fresh]) (by decide) (by decide) (by decide) (by decide)]
    simp [Sample.fresh, Sample.one]
  have h2 : removeExpense Sample.one 1 'y' = Sample.fresh := by
    have hl : locate 1 Sample.one.expenses = some 0 := by decide
    have hy : tolower 'y' = 'y' := by decide
    unfold removeExpense
    rw [hl]
    simp [Sample.one, Sample.fresh, hy]
  have h3 : addExpense Sample.fresh Sample.noon ["5", "Tea", "2024-03-03"]
      = some { user := Sample.again, committed := true, errors := [], rest := [] } := by
    rw [addExpense_accept _ _ _ _ _ _ 5 (by decide) (by decide) stod_five
      (by norm_num [Sample.fresh]) (by decide) (by decide) (by decide) (by decide)]
    simp [Sample.fresh, Sample.again]
  simp only [Sample.deleteThenAddOps, runOperations, Operation.run, h1, h2, h3,
    Option.map_some']

/-- C20, the code at the failing input: from the empty collection, an add creates the
record with id 1, the confirmed removal of id 1 deletes it, and the next add creates a
record that carries the id 1 again, the id of the deleted record. -/
theorem addExpense_reuses_deleted_id :
    runOperations Sample.fresh (Sample.deleteThenAddOps.take 1) = some Sample.one
      ∧ Sample.one.expenses.map Expense.id = [1]
      ∧ runOperations Sample.fresh (Sample.deleteThenAddOps.take 2) = some Sample.fresh
      ∧ Sample.fresh.expenses = []
      ∧ runOperations Sample.fresh Sample.deleteThenAddOps = some Sample.again
      ∧ Sample.again.expenses.map Expense.id = [1] := by
  have h1 : addExpense Sample.fresh Sample.noon ["10", "Food", "2024-03-01"]
      = some { user := Sample.one, committed := true, errors := [], rest := [] } := by
    rw [addExpense_accept _ _ _ _ _ _ 10 (by decide) (by decide) stod_ten
      (by norm_num [Sample.fresh]) (by decide) (by decide) (by decide) (by decide)]
    simp [Sample.fresh, Sample.one]
  have h2 : removeExpense Sample.one 1 'y' = Sample.fresh := by
    have hl : locate 1 Sample.one.expenses = some 0 := by decide
    have hy : tolower 'y' = 'y' := by decide
    unfold removeExpense
    rw [hl]
    simp [Sample.one, Sample.fresh, hy]
  refine ⟨?_, by decide, ?_, rfl, run_deleteThenAddOps, by decide⟩
  · simp only [Sample.deleteThenAddOps, List.take, runOperations, Operation.run, h1,
      Option.map_some']
  · simp only [Sample.deleteThenAddOps, List.take, runOperations, Operation.run, h1, h2,
      Option.map_some']

/-! ## Confirmation of removeExpense -/

theorem tolower_eq_y_iff (c : Char) : tolower c = 'y' ↔ c = 'y' ∨ c = 'Y' := by
  constructor
  · intro h
    unfold tolower at h
    split at h
    · rename_i hr
      right
      have h1 : (65 : Nat) ≤ c.toNat := hr.1
      have h2 : c.toNat ≤ 90 := hr.2
      have hc : c = Char.ofNat c.toNat := (Char.ofNat_toNat c).symm
      generalize c.toNat = n at h h1 h2 hc
      subst hc
      interval_cases n <;> first | rfl | (exact absurd h (by decide))
    · exact Or.inl h
  · rintro (h | h) <;> subst h <;> decide

theorem locate_eq_none_iff (k : Int) (l : List Expense) :
    locate k l = none ↔ ∀ e ∈ l, e.id ≠ k := by
  induction l with
  | nil => simp [locate]
  | cons x xs ih =>
    by_cases hx : x.id = k
    · simp [locate, hx]
    · simp [locate, hx, ih]

theorem locate_lt_length (k : Int) (l : List Expense) (i : Nat) (h : locate k l = some i) :
    i < l.length := by
  induction l generalizing i with
  | nil => simp [locate] at h
  | cons x xs ih =>
    by_cases hx : x.id = k
    · simp [locate, hx] at h
      subst h
      simp
    · simp only [locate, hx, if_false, Option.map_eq_some'] at h
      obtain ⟨j, hj, hji⟩ := h
      have := ih j hj
      subst hji
      simp
      omega

/-- C21: `removeExpense` erases the located record only when the confirmation answer is
`y` or `Y`. For every other answer, and whenever the entered id is 0 or matches no
record, the user and the expense collection are left exactly as they were; with the id of
a record and the answer `y` or `Y` the collection gets one record shorter. -/
theorem removeExpense_only_on_yes (user : User) (expenseIdToDelete : Int)
    (deleteChoice : Char) :
    (deleteChoice ≠ 'y' ∧ deleteChoice ≠ 'Y'
        → removeExpense user expenseIdToDelete deleteChoice = user)
      ∧ (expenseIdToDelete = 0 → removeExpense user expenseIdToDelete deleteChoice = user)
      ∧ ((∀ e ∈ user.expenses, e.id ≠ expenseIdToDelete)
        → removeExpense user expenseIdToDelete deleteChoice = user)
      ∧ (removeExpense user expenseIdToDelete deleteChoice ≠ user
        → deleteChoice = 'y' ∨ deleteChoice = 'Y')
      ∧ ((deleteChoice = 'y' ∨ deleteChoice = 'Y') → expenseIdToDelete ≠ 0
        → (∃ e ∈ user.expenses, e.id = expenseIdToDelete)
        → (removeExpense user expenseIdToDelete deleteChoice).expenses.length + 1
            = user.expenses.length) := by
  have hno : deleteChoice ≠ 'y' ∧ deleteChoice ≠ 'Y'
      → removeExpense user expenseIdToDelete deleteChoice = user := by
    rintro ⟨h1, h2⟩
    have hny : ¬ tolower deleteChoice = 'y' := by
      intro h
      rcases (tolower_eq_y_iff deleteChoice).mp h with h | h
      · exact h1 h
      · exact h2 h
    unfold removeExpense
    split
    · rfl
    · split
      · rfl
      · split
        · rfl
        · rfl
  refine ⟨hno, ?_, ?_, ?_, ?_⟩
  · intro h0
    unfold removeExpense
    split
    · rfl
    · rfl
  · intro hall
    unfold removeExpense
    rw [(locate_eq_none_iff expenseIdToDelete user.expenses).mpr hall]
    split
    · rfl
    · split <;> rfl
  · intro hne
    by_contra hc
    push_neg at hc
    exact hne (hno hc)
  · intro hyes hk hex
    have hty := (tolower_eq_y_iff deleteChoice).mpr hyes
    have hsome : ∃ i, locate expenseIdToDelete user.expenses = some i := by
      cases hl : locate expenseIdToDelete user.expenses with
      | some i => exact ⟨i, rfl⟩
      | none =>
        obtain ⟨e, he, hid⟩ := hex
        exact absurd hid ((locate_eq_none_iff _ _).mp hl e he)
    obtain ⟨i, hi⟩ := hsome
    have hlt := locate_lt_length _ _ _ hi
    have hne : user.expenses.isEmpty = false := by
      cases hl : user.expenses with
      | nil => rw [hl] at hlt; simp at hlt
      | cons a as => rfl
    unfold removeExpense
    rw [hne, if_neg (by simp), if_neg hk, hi]
    simp only []
    rw [if_pos hty]
    simp only []
    rw [List.length_eraseIdx]
    rw [if_pos hlt]
    omega

/-- C21, concrete check on the two-record collection: the answers `n` and `x` leave it
unchanged, so do the id 0 and the unknown id 7 with the answer `y`; the answer `Y` for id 2
leaves one record. -/
theorem removeExpense_only_on_yes_witness :
    removeExpense Sample.two 2 'n' = Sample.two
      ∧ removeExpense Sample.two 2 'x' = Sample.two
      ∧ removeExpense Sample.two 0 'y' = Sample.two
      ∧ removeExpense Sample.two 7 'y' = Sample.two
      ∧ (removeExpense Sample.two 2 'Y').expenses.length + 1 = Sample.two.expenses.length :=
  ⟨(removeExpense_only_on_yes Sample.two 2 'n').1 (by decide),
   (removeExpense_only_on_yes Sample.two 2 'x').1 (by decide),
   (removeExpense_only_on_yes Sample.two 0 'y').2.1 rfl,
   (removeExpense_only_on_yes Sample.two 7 'y').2.2.1 (by decide),
   (removeExpense_only_on_yes Sample.two 2 'Y').2.2.2.2 (Or.inr rfl) (by decide)
    ⟨{ id := 2, category := "Bus", amount := 20, date := "2024-03-02" },
      by simp [Sample.two], rfl⟩⟩

end ExpenseManager

/-! ## Yearly view against the monthly views -/

theorem yearly_step_eq (currentYear : Int) :
    YearlyViewStrategy.step currentYear
      = fun st e => if Spec.yearlySelected currentYear e then st.print e else st := by
  funext st e
  unfold YearlyViewStrategy.step Spec.yearlySelected
  cases stringToDate e.date with
  | none => simp
  | some d => by_cases h : d.tm_year + 1900 = currentYear <;> simp [h]

theorem yearly_run (user : User) (totalExpenses : ℚ) (currentDate : Tm) :
    YearlyViewStrategy.viewExpenses user totalExpenses currentDate
      = { rows := user.expenses.filter (Spec.yearlySelected (currentDate.tm_year + 1900)),
          totalExpenses := totalExpenses
            + ((user.expenses.filter
                (Spec.yearlySelected (currentDate.tm_year + 1900))).map Expense.amount).sum,
          found := user.expenses.any (Spec.yearlySelected (currentDate.tm_year + 1900)) } := by
  unfold YearlyViewStrategy.viewExpenses
  simp only [yearly_step_eq, foldl_select]
  simp

theorem monthly_run (user : User) (totalExpenses : ℚ) (month : Int) (currentDate : Tm) :
    MonthlyViewStrategy.viewExpenses user totalExpenses month currentDate
      = { rows := user.expenses.filter
            (Spec.monthlySelected month (currentDate.tm_year + 1900)),
          totalExpenses := totalExpenses
            + ((user.expenses.filter
                (Spec.monthlySelected month (currentDate.tm_year + 1900))).map
                  Expense.amount).sum,
          found := user.expenses.any
            (Spec.monthlySelected month (currentDate.tm_year + 1900)) } := by
  unfold MonthlyViewStrategy.viewExpenses
  simp only [monthly_step_eq, foldl_select]
  simp

theorem stringToDate_month_range (s : String) (d : Tm) (h : stringToDate s = some d) :
    1 ≤ d.tm_mon + 1 ∧ d.tm_mon + 1 ≤ 12 := by
  unfold stringToDate at h
  split at h
  · split at h
    · dsimp only at h
      split at h
      · rename_i hr
        cases h
        simp only
        omega
      · cases h
    · cases h
  · cases h

theorem monthlySelected_iff (month year : Int) (e : Expense) :
    Spec.monthlySelected month year e = true
      ↔ Spec.yearlySelected year e = true
        ∧ ∃ d, stringToDate e.date = some d ∧ d.tm_mon + 1 = month := by
  unfold Spec.monthlySelected Spec.yearlySelected
  cases stringToDate e.date with
  | none => simp
  | some d => simp [and_comm]

theorem sum_monthly_amount (year : Int) (e : Expense) :
    (∑ m ∈ Finset.Icc (1 : Int) 12,
        if Spec.monthlySelected m year e = true then e.amount else 0)
      = if Spec.yearlySelected year e = true then e.amount else 0 := by
  cases hd : stringToDate e.date with
  | none => simp [Spec.monthlySelected, Spec.yearlySelected, hd]
  | some d =>
    have hr := stringToDate_month_range _ _ hd
    have hm : ∀ m : Int, Spec.monthlySelected m year e
        = (decide (d.tm_mon + 1 = m) && decide (d.tm_year + 1900 = year)) := by
      intro m
      simp [Spec.monthlySelected, hd]
    have hy : Spec.yearlySelected year e = decide (d.tm_year + 1900 = year) := by
      simp [Spec.yearlySelected, hd]
    simp only [hm, hy]
    by_cases hyear : d.tm_year + 1900 = year
    · simp only [hyear, decide_True, Bool.and_true, decide_eq_true_eq, if_true]
      rw [Finset.sum_ite_eq (Finset.Icc (1 : Int) 12) (d.tm_mon + 1) (fun _ => e.amount)]
      rw [if_pos (Finset.mem_Icc.mpr hr)]
    · simp [hyear]

theorem sum_monthly_filter (year : Int) (l : List Expense) :
    (∑ m ∈ Finset.Icc (1 : Int) 12,
        ((l.filter (Spec.monthlySelected m year)).map Expense.amount).sum)
      = ((l.filter (Spec.yearlySelected year)).map Expense.amount).sum := by
  induction l with
  | nil => simp
  | cons e es ih =>
    have hstep : ∀ m : Int,
        (((e :: es).filter (Spec.monthlySelected m year)).map Expense.amount).sum
          = (if Spec.monthlySelected m year e = true then e.amount else 0)
            + ((es.filter (Spec.monthlySelected m year)).map Expense.amount).sum := by
      intro m
      cases h : Spec.monthlySelected m year e <;> simp [List.filter_cons, h]
    simp only [hstep, Finset.sum_add_distrib, ih, sum_monthly_amount]
    cases h : Spec.yearlySelected year e <;> simp [List.filter_cons, h]

theorem foldl_select_total64 (p : Expense → Bool) (l : List Expense) (start : Double) :
    l.foldl (fun total e => if p e then Double.add total (.finite e.amount) else total) start
      = total64 start (l.filter p) := by
  induction l generalizing start with
  | nil => rfl
  | cons e es ih =>
    simp only [List.foldl_cons]
    cases hp : p e
    · rw [if_neg (by simp), ih, List.filter_cons_of_neg (by simp [hp])]
    · rw [if_pos rfl, ih, List.filter_cons_of_pos hp]
      rfl

theorem yearly_runningTotal (user : User) (start : Double) (currentDate : Tm) :
    YearlyViewStrategy.runningTotal user start currentDate
      = total64 start
          (user.expenses.filter (Spec.yearlySelected (currentDate.tm_year + 1900))) := by
  rw [← foldl_select_total64]
  unfold YearlyViewStrategy.runningTotal
  simp only []
  congr 1
  funext total e
  unfold Spec.yearlySelected
  cases stringToDate e.date with
  | none => simp
  | some d => by_cases h : d.tm_year + 1900 = currentDate.tm_year + 1900 <;> simp [h]

theorem monthly_runningTotal (user : User) (start : Double) (month : Int)
    (currentDate : Tm) :
    MonthlyViewStrategy.runningTotal user start month currentDate
      = total64 start
          (user.expenses.filter
            (Spec.monthlySelected month (currentDate.tm_year + 1900))) := by
  rw [← foldl_select_total64]
  unfold MonthlyViewStrategy.runningTotal
  simp only []
  congr 1
  funext total e
  unfold Spec.monthlySelected
  cases stringToDate e.date with
  | none => simp
  | some d =>
    by_cases h1 : d.tm_mon + 1 = month <;>
      by_cases h2 : d.tm_year + 1900 = currentDate.tm_year + 1900 <;> simp [h1, h2]

theorem total64_zero_exact (l : List Expense)
    (h : Binary64.ExactSums 0 (l.map Expense.amount)) :
    total64 0 l = .finite (l.map Expense.amount).sum := by
  have ht := total64_exact l 0 h
  rw [zero_add] at ht
  rw [Double.ofNat_eq, Nat.cast_zero]
  exact ht

theorem threeMonths_parse :
    stringToDate "2024-01-05" = some ⟨0, 0, 0, 5, 0, 124⟩
      ∧ stringToDate "2024-02-05" = some ⟨0, 0, 0, 5, 1, 124⟩
      ∧ stringToDate "2024-01-20" = some ⟨0, 0, 0, 20, 0, 124⟩ := by
  decide

theorem threeMonths_yearly_rows :
    Sample.threeMonths.expenses.filter (Spec.yearlySelected (Sample.noon.tm_year + 1900))
      = Sample.threeMonths.expenses := by
  obtain ⟨h1, h2, h3⟩ := threeMonths_parse
  simp [Sample.threeMonths, Sample.noon, List.filter_cons, Spec.yearlySelected, h1, h2, h3]

theorem threeMonths_monthly_rows (m : Int) :
    Sample.threeMonths.expenses.filter (Spec.monthlySelected m (Sample.noon.tm_year + 1900))
      = if m = 1 then
          [{ id := 1, category := "Food", amount := 3602879701896397 / 36028797018963968,
             date := "2024-01-05" },
           { id := 3, category := "Rent", amount := 3602879701896397 / 9007199254740992,
             date := "2024-01-20" }]
        else if m = 2 then
          [{ id := 2, category := "Bus", amount := 3602879701896397 / 36028797018963968,
             date := "2024-02-05" }]
        else [] := by
  obtain ⟨h1, h2, h3⟩ := threeMonths_parse
  by_cases hm1 : m = 1
  · subst hm1
    simp [Sample.threeMonths, Sample.noon, List.filter_cons, Spec.monthlySelected, h1, h2, h3]
  · by_cases hm2 : m = 2
    · subst hm2
      simp [Sample.threeMonths, Sample.noon, List.filter_cons, Spec.monthlySelected, h1, h2, h3]
    · have n1 : ¬ (1 : Int) = m := fun h => hm1 h.symm
      have n2 : ¬ (2 : Int) = m := fun h => hm2 h.symm
      rw [if_neg hm1, if_neg hm2]
      simp [Sample.threeMonths, List.filter_cons, Spec.monthlySelected, h1, h2, h3, n1, n2]

/-- C24, as stated, fails for the totals: amounts 0.1 (January), 0.1 (February) and 0.4
(January) of the current year, as the binary64 numbers `stod` returns. The yearly total is
`(0.1 + 0.1) + 0.4 = 0.6000000000000001`; the monthly totals are `0.1 + 0.4 = 0.5` for
January, `0.1` for February and 0 for every other month, and their sum differs from the
yearly total, both as an exact sum and as the binary64 sum `0.5 + 0.1`. -/
theorem yearly_total_differs_from_monthly_totals :
    YearlyViewStrategy.runningTotal Sample.threeMonths 0 Sample.noon
        = .finite (1351079888211149 / 2251799813685248)
      ∧ MonthlyViewStrategy.runningTotal Sample.threeMonths 0 1 Sample.noon = .finite (1 / 2)
      ∧ MonthlyViewStrategy.runningTotal Sample.threeMonths 0 2 Sample.noon
          = .finite (3602879701896397 / 36028797018963968)
      ∧ (∀ m : Int, m ≠ 1 → m ≠ 2 →
          MonthlyViewStrategy.runningTotal Sample.threeMonths 0 m Sample.noon = .finite 0)
      ∧ (1 / 2 + 3602879701896397 / 36028797018963968 + 0 : ℚ)
          ≠ 1351079888211149 / 2251799813685248
      ∧ Double.add (.finite (1 / 2)) (.finite (3602879701896397 / 36028797018963968))
          = .finite (5404319552844595 / 9007199254740992)
      ∧ (5404319552844595 / 9007199254740992 : ℚ) ≠ 1351079888211149 / 2251799813685248 := by
  have r1 : Binary64.round (0 + 3602879701896397 / 36028797018963968)
      = .finite (3602879701896397 / 36028797018963968) :=
    Binary64.round_frac _ 3602879701896397 36028797018963968 7205759403792794 (-56) _
      (by norm_num) (by norm_num) (by norm_num) (by norm_num) (by decide) (by decide)
      (by norm_num)
  have r2 : Binary64.round (3602879701896397 / 36028797018963968
        + 3602879701896397 / 36028797018963968)
      = .finite (3602879701896397 / 18014398509481984) :=
    Binary64.round_frac _ 3602879701896397 18014398509481984 7205759403792794 (-55) _
      (by norm_num) (by norm_num) (by norm_num) (by norm_num) (by decide) (by decide)
      (by norm_num)
  have r3 : Binary64.round (3602879701896397 / 18014398509481984
        + 3602879701896397 / 9007199254740992)
      = .finite (1351079888211149 / 2251799813685248) :=
    Binary64.round_frac _ 10808639105689191 18014398509481984 5404319552844596 (-53) _
      (by norm_num) (by norm_num) (by norm_num) (by norm_num) (by decide) (by decide)
      (by norm_num)
  have r4 : Binary64.round (3602879701896397 / 36028797018963968
        + 3602879701896397 / 9007199254740992)
      = .finite (1 / 2) :=
    Binary64.round_frac _ 18014398509481985 36028797018963968 4503599627370496 (-53) _
      (by norm_num) (by norm_num) (by norm_num) (by norm_num) (by decide) (by decide)
      (by norm_num)
  have r5 : Binary64.round (1 / 2 + 3602879701896397 / 36028797018963968)
      = .finite (5404319552844595 / 9007199254740992) :=
    Binary64.round_frac _ 21617278211378381 36028797018963968 5404319552844595 (-53) _
      (by norm_num) (by norm_num) (by norm_num) (by norm_num) (by decide) (by decide)
      (by norm_num)
  refine ⟨?_, ?_, ?_, ?_, by norm_num, ?_, by norm_num⟩
  · rw [yearly_runningTotal, threeMonths_yearly_rows]
    simp only [total64, Sample.threeMonths, List.foldl_cons, List.foldl_nil, Double.ofNat_eq,
      Nat.cast_zero, Double.add_finite, r1, r2, r3]
  · rw [monthly_runningTotal, threeMonths_monthly_rows, if_pos rfl]
    simp only [total64, List.foldl_cons, List.foldl_nil, Double.ofNat_eq,
      Nat.cast_zero, Double.add_finite, r1, r4]
  · rw [monthly_runningTotal, threeMonths_monthly_rows, if_neg (by decide), if_pos rfl]
    simp only [total64, List.foldl_cons, List.foldl_nil, Double.ofNat_eq,
      Nat.cast_zero, Double.add_finite, r1]
  · intro m hm1 hm2
    rw [monthly_runningTotal, threeMonths_monthly_rows, if_neg hm1, if_neg hm2]
    simp only [total64, List.foldl_nil, Double.ofNat_eq, Nat.cast_zero]
  · rw [Double.add_finite, r5]

/-- C24, amended: for every collection and current year, an expense is printed by
`YearlyViewStrategy` iff it is printed by `MonthlyViewStrategy` for some month in 1..12,
and by at most one month; each monthly view is the yearly view restricted to that month;
an expense whose date does not parse is printed by neither. The exact sum of the amounts
printed by the yearly view is the sum of the exact sums of the twelve monthly views; the
binary64 totals the views accumulate are these sums, so the yearly total is the sum of the
twelve monthly totals, whenever no addition of the yearly and of the monthly accumulations
rounds. -/
theorem yearly_view_is_sum_of_monthly (user : User) (currentDate : Tm) :
    (∀ e, e ∈ (YearlyViewStrategy.viewExpenses user 0 currentDate).rows
        ↔ ∃ m : Int, 1 ≤ m ∧ m ≤ 12
            ∧ e ∈ (MonthlyViewStrategy.viewExpenses user 0 m currentDate).rows)
      ∧ (∀ (e : Expense) (m1 m2 : Int),
          e ∈ (MonthlyViewStrategy.viewExpenses user 0 m1 currentDate).rows
          → e ∈ (MonthlyViewStrategy.viewExpenses user 0 m2 currentDate).rows → m1 = m2)
      ∧ (∀ m : Int, (MonthlyViewStrategy.viewExpenses user 0 m currentDate).rows
          = (YearlyViewStrategy.viewExpenses user 0 currentDate).rows.filter
              (Spec.monthlySelected m (currentDate.tm_year + 1900)))
      ∧ (YearlyViewStrategy.viewExpenses user 0 currentDate).totalExpenses
          = ∑ m ∈ Finset.Icc (1 : Int) 12,
              (MonthlyViewStrategy.viewExpenses user 0 m currentDate).totalExpenses
      ∧ (∀ e, stringToDate e.date = none
          → e ∉ (YearlyViewStrategy.viewExpenses user 0 currentDate).rows
            ∧ ∀ m : Int, e ∉ (MonthlyViewStrategy.viewExpenses user 0 m currentDate).rows)
      ∧ YearlyViewStrategy.runningTotal user 0 currentDate
          = total64 0 (YearlyViewStrategy.viewExpenses user 0 currentDate).rows
      ∧ (∀ m : Int, MonthlyViewStrategy.runningTotal user 0 m currentDate
          = total64 0 (MonthlyViewStrategy.viewExpenses user 0 m currentDate).rows)
      ∧ (Binary64.ExactSums 0
            ((YearlyViewStrategy.viewExpenses user 0 currentDate).rows.map Expense.amount)
          → (∀ m : Int, 1 ≤ m → m ≤ 12 → Binary64.ExactSums 0
              ((MonthlyViewStrategy.viewExpenses user 0 m currentDate).rows.map
                Expense.amount))
          → (∀ m : Int, 1 ≤ m → m ≤ 12 →
              MonthlyViewStrategy.runningTotal user 0 m currentDate
                = .finite (MonthlyViewStrategy.viewExpenses user 0 m currentDate).totalExpenses)
            ∧ YearlyViewStrategy.runningTotal user 0 currentDate
                = .finite (∑ m ∈ Finset.Icc (1 : Int) 12,
                    (MonthlyViewStrategy.viewExpenses user 0 m currentDate).totalExpenses)) := by
  simp only [yearly_run, monthly_run, zero_add, yearly_runningTotal, monthly_runningTotal]
  refine ⟨?_, ?_, ?_, ?_, ?_, trivial, fun _ => trivial, ?_⟩
  · intro e
    simp only [List.mem_filter]
    constructor
    · rintro ⟨hmem, hy⟩
      have hy' := hy
      unfold Spec.yearlySelected at hy'
      cases hd : stringToDate e.date with
      | none => rw [hd] at hy'; cases hy'
      | some d =>
        have hr := stringToDate_month_range _ _ hd
        exact ⟨d.tm_mon + 1, hr.1, hr.2, hmem,
          (monthlySelected_iff _ _ e).mpr ⟨hy, d, hd, rfl⟩⟩
    · rintro ⟨m, _, _, hmem, hm⟩
      exact ⟨hmem, ((monthlySelected_iff _ _ e).mp hm).1⟩
  · intro e m1 m2 h1 h2
    obtain ⟨_, d1, hd1, hm1⟩ := (monthlySelected_iff _ _ e).mp (List.mem_filter.mp h1).2
    obtain ⟨_, d2, hd2, hm2⟩ := (monthlySelected_iff _ _ e).mp (List.mem_filter.mp h2).2
    rw [hd1] at hd2
    cases hd2
    omega
  · intro m
    rw [List.filter_filter]
    apply List.filter_congr
    intro e _
    cases hm : Spec.monthlySelected m (currentDate.tm_year + 1900) e with
    | false => simp
    | true => simp [((monthlySelected_iff _ _ e).mp hm).1]
  · exact (sum_monthly_filter (currentDate.tm_year + 1900) user.expenses).symm
  · intro e hd
    have hy : Spec.yearlySelected (currentDate.tm_year + 1900) e = false := by
      simp [Spec.yearlySelected, hd]
    refine ⟨fun h => ?_, fun m h => ?_⟩
    · rw [(List.mem_filter.mp h).2] at hy
      cases hy
    · have := ((monthlySelected_iff _ _ e).mp (List.mem_filter.mp h).2).1
      rw [this] at hy
      cases hy

  · intro hy hm
    refine ⟨fun m h1 h2 => total64_zero_exact _ (hm m h1 h2), ?_⟩
    rw [total64_zero_exact _ hy, sum_monthly_filter]

theorem dated_yearly_rows :
    Sample.dated.expenses.filter (Spec.yearlySelected (Sample.noon.tm_year + 1900))
      = [{ id := 2, category := "food", amount := 20, date := "2024-03-08" },
         { id := 3, category := "Rent", amount := 30, date := "2024-04-01" },
         { id := 5, category := "Bus", amount := 7, date := "2024-03-07" }] := by
  decide

theorem dated_monthly_rows (m : Int) (h1 : 1 ≤ m) (h2 : m ≤ 12) :
    Sample.dated.expenses.filter (Spec.monthlySelected m (Sample.noon.tm_year + 1900))
      = if m = 3 then
          [{ id := 2, category := "food", amount := 20, date := "2024-03-08" },
           { id := 5, category := "Bus", amount := 7, date := "2024-03-07" }]
        else if m = 4 then
          [{ id := 3, category := "Rent", amount := 30, date := "2024-04-01" }]
        else [] := by
  interval_cases m <;> decide

/-- C24 amended, concrete check on the sample collection in 2024: the expense of
2024-03-08 is in the March view and in the yearly view, not in the April view; the expense
with the date text `2024-13-01` is in neither the yearly view nor the January view; the
amounts are whole numbers, no addition rounds, and the yearly total 57 is the sum of the
monthly totals. -/
theorem yearly_view_is_sum_of_monthly_witness :
    ({ id := 2, category := "food", amount := 20, date := "2024-03-08" } : Expense)
        ∈ (YearlyViewStrategy.viewExpenses Sample.dated 0 Sample.noon).rows
      ∧ ({ id := 2, category := "food", amount := 20, date := "2024-03-08" } : Expense)
        ∉ (MonthlyViewStrategy.viewExpenses Sample.dated 0 4 Sample.noon).rows
      ∧ ({ id := 4, category := "FOOD", amount := 5, date := "2024-13-01" } : Expense)
        ∉ (YearlyViewStrategy.viewExpenses Sample.dated 0 Sample.noon).rows
      ∧ ({ id := 4, category := "FOOD", amount := 5, date := "2024-13-01" } : Expense)
        ∉ (MonthlyViewStrategy.viewExpenses Sample.dated 0 1 Sample.noon).rows
      ∧ YearlyViewStrategy.runningTotal Sample.dated 0 Sample.noon
          = .finite (∑ m ∈ Finset.Icc (1 : Int) 12,
              (MonthlyViewStrategy.viewExpenses Sample.dated 0 m Sample.noon).totalExpenses)
      ∧ YearlyViewStrategy.runningTotal Sample.dated 0 Sample.noon = .finite 57 := by
  have h := yearly_view_is_sum_of_monthly Sample.dated Sample.noon
  have hmarch : ({ id := 2, category := "food", amount := 20, date := "2024-03-08" } : Expense)
      ∈ (MonthlyViewStrategy.viewExpenses Sample.dated 0 3 Sample.noon).rows := by
    rw [monthly_run]
    decide
  have hbad := h.2.2.2.2.1 { id := 4, category := "FOOD", amount := 5, date := "2024-13-01" }
    (by decide)
  have hyex : Binary64.ExactSums 0
      ((YearlyViewStrategy.viewExpenses Sample.dated 0 Sample.noon).rows.map
        Expense.amount) := by
    rw [yearly_run]
    simp only []
    rw [dated_yearly_rows]
    exact ⟨Binary64.exact_of_eq_natCast _ 20 (by norm_num) (by norm_num),
      Binary64.exact_of_eq_natCast _ 50 (by norm_num) (by norm_num),
      Binary64.exact_of_eq_natCast _ 57 (by norm_num) (by norm_num), trivial⟩
  have hmex : ∀ m : Int, 1 ≤ m → m ≤ 12 → Binary64.ExactSums 0
      ((MonthlyViewStrategy.viewExpenses Sample.dated 0 m Sample.noon).rows.map
        Expense.amount) := by
    intro m h1 h2
    rw [monthly_run]
    simp only []
    rw [dated_monthly_rows m h1 h2]
    split_ifs
    · exact ⟨Binary64.exact_of_eq_natCast _ 20 (by norm_num) (by norm_num),
        Binary64.exact_of_eq_natCast _ 27 (by norm_num) (by norm_num), trivial⟩
    · exact ⟨Binary64.exact_of_eq_natCast _ 30 (by norm_num) (by norm_num), trivial⟩
    · trivial
  have htot := (h.2.2.2.2.2.2.2 hyex hmex).2
  refine ⟨(h.1 _).mpr ⟨3, by decide, by decide, hmarch⟩, ?_, hbad.1, hbad.2 1, htot, ?_⟩
  · intro h4
    exact absurd (h.2.1 _ 3 4 hmarch h4) (by decide)
  · rw [yearly_runningTotal, dated_yearly_rows, total64_zero_exact]
    · norm_num
    · exact ⟨Binary64.exact_of_eq_natCast _ 20 (by norm_num) (by norm_num),
        Binary64.exact_of_eq_natCast _ 50 (by norm_num) (by norm_num),
        Binary64.exact_of_eq_natCast _ 57 (by norm_num) (by norm_num), trivial⟩
/-! ## Registration and login prompts -/

namespace StartScreen

theorem checkBudget_ten : checkBudget "10" = .ok 10 := by
  have hs : InputValidator.validateNoSpaces "10" = .ok () := by decide
  have hn : InputValidator.validateIsNumeric "10" = .ok () := by decide
  simp only [checkBudget, hs, hn, ExpenseManager.stod_ten]
  norm_num

theorem budgetLoop_ten (rest : List String) :
    budgetLoop ("10" :: rest) = some { value := some 10, errors := [], rest := rest } := by
  rw [budgetLoop, if_neg (by decide), checkBudget_ten]

theorem handleRegistration_upper_x :
    handleRegistration [] ["X", "pw", "10", "Y"]
      = some { users := [{ username := "X", password := "pw", expenses := [], budget := 10 }],
               ending := .registered, errors := [], rest := [] } := by
  have hu : usernameLoop [] { usernames := ∅ } ["X", "pw", "10", "Y"]
      = some ({ value := some "X", errors := [], rest := ["pw", "10", "Y"] },
              { usernames := {"X"} }) := by
    rfl
  have hp : passwordLoop ["pw", "10", "Y"]
      = some { value := some "pw", errors := [], rest := ["10", "Y"] } := by
    rfl
  unfold handleRegistration
  rw [hu]
  simp only []
  rw [hp]
  simp only []
  rw [budgetLoop_ten]
  simp [readToken, AccountManager.registerUser, AccountManager.usernameExists]

/-- C22, the code at the failing input: at the registration username prompt the line `X`
is not a cancellation; it is taken as the username, and with the following lines `pw`,
`10` and the confirmation `Y` the account `X` is added to the registry. The line `x` at the
same prompt cancels, and `addExpense` cancels on `x` and on `X` alike. At the login
username prompt `X` is looked up as a name as well. -/
theorem registration_upper_x_is_a_username :
    (handleRegistration [] ["X", "pw", "10", "Y"]).map
        (fun r => (r.users, r.ending, r.errors))
        = some ([{ username := "X", password := "pw", expenses := [], budget := 10 }],
            RegistrationEnd.registered, [])
      ∧ (handleRegistration [] ["x", "pw", "10", "Y"]).map (fun r => (r.users, r.ending))
        = some ([], RegistrationEnd.cancelled)
      ∧ (ExpenseManager.addExpense Sample.half Sample.noon ["X"]).map
          (fun s => (s.user, s.committed)) = some (Sample.half, false)
      ∧ (ExpenseManager.addExpense Sample.half Sample.noon ["x"]).map
          (fun s => (s.user, s.committed)) = some (Sample.half, false)
      ∧ (handleLogin [{ username := "X", password := "pw", expenses := [], budget := 10 }]
          ["X", "pw"]).cancelled = false
      ∧ (handleLogin [{ username := "X", password := "pw", expenses := [], budget := 10 }]
          ["X", "pw"]).user
        = some { username := "X", password := "pw", expenses := [], budget := 10 }
      ∧ (handleLogin [{ username := "X", password := "pw", expenses := [], budget := 10 }]
          ["x", "pw"]).cancelled = true := by
  refine ⟨?_, by decide, by decide, by decide, by decide, by decide, by decide⟩
  rw [handleRegistration_upper_x]
  rfl

/-- C23, the code at the failing input: in the username loop the invalid name `a b` is
entered twice. The first entry is rejected by the alphanumeric check, yet it has been put
into the validator's set before the checks ran; the second entry is therefore rejected as
an already-existing username, and the set holds `a b` although it was never accepted. -/
theorem registration_records_rejected_username :
    InputValidator.validateUsername "a b"
        = .error "Username can only contain letters and numbers."
      ∧ (checkUsername [] { usernames := ∅ } "a b").2.usernames = {"a b"}
      ∧ (usernameLoop [] { usernames := ∅ } ["a b", "a b", "x"]).map
          (fun r => (r.1.value, r.1.errors, r.2.usernames))
        = some (none, ["Username can only contain letters and numbers.",
            InputValidator.duplicateUsername], {"a b"}) := by
  refine ⟨by decide, by decide, by decide⟩

end StartScreen

end ExpenseTracker

